import Mathlib

/-!
# Rately: rating aggregation and authorisation core

A shallow embedding of the backend of the store-rating application
(`backend/models`, `backend/middleware`, `backend/routes`,
`backend/controllers`, `backend/config/initDb.js`) and of two functions of the
frontend (`getPageNumbers`, `getBaseUrl`), together with theorems about them.

Modelling conventions

* A MongoDB collection is a `List` of documents in insertion order; a query
  that returns one document (`findOne`, `findById`, `deleteOne`,
  `findByIdAndUpdate`, `findByIdAndDelete`) acts on the first match.
* An `ObjectId` is a natural number; identifiers that arrive in a request are
  well-formed object ids.
* A JavaScript `Number` is an exact rational: binary64 representation error is
  not modelled, except in `parseInt`, whose result is the integer read rounded
  to binary64.  The arithmetic of the handlers on `page` and `limit` is exact,
  as it is in the code while the numbers stay below `2 ^ 53`.
* Database calls do not fail, so a `catch` branch that answers 500 is part of
  the model only where the handler itself can throw (`req.user` undefined, a
  property read on `null`).  The store write of the recomputation is the one
  call also modelled with a failure, in `calculateAverageRatingOver`.
* Handlers run one after another.  The one piece of work a handler starts
  without awaiting it, the recomputation fired by the `post('save')` hook of
  the rating model, is kept in `Db.pending` until it is completed.
* Timestamps and the `_id` of a rating are not carried by the documents of
  the model: the members of a reply that only copy them (`createdAt`,
  `updatedAt`, the `id` of a rating) are left out, and a sort on a timestamp
  uses the order given by `Env`.
* Library behaviour the code calls and does not define (regular expressions,
  `bcrypt`, `jwt.verify`, case mapping, trimming, id generation) is a
  parameter of the model.  Where one function creates several documents
  (`initializeDatabase`) each gets an id that is not in use.
-/

namespace Rately

/-! ## Data model -/

abbrev ObjectId := Nat

/-- Document of `models/User.js`. -/
structure User where
  id : ObjectId
  name : String
  email : String
  password : String
  address : String
  role : String
  deriving DecidableEq

/-- Modelled from the spec: `models/Store.js` is required by the controllers
and by `models/Rating.js` but its schema is not among the sources.  The fields
are those of section 3 of the specification (name, unique email, address,
nullable owner reference, cached average rating and cached rating count) and
are the ones the controllers read and write. -/
structure Store where
  id : ObjectId
  name : String
  email : String
  address : String
  owner : Option ObjectId
  averageRating : ℚ
  totalRatings : Nat
  deriving DecidableEq

/-- Document of `models/Rating.js`: `user`, `store` and the numeric `rating`. -/
structure Rating where
  user : ObjectId
  store : ObjectId
  rating : ℚ
  deriving DecidableEq

/-- The three collections, and the store ids whose statistics a `post('save')`
hook has started to recompute without the recomputation having completed. -/
structure Db where
  users : List User
  stores : List Store
  ratings : List Rating
  pending : List ObjectId
  deriving DecidableEq

/-- What `authenticateToken` attaches to the request as `req.user`. -/
structure AuthUser where
  userId : ObjectId
  email : String
  role : String
  deriving DecidableEq

/-- The members of `req.body` read by `submitRating`; `none` is an absent member. -/
structure Body where
  storeId : Option ObjectId := none
  rating : Option ℚ := none
  deriving DecidableEq

/-- The parts of an Express request the modelled code reads: the
`authorization` header, `req.user`, `req.params.id` and `req.body`. -/
structure Request where
  authorization : Option String := none
  user : Option AuthUser := none
  paramsId : Option ObjectId := none
  body : Body := {}
  deriving DecidableEq

/-- A JSON reply: the HTTP status and the `error` or `message` member of the body. -/
structure Response where
  status : Nat
  error : Option String
  message : Option String
  deriving DecidableEq

/-! ## `models/Rating.js` -/

/-- One output document of the `$group` stage of `calculateAverageRating`. -/
structure GroupStats where
  id : ObjectId
  averageRating : ℚ
  totalRatings : Nat
  deriving DecidableEq

/-- The pipeline `[{$match: {store: storeId}}, {$group: {_id: '$store',
averageRating: {$avg: '$rating'}, totalRatings: {$sum: 1}}}]`: every matched
document has the same `store`, so there is one group, and none when nothing
matches. -/
def aggregate (ratings : List Rating) (storeId : ObjectId) : List GroupStats :=
  let matched := ratings.filter (fun r => r.store = storeId)
  match matched with
  | [] => []
  | _ :: _ =>
    [{ id := storeId
       averageRating := (matched.map (fun r => r.rating)).sum / (matched.length : ℚ)
       totalRatings := matched.length }]

/-- The expression `Number(x.toFixed(1))`: `toFixed` picks the integer `n` with
`n / 10` closest to `x`, the larger one on a tie, and handles a negative `x`
through `-x`.  The model applies it to the exact mean and the code to the
binary64 nearest to the mean: for a mean halfway between two tenths that is
not itself a binary64 (4.35, unlike 4.25) the code gives the tenth on the side
of that binary64, which may be the smaller one.  What the theorems on a
recomputed average state, a nearest tenth of the mean, holds of both. -/
def toFixed1 (x : ℚ) : ℚ :=
  if x < 0 then -((⌊-x * 10 + 1 / 2⌋ : ℤ) : ℚ) / 10
  else ((⌊x * 10 + 1 / 2⌋ : ℤ) : ℚ) / 10

/-- The query `Store.findById(id)`. -/
def Store.findById (stores : List Store) (id : ObjectId) : Option Store :=
  stores.find? (fun s => s.id = id)

/-- The update `Store.findByIdAndUpdate(id, {averageRating, totalRatings})`:
rewrites the two cached fields of the first store with that id. -/
def Store.findByIdAndUpdate (stores : List Store) (id : ObjectId)
    (averageRating : ℚ) (totalRatings : Nat) : List Store :=
  match stores with
  | [] => []
  | s :: rest =>
    if s.id = id then
      { s with averageRating := averageRating, totalRatings := totalRatings } :: rest
    else s :: Store.findByIdAndUpdate rest id averageRating totalRatings

/-- The static `ratingSchema.statics.calculateAverageRating`, run to completion. -/
def calculateAverageRating (storeId : ObjectId) (db : Db) : Db :=
  let stats := aggregate db.ratings storeId
  match stats with
  | g :: _ =>
    { db with stores := Store.findByIdAndUpdate db.stores storeId
                (toFixed1 g.averageRating) g.totalRatings }
  | [] => { db with stores := Store.findByIdAndUpdate db.stores storeId 0 0 }

/-- The `post('save')` hook: it calls `calculateAverageRating(this.store)` and
returns without awaiting it, so the recomputation is only started. -/
def postSave (doc : Rating) (db : Db) : Db :=
  { db with pending := db.pending ++ [doc.store] }

/-- The recomputations started so far run to completion, oldest first. -/
def completePending (db : Db) : Db :=
  db.pending.foldl (fun d s => calculateAverageRating s d) { db with pending := [] }

/-! ## `middleware/auth.js` -/

/-- What a middleware does with a request: hand over with `next()` or answer. -/
inductive Step where
  | next
  | respond (res : Response)
  deriving DecidableEq

/-- A middleware returns the request as it leaves it and the step it takes. -/
abbrev Middleware := Request → Request × Step

/-- Outcome of `jwt.verify(token, secret)`: the decoded `userId`, or the name of
the error it throws. -/
inductive VerifyResult where
  | decoded (userId : ObjectId)
  | jsonWebTokenError
  | tokenExpiredError
  | otherError
  deriving DecidableEq

/-- The query `User.findById(id)`. -/
def User.findById (users : List User) (id : ObjectId) : Option User :=
  users.find? (fun u => u.id = id)

/-- The call `s.split(' ')` on the characters of a string: the pieces between
single spaces, empty pieces included. -/
def splitSpace : List Char → List (List Char)
  | [] => [[]]
  | c :: rest =>
    if c = ' ' then [] :: splitSpace rest
    else
      match splitSpace rest with
      | [] => [[c]]
      | w :: ws => (c :: w) :: ws

/-- The expression `authHeader && authHeader.split(' ')[1]`, with `none` for
`undefined`. -/
def bearerToken (authHeader : Option String) : Option String :=
  match authHeader with
  | none => none
  | some h => if h = "" then some "" else ((splitSpace h.data)[1]?).map String.mk

/-- The middleware `authenticateToken`; `verify` stands for `jwt.verify` with the
server secret. -/
def authenticateToken (verify : String → VerifyResult) (users : List User) : Middleware :=
  fun req =>
    match bearerToken req.authorization with
    | none => (req, .respond ⟨401, some "Access token required", none⟩)
    | some token =>
      if token = "" then (req, .respond ⟨401, some "Access token required", none⟩)
      else
        match verify token with
        | .decoded userId =>
          match User.findById users userId with
          | none => (req, .respond ⟨401, some "User not found", none⟩)
          | some user =>
            ({ req with user := some { userId := user.id, email := user.email, role := user.role } },
              .next)
        | .jsonWebTokenError => (req, .respond ⟨403, some "Invalid token", none⟩)
        | .tokenExpiredError => (req, .respond ⟨403, some "Token expired", none⟩)
        | .otherError => (req, .respond ⟨500, some "Internal server error", none⟩)

/-- The middleware factory `requireRole(roles)`. -/
def requireRole (roles : List String) : Middleware :=
  fun req =>
    match req.user with
    | none => (req, .respond ⟨401, some "Authentication required", none⟩)
    | some u =>
      if u.role ∈ roles then (req, .next)
      else (req, .respond ⟨403, some "Insufficient permissions", none⟩)

def requireAdmin : Middleware := requireRole ["system_admin"]
def requireNormalUser : Middleware := requireRole ["normal_user"]
def requireStoreOwner : Middleware := requireRole ["store_owner"]
def requireAdminOrStoreOwner : Middleware := requireRole ["system_admin", "store_owner"]

/-! ## `routes/admin.js` and `routes/stores.js` -/

/-- The validators the routers import from `middleware/validation.js`. -/
structure Validation where
  validateAdminUserCreation : Middleware
  validateStore : Middleware
  validateRating : Middleware

/-- Express runs a stack of middlewares in order until one answers. -/
def runStack : List Middleware → Request → Request × Step
  | [], req => (req, .next)
  | m :: ms, req =>
    match m req with
    | (req1, .next) => runStack ms req1
    | (req1, .respond res) => (req1, .respond res)

/-- The handlers mounted by `routes/admin.js`. -/
inductive AdminHandler where
  | getDashboardStats
  | createUser
  | getUsers
  | getUserById
  | updateUser
  | deleteUser
  | createStore
  | getStores
  deriving DecidableEq

/-- The handlers mounted by `routes/stores.js`. -/
inductive StoreHandler where
  | getStores
  | getStoreById
  | submitRating
  | getUserRatings
  | getStoreRatings
  deriving DecidableEq

/-- Middlewares in front of each handler of the admin router: the two
`router.use` calls, then the validators of the route. -/
def adminStack (authenticate : Middleware) (v : Validation) : AdminHandler → List Middleware
  | .getDashboardStats => [authenticate, requireAdmin]
  | .createUser => [authenticate, requireAdmin, v.validateAdminUserCreation]
  | .getUsers => [authenticate, requireAdmin]
  | .getUserById => [authenticate, requireAdmin]
  | .updateUser => [authenticate, requireAdmin]
  | .deleteUser => [authenticate, requireAdmin]
  | .createStore => [authenticate, requireAdmin, v.validateStore]
  | .getStores => [authenticate, requireAdmin]

/-- Middlewares in front of each handler of the stores router: the
`router.use(authenticateToken)` call, then those listed on the route. -/
def storesStack (authenticate : Middleware) (v : Validation) : StoreHandler → List Middleware
  | .getStores => [authenticate, requireNormalUser]
  | .getStoreById => [authenticate, requireNormalUser]
  | .submitRating => [authenticate, requireNormalUser, v.validateRating]
  | .getUserRatings => [authenticate, requireNormalUser]
  | .getStoreRatings => [authenticate, requireStoreOwner]

/-- Modelled from the spec: `validateRating` of `middleware/validation.js` is
mounted in front of `submitRating` but is not among the sources.  Section 4.4
has the submission validate that `storeId` and `rating` are present and that
`rating` is an integer in [1,5], and section 8 has a violation rejected with a
400; the text of the message is not specified. -/
def validateRating : Middleware :=
  fun req =>
    match req.body.storeId, req.body.rating with
    | some _, some r =>
      if r.den = 1 ∧ 1 ≤ r ∧ r ≤ 5 then (req, .next)
      else (req, .respond ⟨400, some "Validation failed", none⟩)
    | _, _ => (req, .respond ⟨400, some "Validation failed", none⟩)

/-! ## `controllers/storeController.js` -/

/-- The query `Rating.findOne({user, store})`. -/
def Rating.findOne (ratings : List Rating) (user store : ObjectId) : Option Rating :=
  ratings.find? (fun r => r.user = user ∧ r.store = store)

/-- The assignment `existingRating.rating = rating` followed by the write of
`existingRating.save()`: the document `findOne` returned, the first one of that
user and store, gets the new value. -/
def Rating.overwrite (ratings : List Rating) (user store : ObjectId) (rating : ℚ) : List Rating :=
  match ratings with
  | [] => []
  | r :: rest =>
    if r.user = user ∧ r.store = store then { r with rating := rating } :: rest
    else r :: Rating.overwrite rest user store rating

/-- The handler `submitRating`.  A save, of an existing or of a new document,
is followed by the `post('save')` hook. -/
def submitRating (req : Request) (db : Db) : Response × Db :=
  match req.user with
  | none => (⟨500, some "Internal server error", none⟩, db)
  | some u =>
    let userId := u.userId
    match req.body.storeId, req.body.rating with
    | some storeId, some rating =>
      if rating = 0 then (⟨400, some "Store ID and rating are required", none⟩, db)
      else if rating < 1 ∨ rating > 5 then
        (⟨400, some "Rating must be between 1 and 5", none⟩, db)
      else
        match Store.findById db.stores storeId with
        | none => (⟨404, some "Store not found", none⟩, db)
        | some _ =>
          match Rating.findOne db.ratings userId storeId with
          | some existingRating =>
            let saved : Rating := { existingRating with rating := rating }
            (⟨200, none, some "Rating submitted successfully"⟩,
              postSave saved
                { db with ratings := Rating.overwrite db.ratings userId storeId rating })
          | none =>
            let created : Rating := { user := userId, store := storeId, rating := rating }
            (⟨200, none, some "Rating submitted successfully"⟩,
              postSave created { db with ratings := db.ratings ++ [created] })
    | _, _ => (⟨400, some "Store ID and rating are required", none⟩, db)

/-- The tail `validateRating, storeController.submitRating` of the route
`POST /ratings`, reached once authentication and the role check have passed. -/
def validatedSubmitRating (req : Request) (db : Db) : Response × Db :=
  match validateRating req with
  | (_, .respond res) => (res, db)
  | (req1, .next) => submitRating req1 db

/-! ## `controllers/adminController.js` -/

/-- The call `User.findByIdAndDelete(id)`: removes the first user with that id
and returns it. -/
def User.findByIdAndDelete (users : List User) (id : ObjectId) : Option User × List User :=
  match users with
  | [] => (none, [])
  | u :: rest =>
    if u.id = id then (some u, rest)
    else
      let (found, rest1) := User.findByIdAndDelete rest id
      (found, u :: rest1)

/-- The call `Store.deleteOne({owner: id})`: removes the first store of that owner. -/
def Store.deleteOne (stores : List Store) (owner : ObjectId) : List Store :=
  match stores with
  | [] => []
  | s :: rest =>
    if s.owner = some owner then rest else s :: Store.deleteOne rest owner

/-- The call `Rating.deleteMany({user: id})`. -/
def Rating.deleteMany (ratings : List Rating) (user : ObjectId) : List Rating :=
  ratings.filter (fun r => r.user ≠ user)

/-- The handler `deleteUser`. -/
def deleteUser (req : Request) (db : Db) : Response × Db :=
  match req.paramsId with
  | none => (⟨404, some "User not found", none⟩, db)
  | some id =>
    match User.findByIdAndDelete db.users id with
    | (none, _) => (⟨404, some "User not found", none⟩, db)
    | (some user, users1) =>
      let stores1 := if user.role = "store_owner" then Store.deleteOne db.stores id else db.stores
      (⟨200, none, some "User deleted successfully"⟩,
        { db with users := users1, stores := stores1, ratings := Rating.deleteMany db.ratings id })

/-! ## Listings: what the handlers take from their environment -/

/-- Library behaviour the handlers rely on and the model does not fix: the
match of a `$regex` with `$options: 'i'` against a field, `bcrypt.hash` with
the salt rounds of the code, `String.prototype.toLowerCase` and
`String.prototype.trim`, the `ObjectId` given to a created document, and the
timestamps Mongoose keeps (`createdAt` of a user, `updatedAt` of the rating of a
user for a store). -/
structure Env where
  regexTest : String → String → Bool
  hash : String → String
  toLowerCase : String → String
  trim : String → String
  newId : ObjectId
  userCreatedAt : ObjectId → Nat
  ratingUpdatedAt : ObjectId → ObjectId → Nat

/-- The members of `req.query` the listing handlers read; `none` is an absent
parameter. -/
structure Query where
  search : Option String := none
  name : Option String := none
  email : Option String := none
  address : Option String := none
  role : Option String := none
  sortBy : Option String := none
  sortOrder : Option String := none
  page : Option String := none
  limit : Option String := none
  deriving DecidableEq

/-- A reply of a handler whose success body is an `α`: `res.status(s).json(...)`
with an `error` member, or with the body (status 200 unless set). -/
inductive Reply (α : Type) where
  | error (status : Nat) (error : String)
  | json (status : Nat) (body : α)
  deriving DecidableEq

/-- Status of a reply. -/
def Reply.status {α : Type} : Reply α → Nat
  | Reply.error s _ => s
  | Reply.json s _ => s

/-- Truthiness of an optional string parameter: present and not empty. -/
def truthy (s : Option String) : Bool :=
  match s with
  | none => false
  | some v => v ≠ ""

/-- White space and line terminators skipped by `parseInt`. -/
def isJsWhiteSpace (c : Char) : Bool :=
  c.toNat ∈ [0x9, 0xA, 0xB, 0xC, 0xD, 0x20, 0xA0, 0x1680, 0x2000, 0x2001, 0x2002, 0x2003, 0x2004,
    0x2005, 0x2006, 0x2007, 0x2008, 0x2009, 0x200A, 0x2028, 0x2029, 0x202F, 0x205F, 0x3000, 0xFEFF]

/-- Value of a character as a digit in the given radix. -/
def digitValue (radix : Nat) (c : Char) : Option Nat :=
  let n := c.toNat
  let v :=
    if 48 ≤ n ∧ n ≤ 57 then some (n - 48)
    else if 97 ≤ n ∧ n ≤ 122 then some (n - 87)
    else if 65 ≤ n ∧ n ≤ 90 then some (n - 55)
    else none
  match v with
  | some d => if d < radix then some d else none
  | none => none

/-- Reads the longest run of digits at the head of the characters, given the
value read so far and whether a digit has been read. -/
def readDigits (radix : Nat) : List Char → Nat → Bool → Option Nat
  | [], acc, seen => if seen then some acc else none
  | c :: rest, acc, seen =>
    match digitValue radix c with
    | some d => readDigits radix rest (acc * radix + d) true
    | none => if seen then some acc else none

/-- How many times `n` is halved before it is below `2 ^ 53`, counted with the
given fuel: the number of low bits of `n` that a binary64 significand cannot
hold. -/
def excessBits : Nat → Nat → Nat
  | 0, _ => 0
  | fuel + 1, n => if n < 2 ^ 53 then 0 else excessBits fuel (n / 2) + 1

/-- The Number value of a non-negative integer: the integer itself below
`2 ^ 53`, and above it the nearest integer with a significand of 53 bits, the
one with the even significand on a tie. -/
def toBinary64 (n : Nat) : Nat :=
  if n < 2 ^ 53 then n
  else
    let k := excessBits n n
    let q := n / 2 ^ k
    let r := n % 2 ^ k
    let half := 2 ^ (k - 1)
    let m := if r < half then q else if half < r then q + 1 else if q % 2 = 0 then q else q + 1
    m * 2 ^ k

/-- The integer `parseInt(string)` reads, before it becomes a Number: leading
white space is skipped, a sign is read, a `0x` or `0X` prefix selects radix 16,
and the longest run of digits is the value; `none` when there is no digit. -/
def parseMathInt (s : String) : Option ℤ :=
  let cs := s.data.dropWhile isJsWhiteSpace
  let signed : Bool × List Char :=
    match cs with
    | '-' :: rest => (true, rest)
    | '+' :: rest => (false, rest)
    | _ => (false, cs)
  let based : Nat × List Char :=
    match signed.2 with
    | '0' :: 'x' :: rest => (16, rest)
    | '0' :: 'X' :: rest => (16, rest)
    | _ => (10, signed.2)
  match readDigits based.1 based.2 0 false with
  | none => none
  | some n => some (if signed.1 then -(n : ℤ) else (n : ℤ))

/-- The builtin `parseInt(string)` without a radix argument, `none` where the
result is not a finite number (`NaN`, or an infinity for digits beyond the
range of binary64): the integer read is returned as a Number, rounded to
binary64; a Number of 1025 bits or more, one that is halved 972 times or more
before it is below `2 ^ 53`, is an infinity.  For more than 20 significant
decimal digits the language lets an implementation replace the later digits by
zeros before it rounds; the model rounds the integer as written. -/
def parseInt (s : String) : Option ℤ :=
  match parseMathInt s with
  | none => none
  | some mathInt =>
    let n := toBinary64 mathInt.natAbs
    if 972 ≤ excessBits n n then none
    else some (if mathInt < 0 then -(n : ℤ) else (n : ℤ))

/-- The `pagination` member of a listing reply; `total` is `totalUsers`,
`totalStores` or `totalRatings`. -/
structure Pagination where
  currentPage : ℤ
  totalPages : ℤ
  total : Nat
  limit : ℤ
  deriving DecidableEq

/-- The cursor calls `.skip(skip).limit(limitNum)` on the sorted matches, for a
non-negative `skip` and a positive `limitNum`. -/
def skipLimit {α : Type} (skip limitNum : ℤ) (sorted : List α) : List α :=
  (sorted.drop skip.toNat).take limitNum.toNat

/-- The expression `Math.ceil(total / limitNum)`. -/
def totalPagesOf (total : Nat) (limitNum : ℤ) : ℤ :=
  ⌈(total : ℚ) / (limitNum : ℚ)⌉

/-- Binary comparison of strings, the order MongoDB sorts strings by. -/
def binaryLe : List Char → List Char → Bool
  | [], _ => true
  | _ :: _, [] => false
  | a :: s, b :: t =>
    if a.toNat < b.toNat then true
    else if b.toNat < a.toNat then false
    else binaryLe s t

/-- The sort direction computed by the three listing handlers: 1 unless
`sortOrder`, lower-cased, is in `['asc', 'desc']` and is not `'asc'`. -/
def sortDirectionOf (env : Env) (sortOrder : Option String) : ℤ :=
  let sortOrder := sortOrder.getD "asc"
  if env.toLowerCase sortOrder ∈ ["asc", "desc"] then
    (if env.toLowerCase sortOrder = "asc" then 1 else -1)
  else 1

/-- The cursor call `.sort({[field]: direction})` with the ascending order `le`
of the field: ties keep the order of the collection. -/
def sortDocs {α : Type} (le : α → α → Bool) (direction : ℤ) (docs : List α) : List α :=
  if direction = 1 then docs.insertionSort (fun a b => le a b = true)
  else docs.insertionSort (fun a b => le b a = true)

/-! ## `controllers/adminController.js`: users -/

/-- The object literal the admin handlers build for a user in a reply: `id`,
`name`, `email`, `address`, `role`. -/
structure UserView where
  id : ObjectId
  name : String
  email : String
  address : String
  role : String
  deriving DecidableEq

/-- Builds the reply object of a user document. -/
def UserView.of (u : User) : UserView :=
  { id := u.id, name := u.name, email := u.email, address := u.address, role := u.role }

/-- Body of the reply of `getUsers`. -/
structure UsersPage where
  users : List UserView
  pagination : Pagination
  deriving DecidableEq

/-- The filter `getUsers` builds from the query: `search` against name, email
or address, otherwise the per-field patterns, and the exact `role`. -/
def userQuery (env : Env) (q : Query) (u : User) : Bool :=
  (if truthy q.search then
      env.regexTest (q.search.getD "") u.name || env.regexTest (q.search.getD "") u.email
        || env.regexTest (q.search.getD "") u.address
    else
      (!truthy q.name || env.regexTest (q.name.getD "") u.name)
        && (!truthy q.email || env.regexTest (q.email.getD "") u.email)
        && (!truthy q.address || env.regexTest (q.address.getD "") u.address))
  && (!truthy q.role || u.role = q.role.getD "")

/-- The sort field chosen by `getUsers`. -/
def userSortField (sortBy : Option String) : String :=
  let sortBy := sortBy.getD "name"
  if sortBy ∈ ["name", "email", "address", "role", "createdAt"] then
    (if sortBy = "created_at" then "createdAt" else sortBy)
  else "name"

/-- Ascending order of users by a sort field. -/
def userLe (env : Env) (field : String) (a b : User) : Bool :=
  match field with
  | "name" => binaryLe a.name.data b.name.data
  | "email" => binaryLe a.email.data b.email.data
  | "address" => binaryLe a.address.data b.address.data
  | "role" => binaryLe a.role.data b.role.data
  | "createdAt" => env.userCreatedAt a.id ≤ env.userCreatedAt b.id
  | _ => true

/-- The handler `getUsers`.  The result is `none` where `page` or `limit` does
not parse to a positive integer: what the driver does with such a `skip` and
`limit` is not modelled. -/
def getUsers (env : Env) (q : Query) (db : Db) : Option (Reply UsersPage) :=
  let sortField := userSortField q.sortBy
  let sortDirection := sortDirectionOf env q.sortOrder
  match parseInt (q.page.getD "1"), parseInt (q.limit.getD "10") with
  | some pageNum, some limitNum =>
    if 1 ≤ pageNum ∧ 1 ≤ limitNum then
      let skip := (pageNum - 1) * limitNum
      let users :=
        skipLimit skip limitNum
          (sortDocs (userLe env sortField) sortDirection (db.users.filter (userQuery env q)))
      let totalUsers := (db.users.filter (userQuery env q)).length
      let totalPages := totalPagesOf totalUsers limitNum
      some (Reply.json 200
        { users := users.map UserView.of
          pagination :=
            { currentPage := pageNum, totalPages := totalPages, total := totalUsers,
              limit := limitNum } })
    else none
  | _, _ => none

/-- The `store` member of the reply of `getUserById`. -/
structure StoreDetails where
  name : String
  email : String
  address : String
  averageRating : ℚ
  totalRatings : Nat
  deriving DecidableEq

/-- The `user` member of the reply of `getUserById`. -/
structure UserDetail where
  id : ObjectId
  name : String
  email : String
  address : String
  role : String
  store : Option StoreDetails
  deriving DecidableEq

/-- The query `Store.findOne({owner: id})`. -/
def Store.findOneByOwner (stores : List Store) (owner : ObjectId) : Option Store :=
  stores.find? (fun s => s.owner = some owner)

/-- The handler `getUserById`. -/
def getUserById (id : ObjectId) (db : Db) : Reply UserDetail :=
  match User.findById db.users id with
  | none => Reply.error 404 "User not found"
  | some user =>
    let storeDetails : Option StoreDetails :=
      if user.role = "store_owner" then
        match Store.findOneByOwner db.stores user.id with
        | some store =>
          some { name := store.name, email := store.email, address := store.address,
                 averageRating := store.averageRating, totalRatings := store.totalRatings }
        | none => none
      else none
    Reply.json 200
      { id := user.id, name := user.name, email := user.email, address := user.address,
        role := user.role, store := storeDetails }

/-- Length of a string in UTF-16 code units, the `length` the schema validators
compare. -/
def utf16Length (s : String) : Nat :=
  (s.data.map (fun c => if c.toNat < 65536 then 1 else 2)).sum

/-- The validators of `models/User.js` on a document: `name`, `email`,
`password` and `address` required (not empty), `name` of 3 to 60 units,
`address` of at most 400, `role` one of the three roles. -/
def User.schemaAccepts (u : User) : Bool :=
  u.name ≠ "" && 3 ≤ utf16Length u.name && utf16Length u.name ≤ 60
    && u.email ≠ ""
    && u.password ≠ ""
    && u.address ≠ "" && utf16Length u.address ≤ 400
    && u.role ∈ ["system_admin", "normal_user", "store_owner"]

/-- The setters `trim: true, lowercase: true` of the `email` path, which
Mongoose applies to a value it stores and to a value it queries by. -/
def emailSetter (env : Env) (email : String) : String :=
  env.toLowerCase (env.trim email)

/-- The query `User.findOne({email})`. -/
def User.findOneByEmail (env : Env) (users : List User) (email : String) : Option User :=
  users.find? (fun u => u.email = emailSetter env email)

/-- The members of `req.body` read by `createUser`: `name`, `email`, `password`
and `address` are strings, `role` may be absent. -/
structure UserBody where
  name : String
  email : String
  password : String
  address : String
  role : Option String := none
  deriving DecidableEq

/-- Body of the reply of `createUser` and of `updateUser`. -/
structure UserSaved where
  message : String
  user : UserView
  deriving DecidableEq

/-- The document `User.create` builds from the members given to it: setters
applied, `role` defaulting to `normal_user`. -/
def User.build (env : Env) (name email password address : String) (role : Option String) :
    User :=
  { id := env.newId, name := name, email := emailSetter env email, password := password,
    address := address, role := role.getD "normal_user" }

/-- The handler `createUser`.  A document the schema rejects makes `User.create`
throw, which the handler answers with 500. -/
def createUser (env : Env) (body : UserBody) (db : Db) : Reply UserSaved × Db :=
  match User.findOneByEmail env db.users body.email with
  | some _ => (Reply.error 400 "User with this email already exists", db)
  | none =>
    let hashedPassword := env.hash body.password
    let user := User.build env body.name body.email hashedPassword body.address body.role
    if User.schemaAccepts user then
      (Reply.json 201 { message := "User created successfully", user := UserView.of user },
        { db with users := db.users ++ [user] })
    else (Reply.error 500 "Internal server error", db)

/-- The members of `req.body` read by `updateUser`, each of which may be absent. -/
structure UpdateBody where
  name : Option String := none
  email : Option String := none
  address : Option String := none
  role : Option String := none
  password : Option String := none
  deriving DecidableEq

/-- The write of `user.save()` for the user with the given id. -/
def User.replace (users : List User) (user : User) : List User :=
  match users with
  | [] => []
  | u :: rest => if u.id = user.id then user :: rest else u :: User.replace rest user

/-- The assignments of `updateUser` to the document found: each member of the
body that is present and not empty replaces the field, the password by its
hash. -/
def applyUpdate (env : Env) (body : UpdateBody) (user : User) : User :=
  { user with
    name := if truthy body.name then body.name.getD "" else user.name
    email := if truthy body.email then emailSetter env (body.email.getD "") else user.email
    address := if truthy body.address then body.address.getD "" else user.address
    role := if truthy body.role then body.role.getD "" else user.role
    password := if truthy body.password then env.hash (body.password.getD "") else user.password }

/-- The handler `updateUser`.  The save validates the document, which makes the
handler answer 500 when the schema rejects it; a changed email that another
user has raises the duplicate key error 11000, answered with 400. -/
def updateUser (env : Env) (id : ObjectId) (body : UpdateBody) (db : Db) : Reply UserSaved × Db :=
  match User.findById db.users id with
  | none => (Reply.error 404 "User not found", db)
  | some found =>
    let user := applyUpdate env body found
    if !User.schemaAccepts user then (Reply.error 500 "Internal server error", db)
    else if user.email ≠ found.email ∧ db.users.any (fun o => o.id ≠ id ∧ o.email = user.email)
    then (Reply.error 400 "Email is already in use", db)
    else
      (Reply.json 200 { message := "User updated successfully", user := UserView.of user },
        { db with users := User.replace db.users user })

/-! ## `controllers/adminController.js`: stores -/

/-- The members of `req.body` read by `createStore`. -/
structure StoreBody where
  name : String
  email : String
  address : String
  ownerId : Option ObjectId := none
  deriving DecidableEq

/-- The `store` member of the reply of `createStore`. -/
structure StoreCreatedView where
  id : ObjectId
  name : String
  email : String
  address : String
  ownerId : Option ObjectId
  averageRating : ℚ
  totalRatings : Nat
  deriving DecidableEq

/-- Body of the reply of `createStore`. -/
structure StoreCreated where
  message : String
  store : StoreCreatedView
  deriving DecidableEq

/-- The query `Store.findOne({email})`. -/
def Store.findOneByEmail (stores : List Store) (email : String) : Option Store :=
  stores.find? (fun s => s.email = email)

/-- The query `User.findOne({_id: ownerId, role: 'store_owner'})`. -/
def User.findStoreOwner (users : List User) (ownerId : ObjectId) : Option User :=
  users.find? (fun u => u.id = ownerId ∧ u.role = "store_owner")

/-- The handler `createStore`.  The created store takes the defaults 0 and 0 of
the cached fields. -/
def createStore (env : Env) (body : StoreBody) (db : Db) : Reply StoreCreated × Db :=
  match Store.findOneByEmail db.stores body.email with
  | some _ => (Reply.error 400 "Store with this email already exists", db)
  | none =>
    let proceed (owner : Option User) : Reply StoreCreated × Db :=
      let store : Store :=
        { id := env.newId, name := body.name, email := body.email, address := body.address,
          owner := owner.map (fun o => o.id), averageRating := 0, totalRatings := 0 }
      (Reply.json 201
          { message := "Store created successfully"
            store :=
              { id := store.id, name := store.name, email := store.email,
                address := store.address, ownerId := store.owner, averageRating := 0,
                totalRatings := 0 } },
        { db with stores := db.stores ++ [store] })
    match body.ownerId with
    | none => proceed none
    | some ownerId =>
      match User.findStoreOwner db.users ownerId with
      | none => (Reply.error 400 "Invalid store owner ID", db)
      | some owner => proceed (some owner)

/-- One store in the reply of the admin `getStores`. -/
structure AdminStoreView where
  id : ObjectId
  name : String
  email : String
  address : String
  ownerName : String
  ownerEmail : String
  averageRating : ℚ
  totalRatings : Nat
  deriving DecidableEq

/-- Body of the reply of the admin `getStores`. -/
structure AdminStoresPage where
  stores : List AdminStoreView
  pagination : Pagination
  deriving DecidableEq

/-- The filter the admin `getStores` builds from the query. -/
def adminStoreQuery (env : Env) (q : Query) (s : Store) : Bool :=
  if truthy q.search then
    env.regexTest (q.search.getD "") s.name || env.regexTest (q.search.getD "") s.address
      || env.regexTest (q.search.getD "") s.email
  else
    (!truthy q.name || env.regexTest (q.name.getD "") s.name)
      && (!truthy q.address || env.regexTest (q.address.getD "") s.address)

/-- The sort field chosen by the admin `getStores`. -/
def adminStoreSortField (sortBy : Option String) : String :=
  let sortBy := sortBy.getD "name"
  if sortBy ∈ ["name", "address", "averageRating", "totalRatings"] then sortBy else "name"

/-- Ascending order of stores by a sort field. -/
def storeLe (field : String) (a b : Store) : Bool :=
  match field with
  | "name" => binaryLe a.name.data b.name.data
  | "address" => binaryLe a.address.data b.address.data
  | "averageRating" => a.averageRating ≤ b.averageRating
  | "totalRatings" => a.totalRatings ≤ b.totalRatings
  | _ => true

/-- The `populate('owner', 'name email')` of one store: the owner document, if
the reference is set and a user has that id. -/
def populateOwner (users : List User) (s : Store) : Option User :=
  match s.owner with
  | none => none
  | some id => User.findById users id

/-- Builds the reply object of a store for the admin listing. -/
def AdminStoreView.of (users : List User) (s : Store) : AdminStoreView :=
  { id := s.id, name := s.name, email := s.email, address := s.address
    ownerName := match populateOwner users s with | some o => o.name | none => "N/A"
    ownerEmail := match populateOwner users s with | some o => o.email | none => "N/A"
    averageRating := s.averageRating, totalRatings := s.totalRatings }

namespace adminController

/-- The handler `getStores` of the admin controller; `none` as for `getUsers`. -/
def getStores (env : Env) (q : Query) (db : Db) : Option (Reply AdminStoresPage) :=
  let sortField := adminStoreSortField q.sortBy
  let sortDirection := sortDirectionOf env q.sortOrder
  match parseInt (q.page.getD "1"), parseInt (q.limit.getD "10") with
  | some pageNum, some limitNum =>
    if 1 ≤ pageNum ∧ 1 ≤ limitNum then
      let skip := (pageNum - 1) * limitNum
      let stores :=
        skipLimit skip limitNum
          (sortDocs (storeLe sortField) sortDirection (db.stores.filter (adminStoreQuery env q)))
      let totalStores := (db.stores.filter (adminStoreQuery env q)).length
      let totalPages := totalPagesOf totalStores limitNum
      some (Reply.json 200
        { stores := stores.map (AdminStoreView.of db.users)
          pagination :=
            { currentPage := pageNum, totalPages := totalPages, total := totalStores,
              limit := limitNum } })
    else none
  | _, _ => none

end adminController


/-! ## `controllers/storeController.js`: listings and the owner dashboard -/

/-- A JavaScript object used as a map: writing a key that is present replaces
its value, writing a new key adds it. -/
def assocSet {κ ν : Type} [DecidableEq κ] (d : List (κ × ν)) (k : κ) (v : ν) : List (κ × ν) :=
  match d with
  | [] => [(k, v)]
  | (k1, v1) :: rest => if k1 = k then (k, v) :: rest else (k1, v1) :: assocSet rest k v

/-- Reading a key of such an object, `none` for `undefined`. -/
def assocGet {κ ν : Type} [DecidableEq κ] (d : List (κ × ν)) (k : κ) : Option ν :=
  match d with
  | [] => none
  | (k1, v1) :: rest => if k1 = k then some v1 else assocGet rest k

/-- One store in the replies of `getStores` and `getStoreById` of the store
controller; `user_rating` is `none` for `null`. -/
structure StoreView where
  id : ObjectId
  name : String
  address : String
  average_rating : ℚ
  total_ratings : Nat
  user_rating : Option ℚ
  deriving DecidableEq

/-- Body of the reply of `getStores` of the store controller. -/
structure StoresPage where
  stores : List StoreView
  pagination : Pagination
  deriving DecidableEq

/-- The filter `getStores` of the store controller builds from the query. -/
def storeQuery (env : Env) (q : Query) (s : Store) : Bool :=
  (!truthy q.name || env.regexTest (q.name.getD "") s.name)
    && (!truthy q.address || env.regexTest (q.address.getD "") s.address)

/-- The sort field chosen by `getStores` of the store controller. -/
def storeSortField (sortBy : Option String) : String :=
  let sortBy := sortBy.getD "name"
  if sortBy ∈ ["name", "address", "averageRating"] then sortBy else "name"

/-- The object `userRatingMap`: the ratings found are written one after
another under the id of their store. -/
def userRatingMap (userRatings : List Rating) : List (ObjectId × ℚ) :=
  userRatings.foldl (fun m r => assocSet m r.store r.rating) []

/-- The expression `userRatingMap[store._id.toString()] || null`: a missing
entry and the falsy value 0 both give `null`. -/
def userRatingOf (m : List (ObjectId × ℚ)) (storeId : ObjectId) : Option ℚ :=
  match assocGet m storeId with
  | none => none
  | some v => if v = 0 then none else some v

namespace storeController

/-- The handler `getStores` of the store controller; `none` as for `getUsers`.
Without `req.user` the read of `req.user.userId` throws and the answer is 500. -/
def getStores (env : Env) (user : Option AuthUser) (q : Query) (db : Db) :
    Option (Reply StoresPage) :=
  match user with
  | none => some (Reply.error 500 "Internal server error")
  | some u =>
    let userId := u.userId
    let sortField := storeSortField q.sortBy
    let sortDirection := sortDirectionOf env q.sortOrder
    match parseInt (q.page.getD "1"), parseInt (q.limit.getD "10") with
    | some pageNum, some limitNum =>
      if 1 ≤ pageNum ∧ 1 ≤ limitNum then
        let skip := (pageNum - 1) * limitNum
        let stores :=
          skipLimit skip limitNum
            (sortDocs (storeLe sortField) sortDirection (db.stores.filter (storeQuery env q)))
        let totalStores := (db.stores.filter (storeQuery env q)).length
        let totalPages := totalPagesOf totalStores limitNum
        let storeIds := stores.map (fun s => s.id)
        let userRatings := db.ratings.filter (fun r => r.user = userId ∧ r.store ∈ storeIds)
        let ratingMap := userRatingMap userRatings
        some (Reply.json 200
          { stores := stores.map (fun s =>
              { id := s.id, name := s.name, address := s.address
                average_rating := s.averageRating, total_ratings := s.totalRatings
                user_rating := userRatingOf ratingMap s.id })
            pagination :=
              { currentPage := pageNum, totalPages := totalPages, total := totalStores,
                limit := limitNum } })
      else none
    | _, _ => none

end storeController

/-- The handler `getStoreById`. -/
def getStoreById (user : Option AuthUser) (id : ObjectId) (db : Db) : Reply StoreView :=
  match user with
  | none => Reply.error 500 "Internal server error"
  | some u =>
    match Store.findById db.stores id with
    | none => Reply.error 404 "Store not found"
    | some store =>
      let userRating := Rating.findOne db.ratings u.userId id
      Reply.json 200
        { id := store.id, name := store.name, address := store.address
          average_rating := store.averageRating, total_ratings := store.totalRatings
          user_rating := userRating.map (fun r => r.rating) }

/-- One rating in the reply of the owner dashboard. -/
structure OwnerRatingView where
  rating : ℚ
  userName : String
  userEmail : String
  deriving DecidableEq

/-- The `store` member of the reply of the owner dashboard; `distribution` is
the object from rating value to count. -/
structure OwnerStoreView where
  id : ObjectId
  name : String
  email : String
  address : String
  averageRating : ℚ
  totalRatings : Nat
  rank : Nat
  distribution : List (ℚ × Nat)
  deriving DecidableEq

/-- Body of the reply of the owner dashboard; `store` is `none` for `null`. -/
structure OwnerDashboard where
  store : Option OwnerStoreView
  ratings : List OwnerRatingView
  pagination : Pagination
  deriving DecidableEq

/-- The values of a list without repetition, each at its first occurrence. -/
def distinctValues : List ℚ → List ℚ
  | [] => []
  | v :: rest => v :: (distinctValues rest).filter (fun w => w ≠ v)

/-- The pipeline `[{$match: {store}}, {$group: {_id: '$rating', count: {$sum: 1}}}]`:
one document per rating value of the store, with the number of its ratings. -/
def ratingGroups (ratings : List Rating) (storeId : ObjectId) : List (ℚ × Nat) :=
  let values := (ratings.filter (fun r => r.store = storeId)).map (fun r => r.rating)
  (distinctValues values).map (fun v => (v, values.count v))

/-- The object `distribution`: the literal with the keys 5 to 1 at 0, then one
write per group. -/
def distributionOf (groups : List (ℚ × Nat)) : List (ℚ × Nat) :=
  groups.foldl (fun d item => assocSet d item.1 item.2) [(5, 0), (4, 0), (3, 0), (2, 0), (1, 0)]

/-- The filter of the ratings listed on the dashboard: those of the store, and
with `search` only those of the users whose name or email matches. -/
def ownerRatingQuery (env : Env) (q : Query) (users : List User) (storeId : ObjectId)
    (r : Rating) : Bool :=
  r.store = storeId &&
    (!truthy q.search ||
      r.user ∈ (users.filter (fun u =>
        env.regexTest (q.search.getD "") u.name || env.regexTest (q.search.getD "") u.email)).map
          (fun u => u.id))

/-- Builds the reply object of a rating, its `user` populated. -/
def OwnerRatingView.of (users : List User) (r : Rating) : OwnerRatingView :=
  { rating := r.rating
    userName := match User.findById users r.user with | some u => u.name | none => "Unknown"
    userEmail := match User.findById users r.user with | some u => u.email | none => "Unknown" }

/-- The handler `getStoreRatings`, the owner dashboard; `none` as for `getUsers`,
once a store of the owner has been found. -/
def getStoreRatings (env : Env) (user : Option AuthUser) (q : Query) (db : Db) :
    Option (Reply OwnerDashboard) :=
  match user with
  | none => some (Reply.error 500 "Internal server error")
  | some u =>
    match Store.findOneByOwner db.stores u.userId with
    | none =>
      some (Reply.json 200
        { store := none, ratings := []
          pagination := { currentPage := 1, totalPages := 0, total := 0, limit := 10 } })
    | some store =>
      match parseInt (q.page.getD "1"), parseInt (q.limit.getD "10") with
      | some pageNum, some limitNum =>
        if 1 ≤ pageNum ∧ 1 ≤ limitNum then
          let skip := (pageNum - 1) * limitNum
          let matching := db.ratings.filter (ownerRatingQuery env q db.users store.id)
          let ratings :=
            skipLimit skip limitNum
              (sortDocs
                (fun a b => env.ratingUpdatedAt a.user a.store ≤ env.ratingUpdatedAt b.user b.store)
                (-1) matching)
          let totalRatings := matching.length
          let totalPages := totalPagesOf totalRatings limitNum
          let higherRatedStores :=
            (db.stores.filter (fun s => s.averageRating > store.averageRating)).length
          let rank := higherRatedStores + 1
          let distribution := distributionOf (ratingGroups db.ratings store.id)
          some (Reply.json 200
            { store := some
                { id := store.id, name := store.name, email := store.email
                  address := store.address, averageRating := store.averageRating
                  totalRatings := store.totalRatings, rank := rank
                  distribution := distribution }
              ratings := ratings.map (OwnerRatingView.of db.users)
              pagination :=
                { currentPage := pageNum, totalPages := totalPages, total := totalRatings,
                  limit := limitNum } })
        else none
      | _, _ => none

/-! ## `models/Rating.js`: a store write that throws -/

/-- What a run of `calculateAverageRating` leaves: the database, and the errors
its `catch` block has passed to `console.error`. -/
structure Recomputed where
  db : Db
  logged : List String
  deriving DecidableEq

/-- The static `calculateAverageRating` over a store write that may throw.
`write` stands for `Store.findByIdAndUpdate`: it gives the stores after the
write, or the error thrown.  The write is made inside `try`, and the `catch`
block logs the error and lets the function return. -/
def calculateAverageRatingOver
    (write : List Store → ObjectId → ℚ → Nat → Except String (List Store))
    (storeId : ObjectId) (db : Db) : Recomputed :=
  let stats := aggregate db.ratings storeId
  let attempt :=
    match stats with
    | g :: _ => write db.stores storeId (toFixed1 g.averageRating) g.totalRatings
    | [] => write db.stores storeId 0 0
  match attempt with
  | Except.ok stores => { db := { db with stores := stores }, logged := [] }
  | Except.error err => { db := db, logged := [err] }

/-- The store write that succeeds, as the driver makes it. -/
def Store.writeStatistics (stores : List Store) (id : ObjectId) (averageRating : ℚ)
    (totalRatings : Nat) : Except String (List Store) :=
  Except.ok (Store.findByIdAndUpdate stores id averageRating totalRatings)

/-! ## `controllers/storeController.js`: the ratings of a user -/

/-- One rating in the reply of `getUserRatings`. -/
structure UserRatingView where
  rating : ℚ
  storeId : ObjectId
  storeName : String
  storeAddress : String
  deriving DecidableEq

/-- Body of the reply of `getUserRatings`. -/
structure UserRatings where
  ratings : List UserRatingView
  deriving DecidableEq

/-- The callback of `ratings.map` in `getUserRatings` on ratings whose `store`
has been populated: `populate` leaves `null` for a store that no longer exists,
and reading `r.store._id` of `null` throws, which is `none` here. -/
def formatUserRatings (stores : List Store) : List Rating → Option (List UserRatingView)
  | [] => some []
  | r :: rest =>
    match Store.findById stores r.store with
    | none => none
    | some s =>
      match formatUserRatings stores rest with
      | none => none
      | some views =>
        some ({ rating := r.rating, storeId := s.id, storeName := s.name
                storeAddress := s.address } :: views)

/-- The handler `getUserRatings`: the ratings of the requesting user, latest
update first; an exception thrown while the reply is built is answered with
500. -/
def getUserRatings (env : Env) (user : Option AuthUser) (db : Db) : Reply UserRatings :=
  match user with
  | none => Reply.error 500 "Internal server error"
  | some u =>
    let ratings :=
      sortDocs (fun a b => env.ratingUpdatedAt a.user a.store ≤ env.ratingUpdatedAt b.user b.store)
        (-1) (db.ratings.filter (fun r => r.user = u.userId))
    match formatUserRatings db.stores ratings with
    | none => Reply.error 500 "Internal server error"
    | some formattedRatings => Reply.json 200 { ratings := formattedRatings }

/-! ## `frontend/src/components/ui/Table.js` -/

/-- The function `getPageNumbers` of the `Pagination` component, for integer
`currentPage` and `totalPages`; `Math.floor(maxVisiblePages / 2)` is the integer
quotient, and the `for` loop pushes `startPage`, ..., `endPage`. -/
def getPageNumbers (currentPage totalPages : ℤ) : List ℤ :=
  let maxVisiblePages : ℤ := 5
  let startPage := max 1 (currentPage - maxVisiblePages / 2)
  let endPage := min totalPages (startPage + maxVisiblePages - 1)
  let startPage :=
    if endPage - startPage + 1 < maxVisiblePages then max 1 (endPage - maxVisiblePages + 1)
    else startPage
  (List.range (endPage - startPage + 1).toNat).map (fun (k : ℕ) => startPage + (k : ℤ))

/-! ## `frontend/src/services/api.js` -/

/-- The method `String.prototype.endsWith` on the characters of two strings. -/
def endsWith (s suffix : List Char) : Bool :=
  suffix.reverse.isPrefixOf s.reverse

/-- The method `String.prototype.replace` with a string pattern that is not
empty and a replacement without `$`: the first occurrence of the pattern,
reading from the left, is replaced. -/
def replaceFirst (pattern replacement : List Char) : List Char → List Char
  | [] => []
  | c :: rest =>
    if pattern.isPrefixOf (c :: rest) then replacement ++ (c :: rest).drop pattern.length
    else c :: replaceFirst pattern replacement rest

/-- The function `getBaseUrl`; the argument is `process.env.REACT_APP_API_URL`,
`none` when the variable is not set. -/
def getBaseUrl (configured : Option String) : String :=
  let url := if truthy configured then configured.getD "" else "http://localhost:5001/api"
  let url := if !endsWith url.data "/api".data then url ++ "/api" else url
  let url :=
    if endsWith url.data "/api/api".data then
      String.mk (replaceFirst "/api/api".data "/api".data url.data)
    else url
  url

/-! ## `config/initDb.js` -/

/-- An `ObjectId` for a created document.  The driver gives an id that no
document carries; the model takes the successor of the largest id in use. -/
def unusedId (used : List ObjectId) : ObjectId :=
  used.foldl max 0 + 1

/-- Id of a user about to be created: not an id of a user, and not referred to
by a rating or a store. -/
def Db.newUserId (db : Db) : ObjectId :=
  unusedId (db.users.map (fun u => u.id) ++ db.ratings.map (fun r => r.user)
    ++ db.stores.filterMap (fun s => s.owner))

/-- Id of a store about to be created: not an id of a store, and not referred
to by a rating. -/
def Db.newStoreId (db : Db) : ObjectId :=
  unusedId (db.stores.map (fun s => s.id) ++ db.ratings.map (fun r => r.store))

/-- The pattern of `initializeDatabase` for an account: `User.findOne({email})`
and, when there is none, `bcrypt.hash` of the password and `User.create`.  The
result is the user found or created and the database, `none` when `User.create`
throws because the schema rejects the document. -/
def findOrCreateUser (env : Env) (db : Db) (name email password address role : String) :
    Option (User × Db) :=
  match User.findOneByEmail env db.users email with
  | some user => some (user, db)
  | none =>
    let user : User :=
      { id := db.newUserId, name := name, email := emailSetter env email
        password := env.hash password, address := address, role := role }
    if User.schemaAccepts user then some (user, { db with users := db.users ++ [user] })
    else none

/-- The loop `for (let i = 1; i <= 4; i++)` over the numbers still to visit:
the dummy user `i` is found or created and pushed to `dummyUsers`. -/
def ensureDummyUsers (env : Env) (nameOf addressOf : Nat → String) :
    List Nat → Db → Option (List User × Db)
  | [], db => some ([], db)
  | i :: rest, db =>
    match findOrCreateUser env db (nameOf i) ("user" ++ toString i ++ "@rately.com") "User@123"
        (addressOf i) "normal_user" with
    | none => none
    | some (user, db1) =>
      match ensureDummyUsers env nameOf addressOf rest db1 with
      | none => none
      | some (users, db2) => some (user :: users, db2)

/-- The array `ratings` of `initializeDatabase`: 5, 4, 5, 5, 4 by the normal
user and the four dummy users, for the store.  The member `comment` is not a
path of the rating schema and is not stored. -/
def defaultRatings (normalUser : User) (dummyUsers : List User) (storeId : ObjectId) :
    List Rating :=
  List.zipWith (fun u v => { user := u.id, store := storeId, rating := v })
    (normalUser :: dummyUsers) [5, 4, 5, 5, 4]

/-- The call `Rating.create(r)`: the unique index on `(user, store)` makes it
throw, `none`, when the pair has a rating; otherwise the document is stored and
the `post('save')` hook runs. -/
def Rating.create (db : Db) (r : Rating) : Option Db :=
  match Rating.findOne db.ratings r.user r.store with
  | some _ => none
  | none => some (postSave r { db with ratings := db.ratings ++ [r] })

/-- The loop `for (const r of ratings) await Rating.create(r)`. -/
def createRatings : List Rating → Db → Option Db
  | [], db => some db
  | r :: rest, db =>
    match Rating.create db r with
    | none => none
    | some db1 => createRatings rest db1

/-- The loop that creates each rating of `ratings` whose user has none for the
store yet. -/
def ensureRatings : List Rating → Db → Option Db
  | [], db => some db
  | r :: rest, db =>
    match Rating.findOne db.ratings r.user r.store with
    | some _ => ensureRatings rest db
    | none =>
      match Rating.create db r with
      | none => none
      | some db1 => ensureRatings rest db1

/-- The statements that bring the cached fields of the store in line with the
ledger: count and sum of the ratings of the store, `toFixed(1)` of the mean (0
without ratings), assigned to the store document, which is saved. -/
def syncStoreStats (storeId : ObjectId) (db : Db) : Db :=
  let allRatings := db.ratings.filter (fun r => r.store = storeId)
  let newTotalRatings := allRatings.length
  let sumRatings := allRatings.foldl (fun acc curr => acc + curr.rating) (0 : ℚ)
  let newAvg : ℚ := if newTotalRatings > 0 then toFixed1 (sumRatings / newTotalRatings) else 0
  { db with stores := Store.findByIdAndUpdate db.stores storeId newAvg newTotalRatings }

/-- The write of `storeByEmail.save()` after `storeByEmail.owner` is assigned. -/
def Store.setOwner (stores : List Store) (id owner : ObjectId) : List Store :=
  match stores with
  | [] => []
  | s :: rest =>
    if s.id = id then { s with owner := some owner } :: rest
    else s :: Store.setOwner rest id owner

/-- The function `initializeDatabase`, `none` when it throws.  The
recomputations its `Rating.create` calls start are left pending. -/
def initializeDatabase (env : Env) (db : Db) : Option Db :=
  match findOrCreateUser env db "System Administrator Account" "admin@rately.com" "Admin@123"
      "123 Admin Street, Admin City, Admin State 12345" "system_admin" with
  | none => none
  | some (_, db1) =>
  match findOrCreateUser env db1 "Normal User Account for Testing" "user@rately.com" "User@123"
      "456 User Avenue, User City, User State 67890" "normal_user" with
  | none => none
  | some (_, db2) =>
  match findOrCreateUser env db2 "Store Owner Account for Testing" "store@rately.com" "Store@123"
      "789 Store Blvd, Store City, Store State 13579" "store_owner" with
  | none => none
  | some (storeOwner, db3) =>
    let located : Option Store × Db :=
      match Store.findOneByOwner db3.stores storeOwner.id with
      | some s => (some s, db3)
      | none =>
        match Store.findOneByEmail db3.stores "info@techgadgets.com" with
        | some s =>
          (some { s with owner := some storeOwner.id },
            { db3 with stores := Store.setOwner db3.stores s.id storeOwner.id })
        | none => (none, db3)
    match located with
    | (none, db4) =>
      let newStore : Store :=
        { id := db4.newStoreId, name := "Tech Gadgets and Electronics Superstore"
          email := "info@techgadgets.com"
          address := "789 Store Blvd, Store City, Store State 13579"
          owner := some storeOwner.id, averageRating := 9 / 2, totalRatings := 12 }
      let db5 : Db := { db4 with stores := db4.stores ++ [newStore] }
      let normalUser := User.findOneByEmail env db5.users "user@rately.com"
      match ensureDummyUsers env (fun i => "Test User " ++ toString i)
          (fun i => "Test Address " ++ toString i) [1, 2, 3, 4] db5 with
      | none => none
      | some (dummyUsers, db6) =>
        match normalUser with
        | some normalUser => createRatings (defaultRatings normalUser dummyUsers newStore.id) db6
        | none => some db6
    | (some storeExists, db4) =>
      let ratingsCount := (db4.ratings.filter (fun r => r.store = storeExists.id)).length
      if ratingsCount < 5 then
        let normalUser := User.findOneByEmail env db4.users "user@rately.com"
        match ensureDummyUsers env (fun i => "Test User " ++ toString i ++ " - Verified Account")
            (fun i => "Test Address " ++ toString i ++ " - Detailed Location Info")
            [1, 2, 3, 4] db4 with
        | none => none
        | some (dummyUsers, db5) =>
          match normalUser with
          | some normalUser =>
            match ensureRatings (defaultRatings normalUser dummyUsers storeExists.id) db5 with
            | none => none
            | some db6 => some (syncStoreStats storeExists.id db6)
          | none => some db5
      else some (syncStoreStats storeExists.id db4)

/-! ## Definitions used to state the theorems -/

/-- A sequence of rating submissions handled one after another. -/
def submitRatings (reqs : List Request) (db : Db) : Db :=
  reqs.foldl (fun d r => (submitRating r d).2) db

/-- Number of rating records of one user for one store. -/
def pairCount (ratings : List Rating) (user store : ObjectId) : Nat :=
  (ratings.filter (fun r => r.user = user ∧ r.store = store)).length

/-- The ledger after a submission by `user` of `rating` for `store` that passed
every check of the handler. -/
def ledgerAfter (ratings : List Rating) (user store : ObjectId) (rating : ℚ) : List Rating :=
  match Rating.findOne ratings user store with
  | some _ => Rating.overwrite ratings user store rating
  | none => ratings ++ [⟨user, store, rating⟩]

/-- What it is for `items` and `pg` to be page `p`, of `l` items a page, of the
list `sorted` seen through `view`: the pagination reports `p`, `l`, the length
of the list and the number of pages `ceil(total / l)`; item `i` of the page is
the element at position `(p - 1) * l + i` of the list, for `i` below `l`; the
page has at most `l` items, and none when `p` is beyond the last page. -/
def PageOf {α β : Type} (view : α → β) (sorted : List α) (p l : ℤ) (items : List β)
    (pg : Pagination) : Prop :=
  pg.currentPage = p ∧ pg.limit = l ∧ pg.total = sorted.length ∧
  pg.totalPages = ⌈(sorted.length : ℚ) / (l : ℚ)⌉ ∧
  (∀ i, i < l.toNat → items[i]? = (sorted[((p - 1) * l).toNat + i]?).map view) ∧
  items.length ≤ l.toNat ∧
  (pg.totalPages < p → items = [])

/-- The stores `getStores` of the store controller lists on a page. -/
def storesOnPage (env : Env) (q : Query) (db : Db) (p l : ℤ) : List Store :=
  skipLimit ((p - 1) * l) l
    (sortDocs (storeLe (storeSortField q.sortBy)) (sortDirectionOf env q.sortOrder)
      (db.stores.filter (storeQuery env q)))

/-- A user document with its stored password hash blanked. -/
def erasePassword (u : User) : User := { u with password := "" }

/-- Two database states that differ at most in the stored password hashes of
their users. -/
def SameButPasswords (db db2 : Db) : Prop :=
  db.users.map erasePassword = db2.users.map erasePassword ∧ db.stores = db2.stores ∧
    db.ratings = db2.ratings ∧ db.pending = db2.pending

/-- A protected route: a handler of the admin router or of the stores router. -/
abbrev Route := AdminHandler ⊕ StoreHandler

/-- Middlewares in front of a protected route. -/
def routeStack (authenticate : Middleware) (v : Validation) : Route → List Middleware
  | Sum.inl h => adminStack authenticate v h
  | Sum.inr h => storesStack authenticate v h

/-- Allow-list of each protected route as section 6 of the specification gives
it: `system_admin` for the admin routes, `store_owner` for the owner dashboard,
`normal_user` for the other store routes. -/
def allowedRoles : Route → List String
  | Sum.inl _ => ["system_admin"]
  | Sum.inr StoreHandler.getStoreRatings => ["store_owner"]
  | Sum.inr _ => ["normal_user"]

/-- The values `calculateAverageRating` writes to a store: `toFixed(1)` of the
mean and the number of its ratings, both 0 without ratings. -/
def statisticsOf (ratings : List Rating) (s : ObjectId) : ℚ × Nat :=
  match aggregate ratings s with
  | g :: _ => (toFixed1 g.averageRating, g.totalRatings)
  | [] => (0, 0)

/-- The write of the recomputation for a store on the list of stores. -/
def recomputeStore (ratings : List Rating) (stores : List Store) (s : ObjectId) : List Store :=
  Store.findByIdAndUpdate stores s (statisticsOf ratings s).1 (statisticsOf ratings s).2

/-- A store with its cached fields blanked. -/
def eraseStats (s : Store) : Store := { s with averageRating := 0, totalRatings := 0 }

/-- The branch of `initializeDatabase` taken when the owner has no store: the
store is created, then the dummy users and the five ratings. -/
def newStoreStage (env : Env) (storeOwner : User) (db4 : Db) : Option Db :=
  let newStore : Store :=
    { id := db4.newStoreId, name := "Tech Gadgets and Electronics Superstore"
      email := "info@techgadgets.com"
      address := "789 Store Blvd, Store City, Store State 13579"
      owner := some storeOwner.id, averageRating := 9 / 2, totalRatings := 12 }
  let db5 : Db := { db4 with stores := db4.stores ++ [newStore] }
  let normalUser := User.findOneByEmail env db5.users "user@rately.com"
  match ensureDummyUsers env (fun i => "Test User " ++ toString i)
      (fun i => "Test Address " ++ toString i) [1, 2, 3, 4] db5 with
  | none => none
  | some (dummyUsers, db6) =>
    match normalUser with
    | some normalUser => createRatings (defaultRatings normalUser dummyUsers newStore.id) db6
    | none => some db6

/-- The branch of `initializeDatabase` taken when the owner has a store, given
the id of that store. -/
def existingStoreStage (env : Env) (storeId : ObjectId) (db4 : Db) : Option Db :=
  let ratingsCount := (db4.ratings.filter (fun r => r.store = storeId)).length
  if ratingsCount < 5 then
    let normalUser := User.findOneByEmail env db4.users "user@rately.com"
    match ensureDummyUsers env (fun i => "Test User " ++ toString i ++ " - Verified Account")
        (fun i => "Test Address " ++ toString i ++ " - Detailed Location Info")
        [1, 2, 3, 4] db4 with
    | none => none
    | some (dummyUsers, db5) =>
      match normalUser with
      | some normalUser =>
        match ensureRatings (defaultRatings normalUser dummyUsers storeId) db5 with
        | none => none
        | some db6 => some (syncStoreStats storeId db6)
      | none => some db5
  else some (syncStoreStats storeId db4)

/-- The part of `initializeDatabase` that follows the three accounts, for the
store owner found or created. -/
def storeStage (env : Env) (storeOwner : User) (db3 : Db) : Option Db :=
  let located : Option Store × Db :=
    match Store.findOneByOwner db3.stores storeOwner.id with
    | some s => (some s, db3)
    | none =>
      match Store.findOneByEmail db3.stores "info@techgadgets.com" with
      | some s =>
        (some { s with owner := some storeOwner.id },
          { db3 with stores := Store.setOwner db3.stores s.id storeOwner.id })
      | none => (none, db3)
  match located with
  | (none, db4) => newStoreStage env storeOwner db4
  | (some storeExists, db4) => existingStoreStage env storeExists.id db4

/-- A list is in the order of a listing: ascending by `le` for the direction
1, descending otherwise. -/
def SortedBy {α : Type} (le : α → α → Bool) (direction : ℤ) (l : List α) : Prop :=
  if direction = 1 then l.Pairwise (fun a b => le a b = true)
  else l.Pairwise (fun a b => le b a = true)

/-! ## Sample data -/
def alice : User := ⟨1, "Alice Owner of the Shop", "alice@x.com", "hash-a", "1 Main St", "store_owner"⟩
def bob : User := ⟨2, "Bob the Normal User", "bob@x.com", "hash-b", "2 Main St", "normal_user"⟩
def carol : User := ⟨3, "Carol the Normal User", "carol@x.com", "hash-c", "3 Main St", "normal_user"⟩

def shop : Store := ⟨10, "Alice Shop", "shop@x.com", "1 Main St", some 1, 0, 0⟩

/-- One store, its owner and two users, no rating yet. -/
def freshDb : Db := { users := [alice, bob, carol], stores := [shop], ratings := [], pending := [] }

/-- The store rated 4 and 5, and one rating of another store. -/
def ratedDb : Db :=
  { users := [alice, bob, carol]
    stores := [shop]
    ratings := [⟨2, 10, 4⟩, ⟨3, 10, 5⟩, ⟨3, 11, 1⟩]
    pending := [] }

/-- The state after Bob has rated the shop 4 and the recomputation has completed. -/
def bobRatedDb : Db :=
  { freshDb with
    stores := [{ shop with averageRating := 4, totalRatings := 1 }]
    ratings := [⟨2, 10, 4⟩] }

/-- A verifier for the samples: "good" decodes to user 2, "gone" to user 99,
"old" has expired, anything else is rejected. -/
def sampleVerify (token : String) : VerifyResult :=
  if token = "good" then VerifyResult.decoded 2
  else if token = "gone" then VerifyResult.decoded 99
  else if token = "old" then VerifyResult.tokenExpiredError
  else VerifyResult.jsonWebTokenError

/-- Validators that let every request through. -/
def passAll : Validation :=
  { validateAdminUserCreation := fun req => (req, Step.next)
    validateStore := fun req => (req, Step.next)
    validateRating := fun req => (req, Step.next) }

/-- Alice owns the shop; Alice, Bob and Carol have each rated a store. -/
def cascadeDb : Db :=
  { users := [alice, bob, carol]
    stores := [shop]
    ratings := [⟨1, 11, 3⟩, ⟨2, 10, 4⟩, ⟨3, 10, 5⟩]
    pending := [] }

/-- Lower-casing of the ASCII letters, the sample for `toLowerCase`. -/
def asciiLower (s : String) : String := String.mk (s.data.map Char.toLower)

/-- A sample environment: patterns match as case-insensitive prefixes, the hash
prefixes the password, nothing is trimmed, a created document gets id 100, and
timestamps follow the ids. -/
def sampleEnv : Env :=
  { regexTest := fun p t => (asciiLower p).data.isPrefixOf (asciiLower t).data
    hash := fun p => String.mk ('#' :: p.data)
    toLowerCase := asciiLower
    trim := fun s => s
    newId := 100
    userCreatedAt := fun id => id
    ratingUpdatedAt := fun u _ => u }

def dave : User := ⟨4, "Dave Owner of the Mart", "dave@x.com", "hash-d", "4 Main St", "store_owner"⟩

/-- Two stores with averages 4.5 and 3.0, the second owned by Dave, and their
ratings. -/
def rankDb : Db :=
  { users := [alice, bob, carol, dave]
    stores := [⟨10, "Alice Shop", "shop@x.com", "1 Main St", some 1, 9 / 2, 2⟩,
               ⟨11, "Dave Mart", "mart@x.com", "4 Main St", some 4, 3, 1⟩]
    ratings := [⟨2, 10, 4⟩, ⟨3, 10, 5⟩, ⟨3, 11, 3⟩]
    pending := [] }

/-- Dave as `req.user`. -/
def daveAuth : AuthUser := ⟨4, "dave@x.com", "store_owner"⟩

/-- Bob as `req.user`. -/
def bobAuth : AuthUser := ⟨2, "bob@x.com", "normal_user"⟩

/-- The fresh database with other password hashes stored. -/
def rehashedDb : Db :=
  { freshDb with
    users := [{ alice with password := "other-a" }, { bob with password := "other-b" },
      { carol with password := "other-c" }] }

/-- A body for `createUser` with a name of two characters. -/
def shortNameBody : UserBody :=
  { name := "Al", email := "al@x.com", password := "Secret@123", address := "5 Main St" }

/-- A body for `createStore` naming Bob, a normal user, as owner. -/
def booksBody : StoreBody :=
  { name := "Bob Books", email := "books@x.com", address := "2 Main St", ownerId := some 2 }

/-- A body for `createUser` with capitals in the email. -/
def erinBody : UserBody :=
  { name := "Erin the Normal User", email := "Erin@X.com", password := "Secret@123",
    address := "5 Main St", role := some "normal_user" }

/-- A body for `updateUser` with capitals in the email. -/
def capitalEmailUpdate : UpdateBody := { email := some "Bob@Y.com" }

/-- A body for `updateUser` with the email of Alice and a name of two characters. -/
def takenEmailShortNameUpdate : UpdateBody := { name := some "Al", email := some "alice@x.com" }

/-- A body for `updateUser` with the email of Alice. -/
def takenEmailUpdate : UpdateBody := { email := some "alice@x.com" }

/-- A body for `updateUser` with a new password and a new address. -/
def passwordUpdate : UpdateBody := { address := some "9 Side St", password := some "New@1234" }

/-- A store write that always throws. -/
def failingWrite (_ : List Store) (_ : ObjectId) (_ : ℚ) (_ : Nat) : Except String (List Store) :=
  Except.error "MongoNetworkError"

/-- The database with no document. -/
def emptyDb : Db := { users := [], stores := [], ratings := [], pending := [] }

/-- The seven accounts `initializeDatabase` creates on an empty database. -/
def seedUsers (env : Env) : List User :=
  [⟨1, "System Administrator Account", "admin@rately.com", env.hash "Admin@123",
      "123 Admin Street, Admin City, Admin State 12345", "system_admin"⟩,
    ⟨2, "Normal User Account for Testing", "user@rately.com", env.hash "User@123",
      "456 User Avenue, User City, User State 67890", "normal_user"⟩,
    ⟨3, "Store Owner Account for Testing", "store@rately.com", env.hash "Store@123",
      "789 Store Blvd, Store City, Store State 13579", "store_owner"⟩,
    ⟨4, "Test User 1", "user1@rately.com", env.hash "User@123", "Test Address 1", "normal_user"⟩,
    ⟨5, "Test User 2", "user2@rately.com", env.hash "User@123", "Test Address 2", "normal_user"⟩,
    ⟨6, "Test User 3", "user3@rately.com", env.hash "User@123", "Test Address 3", "normal_user"⟩,
    ⟨7, "Test User 4", "user4@rately.com", env.hash "User@123", "Test Address 4", "normal_user"⟩]

/-- The store of the seed with the given cached fields. -/
def seedStore (averageRating : ℚ) (totalRatings : Nat) : Store :=
  { id := 1, name := "Tech Gadgets and Electronics Superstore", email := "info@techgadgets.com"
    address := "789 Store Blvd, Store City, Store State 13579", owner := some 3
    averageRating := averageRating, totalRatings := totalRatings }

/-- The five ratings of the seed. -/
def seedRatings : List Rating := [⟨2, 1, 5⟩, ⟨4, 1, 4⟩, ⟨5, 1, 5⟩, ⟨6, 1, 5⟩, ⟨7, 1, 4⟩]

/-- The emails `initializeDatabase` looks accounts up by. -/
def seedEmails : List String :=
  ["admin@rately.com", "user@rately.com", "store@rately.com", "user1@rately.com",
    "user2@rately.com", "user3@rately.com", "user4@rately.com"]

/-- The state `initializeDatabase` leaves from the empty database once the
recomputations have completed: the seven accounts, the store with the
statistics of its five ratings, and the five ratings. -/
def seedDb (env : Env) : Db :=
  { users := seedUsers env, stores := [seedStore (23 / 5) 5], ratings := seedRatings, pending := [] }

/-- Bob, authenticated, submits `rating` for `storeId`. -/
def bobRates (storeId : ObjectId) (rating : ℚ) : Request :=
  { user := some ⟨2, "bob@x.com", "normal_user"⟩
    body := { storeId := some storeId, rating := some rating } }

/-! ## Shared lemmas -/
theorem Store.findById_findByIdAndUpdate (stores : List Store) (id : ObjectId) (a : ℚ) (t : Nat)
    (st : Store) (h : Store.findById stores id = some st) :
    Store.findById (Store.findByIdAndUpdate stores id a t) id
      = some { st with averageRating := a, totalRatings := t } := by
  induction stores with
  | nil => simp [Store.findById] at h
  | cons s rest ih =>
    unfold Store.findByIdAndUpdate
    by_cases hs : s.id = id
    · have hs1 : s = st := by simpa [Store.findById, List.find?, hs] using h
      subst hs1
      simp [Store.findById, List.find?, hs]
    · have h1 : Store.findById rest id = some st := by
        simpa [Store.findById, List.find?, hs] using h
      simp only [hs, if_false]
      simpa [Store.findById, List.find?, hs] using ih h1

theorem Store.findById_findByIdAndUpdate_ne (stores : List Store) (id other : ObjectId) (a : ℚ)
    (t : Nat) (h : other ≠ id) :
    Store.findById (Store.findByIdAndUpdate stores id a t) other = Store.findById stores other := by
  induction stores with
  | nil => simp [Store.findByIdAndUpdate]
  | cons s rest ih =>
    unfold Store.findByIdAndUpdate
    by_cases hs : s.id = id
    · have hne : ¬ s.id = other := fun e => h (e.symm.trans hs)
      simp [Store.findById, List.find?, hs, hne, h.symm]
    · simp only [hs, if_false]
      by_cases ho : s.id = other
      · simp [Store.findById, List.find?, ho]
      · simpa [Store.findById, List.find?, ho] using ih

theorem toFixed1_tenths (x : ℚ) : ∃ n : ℤ, toFixed1 x = n / 10 := by
  unfold toFixed1
  split_ifs
  · exact ⟨-⌊-x * 10 + 1 / 2⌋, by push_cast; ring⟩
  · exact ⟨⌊x * 10 + 1 / 2⌋, rfl⟩

theorem toFixed1_near (x : ℚ) : |toFixed1 x - x| ≤ 1 / 20 := by
  unfold toFixed1
  split_ifs
  · have h1 := Int.floor_le (-x * 10 + 1 / 2)
    have h2 := Int.lt_floor_add_one (-x * 10 + 1 / 2)
    rw [abs_le]
    constructor <;> linarith
  · have h1 := Int.floor_le (x * 10 + 1 / 2)
    have h2 := Int.lt_floor_add_one (x * 10 + 1 / 2)
    rw [abs_le]
    constructor <;> linarith

/-- Evaluates `toFixed1` at a non-negative argument once the integer is known. -/
theorem toFixed1_eq_of (x : ℚ) (n : ℤ) (h0 : 0 ≤ x) (h1 : (n : ℚ) ≤ x * 10 + 1 / 2)
    (h2 : x * 10 + 1 / 2 < n + 1) : toFixed1 x = n / 10 := by
  unfold toFixed1
  rw [if_neg (not_lt.mpr h0)]
  have : ⌊x * 10 + 1 / 2⌋ = n := Int.floor_eq_iff.mpr ⟨h1, h2⟩
  rw [this]

theorem aggregate_nil (ratings : List Rating) (s : ObjectId)
    (h : ratings.filter (fun r => r.store = s) = []) : aggregate ratings s = [] := by
  simp only [aggregate, h]

theorem aggregate_cons (ratings : List Rating) (s : ObjectId)
    (h : ratings.filter (fun r => r.store = s) ≠ []) :
    aggregate ratings s =
      [{ id := s
         averageRating :=
           ((ratings.filter (fun r => r.store = s)).map (fun r => r.rating)).sum
             / ((ratings.filter (fun r => r.store = s)).length : ℚ)
         totalRatings := (ratings.filter (fun r => r.store = s)).length }] := by
  unfold aggregate
  cases hm : ratings.filter (fun r => r.store = s) with
  | nil => exact absurd hm h
  | cons a l => rfl

/-- What `calculateAverageRating` leaves in the store it is called for. -/
theorem calculateAverageRating_store (s : ObjectId) (db : Db) (st : Store)
    (hst : Store.findById db.stores s = some st) :
    Store.findById (calculateAverageRating s db).stores s =
      some { st with
        averageRating :=
          if db.ratings.filter (fun r => r.store = s) = [] then 0
          else toFixed1
            (((db.ratings.filter (fun r => r.store = s)).map (fun r => r.rating)).sum
              / ((db.ratings.filter (fun r => r.store = s)).length : ℚ))
        totalRatings := (db.ratings.filter (fun r => r.store = s)).length } := by
  by_cases h : db.ratings.filter (fun r => r.store = s) = []
  · simp only [calculateAverageRating, aggregate_nil _ _ h]
    rw [Store.findById_findByIdAndUpdate _ _ _ _ _ hst]
    simp [h]
  · simp only [calculateAverageRating, aggregate_cons _ _ h]
    rw [Store.findById_findByIdAndUpdate _ _ _ _ _ hst]
    simp [h]

theorem calculateAverageRating_ratings (s : ObjectId) (db : Db) :
    (calculateAverageRating s db).ratings = db.ratings := by
  unfold calculateAverageRating
  cases aggregate db.ratings s <;> rfl

theorem calculateAverageRating_users (s : ObjectId) (db : Db) :
    (calculateAverageRating s db).users = db.users := by
  unfold calculateAverageRating
  cases aggregate db.ratings s <;> rfl

theorem calculateAverageRating_other (s other : ObjectId) (db : Db) (h : other ≠ s) :
    Store.findById (calculateAverageRating s db).stores other = Store.findById db.stores other := by
  unfold calculateAverageRating
  cases aggregate db.ratings s <;>
    exact Store.findById_findByIdAndUpdate_ne _ _ _ _ _ h

theorem Rating.findOne_some (ratings : List Rating) (user store : ObjectId) (e : Rating)
    (h : Rating.findOne ratings user store = some e) : e.user = user ∧ e.store = store := by
  have := List.find?_some h
  simpa using this

theorem submitRating_valid (req : Request) (db : Db) (u : AuthUser) (sid : ObjectId) (r : ℚ)
    (st : Store) (hu : req.user = some u) (hs : req.body.storeId = some sid)
    (hr : req.body.rating = some r) (h1 : 1 ≤ r) (h5 : r ≤ 5)
    (hst : Store.findById db.stores sid = some st) :
    submitRating req db =
      (⟨200, none, some "Rating submitted successfully"⟩,
        { db with ratings := ledgerAfter db.ratings u.userId sid r
                  pending := db.pending ++ [sid] }) := by
  have h0 : r ≠ 0 := by intro h; rw [h] at h1; norm_num at h1
  have hrange : ¬ (r < 1 ∨ r > 5) := by
    intro h
    rcases h with h | h
    · exact absurd h1 (not_le.mpr h)
    · exact absurd h5 (not_le.mpr h)
  unfold submitRating ledgerAfter
  simp only [hu, hs, hr, h0, hrange, if_false, hst]
  cases he : Rating.findOne db.ratings u.userId sid with
  | none => simp [postSave]
  | some e => simp [postSave, (Rating.findOne_some _ _ _ _ he).2]

theorem submitRating_ok (req : Request) (db : Db) (h : (submitRating req db).1.status = 200) :
    ∃ u sid r st, req.user = some u ∧ req.body.storeId = some sid ∧ req.body.rating = some r ∧
      1 ≤ r ∧ r ≤ 5 ∧ Store.findById db.stores sid = some st := by
  unfold submitRating at h
  cases hu : req.user with
  | none => simp [hu] at h
  | some u =>
    cases hs : req.body.storeId with
    | none => simp [hu, hs] at h
    | some sid =>
      cases hr : req.body.rating with
      | none => simp [hu, hs, hr] at h
      | some r =>
        simp only [hu, hs, hr] at h
        by_cases h0 : r = 0
        · simp [h0] at h
        · by_cases hrange : r < 1 ∨ r > 5
          · simp [h0, hrange] at h
          · cases hst : Store.findById db.stores sid with
            | none => simp [h0, hrange, hst] at h
            | some st =>
              push_neg at hrange
              exact ⟨u, sid, r, st, rfl, rfl, rfl, hrange.1, hrange.2, hst⟩

theorem submitRating_not_ok (req : Request) (db : Db) (h : (submitRating req db).1.status ≠ 200) :
    (submitRating req db).2 = db := by
  unfold submitRating at h ⊢
  cases hu : req.user with
  | none => simp
  | some u =>
    cases hs : req.body.storeId with
    | none => simp
    | some sid =>
      cases hr : req.body.rating with
      | none => simp
      | some r =>
        simp only [hu, hs, hr] at h ⊢
        by_cases h0 : r = 0
        · simp [h0]
        · by_cases hrange : r < 1 ∨ r > 5
          · simp [h0, hrange]
          · cases hst : Store.findById db.stores sid with
            | none => simp [h0, hrange, hst]
            | some st =>
              exfalso
              apply h
              simp only [h0, hrange, hst, if_false]
              cases Rating.findOne db.ratings u.userId sid <;> rfl

theorem calculateAverageRating_pending (s : ObjectId) (db : Db) :
    (calculateAverageRating s db).pending = db.pending := by
  unfold calculateAverageRating
  cases aggregate db.ratings s <;> rfl

theorem calculateAverageRating_keeps (s x : ObjectId) (db : Db) (st : Store)
    (h : Store.findById db.stores x = some st) :
    ∃ st1, Store.findById (calculateAverageRating s db).stores x = some st1 := by
  by_cases hx : x = s
  · subst hx
    exact ⟨_, calculateAverageRating_store x db st h⟩
  · exact ⟨st, by rw [calculateAverageRating_other s x db hx, h]⟩

theorem foldl_calculate_ratings (l : List ObjectId) (db : Db) :
    (l.foldl (fun d s => calculateAverageRating s d) db).ratings = db.ratings := by
  induction l generalizing db with
  | nil => rfl
  | cons a l ih => simp only [List.foldl_cons, ih, calculateAverageRating_ratings]

theorem foldl_calculate_pending (l : List ObjectId) (db : Db) :
    (l.foldl (fun d s => calculateAverageRating s d) db).pending = db.pending := by
  induction l generalizing db with
  | nil => rfl
  | cons a l ih => simp only [List.foldl_cons, ih, calculateAverageRating_pending]

theorem foldl_calculate_keeps (l : List ObjectId) (db : Db) (x : ObjectId) (st : Store)
    (h : Store.findById db.stores x = some st) :
    ∃ st1, Store.findById (l.foldl (fun d s => calculateAverageRating s d) db).stores x
      = some st1 := by
  induction l generalizing db st with
  | nil => exact ⟨st, h⟩
  | cons a l ih =>
    obtain ⟨st1, h1⟩ := calculateAverageRating_keeps a x db st h
    simpa only [List.foldl_cons] using ih _ st1 h1

theorem completePending_ratings (db : Db) : (completePending db).ratings = db.ratings := by
  unfold completePending
  rw [foldl_calculate_ratings]

theorem completePending_pending (db : Db) : (completePending db).pending = [] := by
  unfold completePending
  rw [foldl_calculate_pending]

/-- When the recomputation for `sid` is the last one pending, completing the
pending work leaves the statistics of `sid` computed from the ledger. -/
theorem completePending_last (db : Db) (p : List ObjectId) (sid : ObjectId) (st : Store)
    (hp : db.pending = p ++ [sid]) (hst : Store.findById db.stores sid = some st) :
    ∃ st0 : Store, Store.findById (completePending db).stores sid =
      some { st0 with
        averageRating :=
          if db.ratings.filter (fun r => r.store = sid) = [] then 0
          else toFixed1
            (((db.ratings.filter (fun r => r.store = sid)).map (fun r => r.rating)).sum
              / ((db.ratings.filter (fun r => r.store = sid)).length : ℚ))
        totalRatings := (db.ratings.filter (fun r => r.store = sid)).length } := by
  unfold completePending
  rw [hp, List.foldl_append]
  simp only [List.foldl_cons, List.foldl_nil]
  obtain ⟨st0, h0⟩ :=
    foldl_calculate_keeps p { db with pending := [] } sid st hst
  refine ⟨st0, ?_⟩
  have := calculateAverageRating_store sid _ st0 h0
  rw [foldl_calculate_ratings] at this
  exact this

theorem Rating.overwrite_length (ratings : List Rating) (user store : ObjectId) (rating : ℚ) :
    (Rating.overwrite ratings user store rating).length = ratings.length := by
  induction ratings with
  | nil => rfl
  | cons a l ih =>
    unfold Rating.overwrite
    split_ifs <;> simp [ih]

theorem Rating.overwrite_keys (ratings : List Rating) (user store : ObjectId) (rating : ℚ) :
    (Rating.overwrite ratings user store rating).map (fun r => (r.user, r.store))
      = ratings.map (fun r => (r.user, r.store)) := by
  induction ratings with
  | nil => rfl
  | cons a l ih =>
    unfold Rating.overwrite
    split_ifs <;> simp [ih]

theorem pairCount_eq_count (ratings : List Rating) (user store : ObjectId) :
    pairCount ratings user store = (ratings.map (fun r => (r.user, r.store))).count (user, store) := by
  unfold pairCount
  induction ratings with
  | nil => rfl
  | cons a l ih =>
    by_cases h : a.user = user ∧ a.store = store
    · have ih1 := ih
      simp only [Bool.decide_and] at ih1
      simp [List.filter_cons, h, ih1]
    · have h2 : ¬ (a.user = user ∧ a.store = store) := h
      have ih1 := ih
      simp only [Bool.decide_and] at ih1
      rw [not_and] at h2
      simp only [List.filter_cons, List.map_cons, List.count_cons, Bool.decide_and]
      by_cases hu : a.user = user
      · simp [hu, h2 hu, ih1]
      · simp [hu, ih1]

theorem Rating.findOne_none_iff (ratings : List Rating) (user store : ObjectId) :
    Rating.findOne ratings user store = none ↔ pairCount ratings user store = 0 := by
  unfold Rating.findOne pairCount
  simp [List.find?_eq_none, List.filter_eq_nil_iff]

theorem Rating.findOne_overwrite (ratings : List Rating) (user store : ObjectId) (rating : ℚ)
    (e : Rating) (h : Rating.findOne ratings user store = some e) :
    Rating.findOne (Rating.overwrite ratings user store rating) user store
      = some { e with rating := rating } := by
  induction ratings with
  | nil => simp [Rating.findOne] at h
  | cons a l ih =>
    unfold Rating.overwrite
    by_cases ha : a.user = user ∧ a.store = store
    · have hae : a = e := by simpa [Rating.findOne, List.find?, ha] using h
      subst hae
      simp [Rating.findOne, List.find?, ha]
    · have h1 : Rating.findOne l user store = some e := by
        simpa [Rating.findOne, List.find?, ha] using h
      simp only [ha, if_false]
      simpa [Rating.findOne, List.find?, ha] using ih h1

theorem pairCount_ledgerAfter (ratings : List Rating) (user store : ObjectId) (rating : ℚ)
    (u s : ObjectId) :
    pairCount (ledgerAfter ratings user store rating) u s =
      if Rating.findOne ratings user store = none ∧ u = user ∧ s = store then 1
      else pairCount ratings u s := by
  unfold ledgerAfter
  cases he : Rating.findOne ratings user store with
  | some e =>
    simp only [pairCount_eq_count, Rating.overwrite_keys]
    simp
  | none =>
    by_cases hus : u = user ∧ s = store
    · obtain ⟨h1, h2⟩ := hus
      subst h1 h2
      have h0 := (Rating.findOne_none_iff ratings u s).mp he
      simp only [pairCount, List.filter_append, List.length_append] at h0 ⊢
      rw [h0]
      simp
    · have hne : ¬ (user = u ∧ store = s) := fun h => hus ⟨h.1.symm, h.2.symm⟩
      simp only [pairCount, List.filter_append, List.length_append]
      simp [hus, hne]

theorem ledgerAfter_store_ne_nil (ratings : List Rating) (user store : ObjectId) (rating : ℚ) :
    (ledgerAfter ratings user store rating).filter (fun r => r.store = store) ≠ [] := by
  have h := pairCount_ledgerAfter ratings user store rating user store
  intro hnil
  have hzero : pairCount (ledgerAfter ratings user store rating) user store = 0 := by
    unfold pairCount
    rw [List.length_eq_zero, List.filter_eq_nil_iff]
    intro a ha
    have := (List.filter_eq_nil_iff.mp hnil) a ha
    simp only [decide_eq_true_eq] at this ⊢
    exact fun h => this h.2
  rw [hzero] at h
  by_cases he : Rating.findOne ratings user store = none
  · simp [he] at h
  · simp only [he, false_and, if_false] at h
    exact he ((Rating.findOne_none_iff ratings user store).mpr h.symm)

theorem submitRating_keeps_unique (req : Request) (db : Db)
    (h : ∀ u s, pairCount db.ratings u s ≤ 1) :
    ∀ u s, pairCount (submitRating req db).2.ratings u s ≤ 1 := by
  intro u s
  by_cases hok : (submitRating req db).1.status = 200
  · obtain ⟨a, sid, r, st, hu, hs, hr, h1, h5, hst⟩ := submitRating_ok req db hok
    rw [submitRating_valid req db a sid r st hu hs hr h1 h5 hst]
    simp only [pairCount_ledgerAfter]
    split_ifs
    · exact le_refl 1
    · exact h u s
  · rw [submitRating_not_ok req db hok]
    exact h u s

theorem submitRatings_keeps_unique (reqs : List Request) (db : Db)
    (h : ∀ u s, pairCount db.ratings u s ≤ 1) :
    ∀ u s, pairCount (submitRatings reqs db).ratings u s ≤ 1 := by
  induction reqs generalizing db with
  | nil => exact h
  | cons req reqs ih =>
    unfold submitRatings
    rw [List.foldl_cons]
    exact ih _ (submitRating_keeps_unique req db h)

/-- The branches of `authenticateToken`. -/
theorem authenticateToken_cases (verify : String → VerifyResult) (users : List User)
    (req : Request) :
    (bearerToken req.authorization = none ∨ bearerToken req.authorization = some "" →
      authenticateToken verify users req
        = (req, Step.respond ⟨401, some "Access token required", none⟩)) ∧
    (∀ t, bearerToken req.authorization = some t → t ≠ "" →
      (verify t = VerifyResult.jsonWebTokenError →
        authenticateToken verify users req
          = (req, Step.respond ⟨403, some "Invalid token", none⟩)) ∧
      (verify t = VerifyResult.tokenExpiredError →
        authenticateToken verify users req
          = (req, Step.respond ⟨403, some "Token expired", none⟩)) ∧
      (∀ uid, verify t = VerifyResult.decoded uid → User.findById users uid = none →
        authenticateToken verify users req
          = (req, Step.respond ⟨401, some "User not found", none⟩)) ∧
      (∀ uid user, verify t = VerifyResult.decoded uid → User.findById users uid = some user →
        authenticateToken verify users req
          = ({ req with user := some ⟨user.id, user.email, user.role⟩ }, Step.next))) ∧
    ((authenticateToken verify users req).2 = Step.next →
      ∃ t uid user, bearerToken req.authorization = some t ∧ t ≠ "" ∧
        verify t = VerifyResult.decoded uid ∧ User.findById users uid = some user) := by
  refine ⟨?_, ?_, ?_⟩
  · intro h
    unfold authenticateToken
    rcases h with h | h <;> simp [h]
  · intro t ht hne
    unfold authenticateToken
    refine ⟨?_, ?_, ?_, ?_⟩
    · intro hv
      simp [ht, hne, hv]
    · intro hv
      simp [ht, hne, hv]
    · intro uid hv hf
      simp [ht, hne, hv, hf]
    · intro uid user hv hf
      simp [ht, hne, hv, hf]
  · intro h
    unfold authenticateToken at h
    cases ht : bearerToken req.authorization with
    | none => simp [ht] at h
    | some t =>
      by_cases hne : t = ""
      · simp [ht, hne] at h
      · cases hv : verify t with
        | decoded uid =>
          cases hf : User.findById users uid with
          | none => simp [ht, hne, hv, hf] at h
          | some user => exact ⟨t, uid, user, rfl, hne, hv, hf⟩
        | jsonWebTokenError => simp [ht, hne, hv] at h
        | tokenExpiredError => simp [ht, hne, hv] at h
        | otherError => simp [ht, hne, hv] at h

theorem runStack_guarded (auth : Middleware) (roles : List String) (rest : List Middleware)
    (req : Request) :
    runStack (auth :: requireRole roles :: rest) req =
      match auth req with
      | (req1, Step.respond res) => (req1, Step.respond res)
      | (req1, Step.next) =>
        match req1.user with
        | none => (req1, Step.respond ⟨401, some "Authentication required", none⟩)
        | some u =>
          if u.role ∈ roles then runStack rest req1
          else (req1, Step.respond ⟨403, some "Insufficient permissions", none⟩) := by
  rcases h : auth req with ⟨req1, step⟩
  cases step with
  | respond res => simp [runStack, h]
  | next =>
    cases hu : req1.user with
    | none => simp [runStack, h, requireRole, hu]
    | some u =>
      by_cases hr : u.role ∈ roles
      · simp [runStack, h, requireRole, hu, hr]
      · simp [runStack, h, requireRole, hu, hr]

/-- Every protected route starts with authentication followed by the role
check for its allow-list. -/
theorem routeStack_shape (auth : Middleware) (v : Validation) (route : Route) :
    ∃ rest, routeStack auth v route = auth :: requireRole (allowedRoles route) :: rest := by
  rcases route with h | h <;> cases h <;>
    exact ⟨_, rfl⟩

/-- Behind a successful authentication, a protected route lets the request
past its role check exactly when the role is in the allow-list. -/
theorem route_gate (auth : Middleware) (v : Validation) (route : Route) (req req1 : Request)
    (u : AuthUser) (hauth : auth req = (req1, Step.next)) (hu : req1.user = some u) :
    ((runStack (routeStack auth v route) req).2 = Step.next → u.role ∈ allowedRoles route) ∧
    (u.role ∉ allowedRoles route →
      runStack (routeStack auth v route) req
        = (req1, Step.respond ⟨403, some "Insufficient permissions", none⟩)) ∧
    (u.role ∈ allowedRoles route →
      routeStack auth v route = [auth, requireRole (allowedRoles route)] →
      runStack (routeStack auth v route) req = (req1, Step.next)) := by
  obtain ⟨rest, hshape⟩ := routeStack_shape auth v route
  refine ⟨?_, ?_, ?_⟩
  · intro h
    by_contra hr
    rw [hshape, runStack_guarded, hauth] at h
    simp [hu, hr] at h
  · intro hr
    rw [hshape, runStack_guarded, hauth]
    simp [hu, hr]
  · intro hr hst
    rw [hst, runStack_guarded, hauth]
    simp [hu, hr, runStack]

theorem authenticateToken_next (verify : String → VerifyResult) (users : List User)
    (req req1 : Request) (h : authenticateToken verify users req = (req1, Step.next)) :
    ∃ user, user ∈ users ∧ req1.user = some ⟨user.id, user.email, user.role⟩ := by
  obtain ⟨_, h2, h3⟩ := authenticateToken_cases verify users req
  obtain ⟨t, uid, user, ht, hne, hv, hf⟩ := h3 (by rw [h])
  have h4 := (h2 t ht hne).2.2.2 uid user hv hf
  rw [h] at h4
  have h5 : req1 = { req with user := some ⟨user.id, user.email, user.role⟩ } :=
    congrArg Prod.fst h4
  refine ⟨user, List.mem_of_find?_eq_some hf, ?_⟩
  rw [h5]

theorem User.findByIdAndDelete_fst (users : List User) (id : ObjectId) :
    (User.findByIdAndDelete users id).1 = User.findById users id := by
  induction users with
  | nil => rfl
  | cons a l ih =>
    unfold User.findByIdAndDelete
    by_cases h : a.id = id
    · simp [User.findById, List.find?, h]
    · simpa [User.findById, List.find?, h] using ih

theorem User.findByIdAndDelete_snd (users : List User) (id : ObjectId) :
    (User.findByIdAndDelete users id).2 = users.eraseP (fun u => u.id = id) := by
  induction users with
  | nil => rfl
  | cons a l ih =>
    unfold User.findByIdAndDelete
    by_cases h : a.id = id
    · simp [h]
    · simp [h, ih]

theorem User.findByIdAndDelete_gone (users : List User) (id : ObjectId)
    (hnodup : (users.map (fun u => u.id)).Nodup) :
    ∀ v ∈ (User.findByIdAndDelete users id).2, v.id ≠ id := by
  induction users with
  | nil => intro v hv; simp [User.findByIdAndDelete] at hv
  | cons a l ih =>
    rw [List.map_cons, List.nodup_cons] at hnodup
    intro v hv
    unfold User.findByIdAndDelete at hv
    by_cases h : a.id = id
    · simp only [h, if_true] at hv
      intro hvid
      apply hnodup.1
      rw [h, ← hvid]
      exact List.mem_map_of_mem _ hv
    · simp only [h, if_false, List.mem_cons] at hv
      rcases hv with hv | hv
      · rw [hv]; exact h
      · exact ih hnodup.2 v hv

theorem User.findByIdAndDelete_kept (users : List User) (id : ObjectId) :
    ∀ v ∈ users, v.id ≠ id → v ∈ (User.findByIdAndDelete users id).2 := by
  intro v hv hne
  rw [User.findByIdAndDelete_snd]
  exact (List.mem_eraseP_of_neg (by simpa using hne)).mpr hv

theorem Store.deleteOne_eq_eraseP (stores : List Store) (owner : ObjectId) :
    Store.deleteOne stores owner = stores.eraseP (fun s => s.owner = some owner) := by
  induction stores with
  | nil => rfl
  | cons a l ih =>
    unfold Store.deleteOne
    by_cases h : a.owner = some owner
    · simp [h]
    · simp [h, ih]

theorem Store.deleteOne_none_left (stores : List Store) (owner : ObjectId)
    (h : (stores.filter (fun s => s.owner = some owner)).length ≤ 1) :
    ∀ s ∈ Store.deleteOne stores owner, s.owner ≠ some owner := by
  induction stores with
  | nil => intro s hs; simp [Store.deleteOne] at hs
  | cons a l ih =>
    intro s hs
    unfold Store.deleteOne at hs
    by_cases ha : a.owner = some owner
    · simp only [ha, if_true] at hs
      simp only [List.filter_cons, ha, decide_True, if_true, List.length_cons] at h
      have h0 : (l.filter (fun s => s.owner = some owner)).length = 0 := by omega
      rw [List.length_eq_zero, List.filter_eq_nil_iff] at h0
      simpa using h0 s hs
    · simp only [ha, if_false, List.mem_cons] at hs
      simp only [List.filter_cons, ha, decide_False] at h
      rcases hs with hs | hs
      · rw [hs]; exact ha
      · exact ih (by simpa using h) s hs

theorem toFixed1_nearest (x : ℚ) (k : ℤ) : |toFixed1 x - x| ≤ |(k : ℚ) / 10 - x| := by
  obtain ⟨n, hn⟩ := toFixed1_tenths x
  have hnear := toFixed1_near x
  by_cases hk : k = n
  · rw [hk, ← hn]
  · have hkn : (1 : ℚ) ≤ |(k : ℚ) - n| := by
      have h1 : (1 : ℤ) ≤ |k - n| := Int.one_le_abs (sub_ne_zero.mpr hk)
      exact_mod_cast h1
    have hdist : (1 : ℚ) / 10 ≤ |(k : ℚ) / 10 - toFixed1 x| := by
      rw [hn]
      have : (k : ℚ) / 10 - (n : ℚ) / 10 = ((k : ℚ) - n) / 10 := by ring
      rw [this, abs_div]
      have h10 : |(10 : ℚ)| = 10 := abs_of_pos (by norm_num)
      rw [h10]
      linarith
    have htri : |(k : ℚ) / 10 - toFixed1 x| ≤ |(k : ℚ) / 10 - x| + |toFixed1 x - x| := by
      have := abs_sub_le ((k : ℚ) / 10) x (toFixed1 x)
      rw [abs_sub_comm x (toFixed1 x)] at this
      exact this
    linarith

/-- A multiple of one tenth within one twentieth of a number that is itself a
multiple of one tenth is that number. -/
theorem tenth_eq_of_near (a : ℚ) (n m : ℤ) (ha : a = n / 10) (h : |a - (m : ℚ) / 10| ≤ 1 / 20) :
    a = (m : ℚ) / 10 := by
  rw [ha] at h ⊢
  have h2 := abs_le.mp h
  have h3 : (2 : ℚ) * n ≤ 2 * m + 1 := by linarith [h2.2]
  have h4 : (2 : ℚ) * m - 1 ≤ 2 * n := by linarith [h2.1]
  have h5 : (2 : ℤ) * n ≤ 2 * m + 1 := by exact_mod_cast h3
  have h6 : (2 : ℤ) * m - 1 ≤ 2 * n := by exact_mod_cast h4
  have : n = m := by omega
  rw [this]

/-! ## Theorems -/

/-- C1. For a store `s` present in the registry, once `calculateAverageRating(s)`
has completed the store carries `totalRatings` equal to the number of rating
records whose store is `s`; when there is none both cached fields are 0;
otherwise `averageRating` is the arithmetic mean of their values rounded to
one decimal place: a multiple of one tenth, at distance at most one twentieth
from the mean, and no multiple of one tenth is closer to the mean.  For a mean
halfway between two tenths this holds of either of them.  The other fields of
the store, the other stores and the ledger are untouched. -/
theorem calculateAverageRating_recomputes (s : ObjectId) (db : Db) (st : Store)
    (hst : Store.findById db.stores s = some st) :
    ∃ st1 : Store,
      Store.findById (calculateAverageRating s db).stores s = some st1 ∧
      st1 = { st with averageRating := st1.averageRating, totalRatings := st1.totalRatings } ∧
      st1.totalRatings = (db.ratings.filter (fun r => r.store = s)).length ∧
      (db.ratings.filter (fun r => r.store = s) = [] →
        st1.averageRating = 0 ∧ st1.totalRatings = 0) ∧
      (db.ratings.filter (fun r => r.store = s) ≠ [] →
        (∃ n : ℤ, st1.averageRating = n / 10) ∧
        |st1.averageRating
          - ((db.ratings.filter (fun r => r.store = s)).map (fun r => r.rating)).sum
            / ((db.ratings.filter (fun r => r.store = s)).length : ℚ)| ≤ 1 / 20 ∧
        ∀ k : ℤ,
          |st1.averageRating
            - ((db.ratings.filter (fun r => r.store = s)).map (fun r => r.rating)).sum
              / ((db.ratings.filter (fun r => r.store = s)).length : ℚ)|
          ≤ |(k : ℚ) / 10
            - ((db.ratings.filter (fun r => r.store = s)).map (fun r => r.rating)).sum
              / ((db.ratings.filter (fun r => r.store = s)).length : ℚ)|) ∧
      (calculateAverageRating s db).ratings = db.ratings ∧
      (∀ other, other ≠ s →
        Store.findById (calculateAverageRating s db).stores other
          = Store.findById db.stores other) := by
  refine ⟨_, calculateAverageRating_store s db st hst, ?_, ?_, ?_, ?_,
    calculateAverageRating_ratings s db, fun other h => calculateAverageRating_other s other db h⟩
  · rfl
  · rfl
  · intro h
    simp [h]
  · intro h
    simp only [h, if_false]
    exact ⟨toFixed1_tenths _, toFixed1_near _, toFixed1_nearest _⟩

theorem calculateAverageRating_recomputes_witness :
    Store.findById ratedDb.stores 10 = some shop ∧
    ∃ st1 : Store,
      Store.findById (calculateAverageRating 10 ratedDb).stores 10 = some st1 ∧
      st1.totalRatings = 2 ∧ st1.averageRating = 9 / 2 := by
  refine ⟨rfl, ?_⟩
  obtain ⟨st1, h1, _, h3, _, h5, _⟩ := calculateAverageRating_recomputes 10 ratedDb shop rfl
  refine ⟨st1, h1, ?_, ?_⟩
  · rw [h3]; rfl
  · have hne : ratedDb.ratings.filter (fun r => r.store = 10) ≠ [] := by
      simp [ratedDb]
    obtain ⟨⟨n, hn⟩, hnear, _⟩ := h5 hne
    have hmean : ((ratedDb.ratings.filter (fun r => r.store = 10)).map (fun r => r.rating)).sum
        / ((ratedDb.ratings.filter (fun r => r.store = 10)).length : ℚ) = ((45 : ℤ) : ℚ) / 10 := by
      simp [ratedDb]
      norm_num
    rw [hmean] at hnear
    rw [tenth_eq_of_near _ n 45 hn hnear]
    norm_num

/-- C2, as stated, fails: when `submitRating` answers Bob's first rating of the
shop with its success response, the ledger holds one rating of the shop while
the shop's cached `totalRatings` is still 0. -/
theorem submitRating_response_stale :
    (submitRating (bobRates 10 4) freshDb).1.status = 200 ∧
    ∃ st : Store,
      Store.findById (submitRating (bobRates 10 4) freshDb).2.stores 10 = some st ∧
      st.totalRatings ≠
        ((submitRating (bobRates 10 4) freshDb).2.ratings.filter (fun r => r.store = 10)).length := by
  have h := submitRating_valid (bobRates 10 4) freshDb ⟨2, "bob@x.com", "normal_user"⟩ 10 4 shop
    rfl rfl rfl (by norm_num) (by norm_num) rfl
  rw [h]
  refine ⟨rfl, shop, rfl, ?_⟩
  simp [ledgerAfter, Rating.findOne, freshDb, shop]

/-- C2, amended.  A successful `submitRating` for store `sid` writes the rating
and starts the recomputation for `sid` in the same turn (it is the last entry
of `pending`), without awaiting it: at the success response the stores are
exactly as before the write.  Once the pending recomputations have completed,
`totalRatings` of `sid` is the number of rating records referencing `sid`
(at least one) and `averageRating` is their mean rounded to one decimal: a
multiple of one tenth within one twentieth of the mean, no multiple of one
tenth being closer. -/
theorem submitRating_recomputes_after_response (req : Request) (db : Db)
    (hok : (submitRating req db).1.status = 200) :
    ∃ sid : ObjectId, req.body.storeId = some sid ∧
      (submitRating req db).2.stores = db.stores ∧
      (submitRating req db).2.pending = db.pending ++ [sid] ∧
      (completePending (submitRating req db).2).ratings = (submitRating req db).2.ratings ∧
      ∃ st1 : Store,
        Store.findById (completePending (submitRating req db).2).stores sid = some st1 ∧
        st1.totalRatings =
          ((submitRating req db).2.ratings.filter (fun r => r.store = sid)).length ∧
        0 < st1.totalRatings ∧
        (∃ n : ℤ, st1.averageRating = n / 10) ∧
        |st1.averageRating
          - (((submitRating req db).2.ratings.filter (fun r => r.store = sid)).map
              (fun r => r.rating)).sum
            / (((submitRating req db).2.ratings.filter (fun r => r.store = sid)).length : ℚ)|
          ≤ 1 / 20 ∧
        ∀ k : ℤ,
          |st1.averageRating
            - (((submitRating req db).2.ratings.filter (fun r => r.store = sid)).map
                (fun r => r.rating)).sum
              / (((submitRating req db).2.ratings.filter (fun r => r.store = sid)).length : ℚ)|
          ≤ |(k : ℚ) / 10
            - (((submitRating req db).2.ratings.filter (fun r => r.store = sid)).map
                (fun r => r.rating)).sum
              / (((submitRating req db).2.ratings.filter (fun r => r.store = sid)).length : ℚ)| := by
  obtain ⟨u, sid, r, st, hu, hs, hr, h1, h5, hst⟩ := submitRating_ok req db hok
  have hv := submitRating_valid req db u sid r st hu hs hr h1 h5 hst
  have hne := ledgerAfter_store_ne_nil db.ratings u.userId sid r
  refine ⟨sid, hs, ?_, ?_, completePending_ratings _, ?_⟩
  · rw [hv]
  · rw [hv]
  · obtain ⟨st0, h0⟩ := completePending_last (submitRating req db).2 db.pending sid st
      (by rw [hv]) (by rw [hv]; exact hst)
    refine ⟨_, h0, rfl, ?_, ?_, ?_, ?_⟩
    · rw [hv]
      exact List.length_pos.mpr hne
    · rw [hv]
      simp only [hne, if_false]
      exact toFixed1_tenths _
    · rw [hv]
      simp only [hne, if_false]
      exact toFixed1_near _
    · rw [hv]
      simp only [hne, if_false]
      exact toFixed1_nearest _

theorem submitRating_recomputes_after_response_witness :
    (submitRating (bobRates 10 4) freshDb).1.status = 200 ∧
    ∃ st1 : Store,
      Store.findById (completePending (submitRating (bobRates 10 4) freshDb).2).stores 10
        = some st1 ∧
      st1.totalRatings = 1 ∧ st1.averageRating = 4 := by
  have h := submitRating_valid (bobRates 10 4) freshDb ⟨2, "bob@x.com", "normal_user"⟩ 10 4 shop
    rfl rfl rfl (by norm_num) (by norm_num) rfl
  have hok : (submitRating (bobRates 10 4) freshDb).1.status = 200 := by rw [h]
  refine ⟨hok, ?_⟩
  obtain ⟨sid, hs, _, _, _, st1, hf, ht, _, ⟨n, hn⟩, hnear, _⟩ :=
    submitRating_recomputes_after_response (bobRates 10 4) freshDb hok
  have hsid : sid = 10 := by
    have : some sid = some 10 := hs.symm.trans rfl
    exact (Option.some.inj this)
  subst hsid
  refine ⟨st1, hf, ?_, ?_⟩
  · rw [ht, h]
    simp [ledgerAfter, Rating.findOne, freshDb]
  · have hmean : (((submitRating (bobRates 10 4) freshDb).2.ratings.filter
          (fun r => r.store = 10)).map (fun r => r.rating)).sum
        / (((submitRating (bobRates 10 4) freshDb).2.ratings.filter
          (fun r => r.store = 10)).length : ℚ) = ((40 : ℤ) : ℚ) / 10 := by
      rw [h]
      simp [ledgerAfter, Rating.findOne, freshDb]
      norm_num
    rw [hmean] at hnear
    rw [tenth_eq_of_near _ n 40 hn hnear]
    norm_num

/-- C3. Starting from any ledger with at most one rating per (user, store)
pair, the empty ledger included, every state reached through `submitRating`
has at most one rating per pair.  A successful submission by a user who has
already rated the store leaves the number of records unchanged and gives that
record the new value; a successful submission by a user who has not appends
exactly one record; and a rejected submission leaves the database as it was.
Scenario: Bob rates the shop 4 and then 2, the recomputations completing:
the ledger holds the single record (Bob, shop, 2) and the shop has
`averageRating` 2 and `totalRatings` 1. -/
theorem submitRating_one_rating_per_pair (db : Db)
    (huniq : ∀ u s, pairCount db.ratings u s ≤ 1) :
    (∀ reqs u s, pairCount (submitRatings reqs db).ratings u s ≤ 1) ∧
    (∀ req, (submitRating req db).1.status = 200 →
      ∃ a sid r, req.user = some a ∧ req.body.storeId = some sid ∧ req.body.rating = some r ∧
        (∀ e, Rating.findOne db.ratings a.userId sid = some e →
          (submitRating req db).2.ratings.length = db.ratings.length ∧
          Rating.findOne (submitRating req db).2.ratings a.userId sid
            = some { e with rating := r }) ∧
        (Rating.findOne db.ratings a.userId sid = none →
          (submitRating req db).2.ratings = db.ratings ++ [⟨a.userId, sid, r⟩])) ∧
    (∀ req, (submitRating req db).1.status ≠ 200 → (submitRating req db).2 = db) ∧
    (completePending (submitRating (bobRates 10 2)
        (completePending (submitRating (bobRates 10 4) freshDb).2)).2).ratings = [⟨2, 10, 2⟩] ∧
    (completePending (submitRating (bobRates 10 2)
        (completePending (submitRating (bobRates 10 4) freshDb).2)).2).stores
      = [{ shop with averageRating := 2, totalRatings := 1 }] := by
  refine ⟨fun reqs => submitRatings_keeps_unique reqs db huniq, ?_,
    fun req h => submitRating_not_ok req db h, ?_⟩
  · intro req hok
    obtain ⟨a, sid, r, st, hu, hs, hr, h1, h5, hst⟩ := submitRating_ok req db hok
    have hv := submitRating_valid req db a sid r st hu hs hr h1 h5 hst
    refine ⟨a, sid, r, hu, hs, hr, ?_, ?_⟩
    · intro e he
      rw [hv]
      simp only [ledgerAfter, he]
      exact ⟨Rating.overwrite_length _ _ _ _, Rating.findOne_overwrite _ _ _ _ _ he⟩
    · intro he
      rw [hv]
      simp only [ledgerAfter, he]
  · have h4 : (submitRating (bobRates 10 4) freshDb).2
        = { freshDb with ratings := [⟨2, 10, 4⟩], pending := [10] } := by
      rw [submitRating_valid (bobRates 10 4) freshDb ⟨2, "bob@x.com", "normal_user"⟩ 10 4 shop
        rfl rfl rfl (by norm_num) (by norm_num) rfl]
      simp [ledgerAfter, Rating.findOne, freshDb]
    have t4 : toFixed1 4 = 4 := by
      rw [toFixed1_eq_of 4 40 (by norm_num) (by norm_num) (by norm_num)]
      norm_num
    have t2 : toFixed1 2 = 2 := by
      rw [toFixed1_eq_of 2 20 (by norm_num) (by norm_num) (by norm_num)]
      norm_num
    have c4 : completePending (submitRating (bobRates 10 4) freshDb).2 = bobRatedDb := by
      rw [h4]
      simp [completePending, calculateAverageRating, aggregate, Store.findByIdAndUpdate, freshDb,
        bobRatedDb, shop, t4]
    rw [c4]
    have h2 : (submitRating (bobRates 10 2) bobRatedDb).2
        = { bobRatedDb with ratings := [⟨2, 10, 2⟩], pending := [10] } := by
      rw [submitRating_valid (bobRates 10 2) bobRatedDb ⟨2, "bob@x.com", "normal_user"⟩ 10 2
        { shop with averageRating := 4, totalRatings := 1 }
        rfl rfl rfl (by norm_num) (by norm_num) rfl]
      simp [ledgerAfter, Rating.findOne, Rating.overwrite, freshDb, bobRatedDb]
    rw [h2]
    simp [completePending, calculateAverageRating, aggregate, Store.findByIdAndUpdate, freshDb,
      bobRatedDb, shop, t2]

theorem submitRating_one_rating_per_pair_witness :
    (∀ u s, pairCount freshDb.ratings u s ≤ 1) ∧
    pairCount (submitRatings [bobRates 10 4, bobRates 10 2] freshDb).ratings 2 10 ≤ 1 :=
  ⟨fun _ _ => Nat.zero_le 1,
    (submitRating_one_rating_per_pair freshDb (fun _ _ => Nat.zero_le 1)).1
      [bobRates 10 4, bobRates 10 2] 2 10⟩

/-- C4. A submission whose rating is below 1, above 5 or not an integer is
answered 400 by the `validateRating, submitRating` tail of `POST /ratings` and
the database (ledger, stores and their cached statistics, pending work) is
unchanged.  For a rating outside [1,5] the handler `submitRating` itself, called
for an authenticated user, answers 400 and changes nothing. -/
theorem invalid_rating_rejected (req : Request) (db : Db) (r : ℚ)
    (hr : req.body.rating = some r) (hbad : r < 1 ∨ 5 < r ∨ r.den ≠ 1) :
    (validatedSubmitRating req db).1.status = 400 ∧
    (validatedSubmitRating req db).2 = db ∧
    (req.user ≠ none → r < 1 ∨ 5 < r →
      (submitRating req db).1.status = 400 ∧ (submitRating req db).2 = db) := by
  have hval : ¬ (r.den = 1 ∧ 1 ≤ r ∧ r ≤ 5) := by
    rintro ⟨hd, h1, h5⟩
    rcases hbad with h | h | h
    · exact absurd h1 (not_le.mpr h)
    · exact absurd h5 (not_le.mpr h)
    · exact h hd
  refine ⟨?_, ?_, ?_⟩
  · unfold validatedSubmitRating validateRating
    cases hs : req.body.storeId <;> simp [hr, hval]
  · unfold validatedSubmitRating validateRating
    cases hs : req.body.storeId <;> simp [hr, hval]
  · intro hu hrange
    obtain ⟨a, ha⟩ := Option.ne_none_iff_exists'.mp hu
    have hrange1 : r < 1 ∨ r > 5 := hrange
    unfold submitRating
    cases hs : req.body.storeId with
    | none => simp [ha]
    | some sid =>
      by_cases h0 : r = 0
      · simp [ha, hr, h0]
      · simp [ha, hr, h0, hrange1]

theorem invalid_rating_rejected_witness :
    (bobRates 10 (7 / 2)).body.rating = some (7 / 2) ∧
    ((7 / 2 : ℚ) < 1 ∨ 5 < (7 / 2 : ℚ) ∨ (7 / 2 : ℚ).den ≠ 1) ∧
    (validatedSubmitRating (bobRates 10 (7 / 2)) freshDb).1.status = 400 ∧
    (validatedSubmitRating (bobRates 10 (7 / 2)) freshDb).2 = freshDb :=
  have hden : (7 / 2 : ℚ).den ≠ 1 := by
    intro h
    have h2 := (Rat.den_eq_one_iff _).mp h
    have h3 : (2 : ℚ) * ((7 / 2 : ℚ).num : ℚ) = 7 := by rw [h2]; norm_num
    have h4 : (2 : ℤ) * (7 / 2 : ℚ).num = 7 := by exact_mod_cast h3
    omega
  have h := invalid_rating_rejected (bobRates 10 (7 / 2)) freshDb (7 / 2) rfl
    (Or.inr (Or.inr hden))
  ⟨rfl, Or.inr (Or.inr hden), h.1, h.2.1⟩

/-- C5. Called for an authenticated user, `submitRating` answers 400 when
`storeId` or `rating` is missing from the body, and 404 when both are present,
the rating is in [1,5] and no store has that id; in both cases the database,
the rating ledger included, is left as it was. -/
theorem submitRating_missing_or_unknown (req : Request) (db : Db) (a : AuthUser)
    (hu : req.user = some a) :
    (req.body.storeId = none ∨ req.body.rating = none →
      (submitRating req db).1.status = 400 ∧ (submitRating req db).2 = db) ∧
    (∀ sid r, req.body.storeId = some sid → req.body.rating = some r → 1 ≤ r → r ≤ 5 →
      Store.findById db.stores sid = none →
      (submitRating req db).1 = ⟨404, some "Store not found", none⟩ ∧
      (submitRating req db).2 = db) := by
  constructor
  · intro h
    unfold submitRating
    rcases h with h | h
    · simp [hu, h]
    · cases hs : req.body.storeId <;> simp [hu, h]
  · intro sid r hs hr h1 h5 hst
    have h0 : r ≠ 0 := by intro h; rw [h] at h1; norm_num at h1
    have hrange : ¬ (r < 1 ∨ r > 5) := by
      intro h
      rcases h with h | h
      · exact absurd h1 (not_le.mpr h)
      · exact absurd h5 (not_le.mpr h)
    unfold submitRating
    simp [hu, hs, hr, h0, hrange, hst]

theorem submitRating_missing_or_unknown_witness :
    (bobRates 99 3).user = some ⟨2, "bob@x.com", "normal_user"⟩ ∧
    (submitRating (bobRates 99 3) ratedDb).1 = ⟨404, some "Store not found", none⟩ ∧
    (submitRating (bobRates 99 3) ratedDb).2 = ratedDb :=
  ⟨rfl, (submitRating_missing_or_unknown (bobRates 99 3) ratedDb _ rfl).2 99 3 rfl rfl
    (by norm_num) (by norm_num) rfl⟩

/-- C6. For every allow-list `roles` and request, `requireRole(roles)` calls
`next()` exactly when `req.user` is set and its role is in `roles`; with
`req.user` absent it answers 401, whatever the list; with `req.user` set and the
role not in the list it answers 403 with error "Insufficient permissions"; and
the request leaves the middleware as it entered. -/
theorem requireRole_spec (roles : List String) (req : Request) :
    ((requireRole roles req).2 = Step.next ↔ ∃ u, req.user = some u ∧ u.role ∈ roles) ∧
    (req.user = none →
      (requireRole roles req).2 = Step.respond ⟨401, some "Authentication required", none⟩) ∧
    (∀ u, req.user = some u → u.role ∉ roles →
      (requireRole roles req).2 = Step.respond ⟨403, some "Insufficient permissions", none⟩) ∧
    (requireRole roles req).1 = req := by
  unfold requireRole
  cases hu : req.user with
  | none => simp
  | some u =>
    by_cases hr : u.role ∈ roles
    · simp [hr]
    · simp [hr]

theorem requireRole_spec_witness :
    (requireRole ["system_admin", "store_owner"]
        { user := some ⟨2, "bob@x.com", "normal_user"⟩ }).2
      = Step.respond ⟨403, some "Insufficient permissions", none⟩ :=
  (requireRole_spec ["system_admin", "store_owner"]
    { user := some ⟨2, "bob@x.com", "normal_user"⟩ }).2.2.1 _ rfl (by decide)

/-- C7. The middleware `authenticateToken` answers 401 when the Authorization
header yields no token; 403 "Invalid token" when verification fails with
`JsonWebTokenError` (malformed or badly signed); 403 "Token expired" when it
fails with `TokenExpiredError`; 401 when the token verifies and no user has the
subject id; and it calls `next()`, with `req.user` set from the user found, only
when the token verifies and the subject exists.  The header "Bearer abc"
carries the token "abc"; an absent header and the header "Bearer" carry none. -/
theorem authenticateToken_spec (verify : String → VerifyResult) (users : List User)
    (req : Request) :
    (bearerToken req.authorization = none ∨ bearerToken req.authorization = some "" →
      authenticateToken verify users req
        = (req, Step.respond ⟨401, some "Access token required", none⟩)) ∧
    (∀ t, bearerToken req.authorization = some t → t ≠ "" →
      (verify t = VerifyResult.jsonWebTokenError →
        authenticateToken verify users req
          = (req, Step.respond ⟨403, some "Invalid token", none⟩)) ∧
      (verify t = VerifyResult.tokenExpiredError →
        authenticateToken verify users req
          = (req, Step.respond ⟨403, some "Token expired", none⟩)) ∧
      (∀ uid, verify t = VerifyResult.decoded uid → User.findById users uid = none →
        authenticateToken verify users req
          = (req, Step.respond ⟨401, some "User not found", none⟩)) ∧
      (∀ uid user, verify t = VerifyResult.decoded uid → User.findById users uid = some user →
        authenticateToken verify users req
          = ({ req with user := some ⟨user.id, user.email, user.role⟩ }, Step.next))) ∧
    ((authenticateToken verify users req).2 = Step.next →
      ∃ t uid user, bearerToken req.authorization = some t ∧ t ≠ "" ∧
        verify t = VerifyResult.decoded uid ∧ User.findById users uid = some user) ∧
    bearerToken none = none ∧ bearerToken (some "Bearer") = none ∧
    bearerToken (some "Bearer abc") = some "abc" := by
  obtain ⟨h1, h2, h3⟩ := authenticateToken_cases verify users req
  exact ⟨h1, h2, h3, rfl, by decide, by decide⟩

theorem authenticateToken_spec_witness :
    authenticateToken sampleVerify freshDb.users { authorization := some "Bearer old" }
      = ({ authorization := some "Bearer old" },
          Step.respond ⟨403, some "Token expired", none⟩) :=
  ((authenticateToken_spec sampleVerify freshDb.users
    { authorization := some "Bearer old" }).2.1 "old" (by decide) (by decide)).2.1 (by decide)

/-- C8, as stated, fails: on the protected route `GET /api/stores` a request
whose bearer token has expired is answered 403, not 401. -/
theorem expired_token_answered_403 :
    (runStack
        (routeStack (authenticateToken sampleVerify freshDb.users) passAll
          (Sum.inr StoreHandler.getStores))
        { authorization := some "Bearer old" }).2
      = Step.respond ⟨403, some "Token expired", none⟩ ∧
    ¬ ∃ res : Response,
      (runStack
          (routeStack (authenticateToken sampleVerify freshDb.users) passAll
            (Sum.inr StoreHandler.getStores))
          { authorization := some "Bearer old" }).2 = Step.respond res ∧
      res.status = 401 := by
  have h : (runStack
        (routeStack (authenticateToken sampleVerify freshDb.users) passAll
          (Sum.inr StoreHandler.getStores))
        { authorization := some "Bearer old" }).2
      = Step.respond ⟨403, some "Token expired", none⟩ := by
    decide
  refine ⟨h, ?_⟩
  rintro ⟨res, h1, h2⟩
  rw [h] at h1
  injection h1 with h3
  rw [← h3] at h2
  exact absurd h2 (by decide)

/-- C8, amended.  On every protected route a request without a bearer token is
answered 401, as is one whose token verifies for a subject that no longer
exists; a request whose token is malformed or wrongly signed is answered 403
("Invalid token") and one whose token has expired 403 ("Token expired"); and a
validly authenticated request whose role is not in the allow-list of the route
is answered 403 ("Insufficient permissions"). -/
theorem protected_route_statuses (verify : String → VerifyResult) (users : List User)
    (v : Validation) (route : Route) (req : Request) :
    (bearerToken req.authorization = none ∨ bearerToken req.authorization = some "" →
      (runStack (routeStack (authenticateToken verify users) v route) req).2
        = Step.respond ⟨401, some "Access token required", none⟩) ∧
    (∀ t, bearerToken req.authorization = some t → t ≠ "" →
      (verify t = VerifyResult.jsonWebTokenError →
        (runStack (routeStack (authenticateToken verify users) v route) req).2
          = Step.respond ⟨403, some "Invalid token", none⟩) ∧
      (verify t = VerifyResult.tokenExpiredError →
        (runStack (routeStack (authenticateToken verify users) v route) req).2
          = Step.respond ⟨403, some "Token expired", none⟩) ∧
      (∀ uid, verify t = VerifyResult.decoded uid → User.findById users uid = none →
        (runStack (routeStack (authenticateToken verify users) v route) req).2
          = Step.respond ⟨401, some "User not found", none⟩) ∧
      (∀ uid user, verify t = VerifyResult.decoded uid → User.findById users uid = some user →
        user.role ∉ allowedRoles route →
        (runStack (routeStack (authenticateToken verify users) v route) req).2
          = Step.respond ⟨403, some "Insufficient permissions", none⟩)) := by
  obtain ⟨rest, hshape⟩ := routeStack_shape (authenticateToken verify users) v route
  rw [hshape, runStack_guarded]
  obtain ⟨h1, h2, _⟩ := authenticateToken_cases verify users req
  refine ⟨?_, ?_⟩
  · intro h
    rw [h1 h]
  · intro t ht hne
    obtain ⟨ha, hb, hc, hd⟩ := h2 t ht hne
    refine ⟨?_, ?_, ?_, ?_⟩
    · intro hv
      rw [ha hv]
    · intro hv
      rw [hb hv]
    · intro uid hv hf
      rw [hc uid hv hf]
    · intro uid user hv hf hrole
      rw [hd uid user hv hf]
      simp [hrole]

theorem protected_route_statuses_witness :
    (runStack
        (routeStack (authenticateToken sampleVerify freshDb.users) passAll
          (Sum.inl AdminHandler.deleteUser))
        { authorization := some "Bearer good" }).2
      = Step.respond ⟨403, some "Insufficient permissions", none⟩ :=
  ((protected_route_statuses sampleVerify freshDb.users passAll
    (Sum.inl AdminHandler.deleteUser) { authorization := some "Bearer good" }).2
      "good" (by decide) (by decide)).2.2.2 2 bob (by decide) (by decide) (by decide)

/-- C9. For a request that `authenticateToken` lets through, with the role it
resolved: a handler of the admin router is reached only if the role is
`system_admin`; `getStores`, `getStoreById`, `submitRating` and `getUserRatings`
of the stores router only if it is `normal_user`; the owner dashboard
`getStoreRatings` only if it is `store_owner`; with any other role the answer is
403 "Insufficient permissions" and the handler is not reached.  With the
required role the routes that carry no validator do reach their handler. -/
theorem route_policy (verify : String → VerifyResult) (users : List User) (v : Validation)
    (req req1 : Request) (hauth : authenticateToken verify users req = (req1, Step.next)) :
    ∃ u : AuthUser, req1.user = some u ∧
      (∀ h : AdminHandler,
        ((runStack (adminStack (authenticateToken verify users) v h) req).2 = Step.next →
          u.role = "system_admin") ∧
        (u.role ≠ "system_admin" →
          runStack (adminStack (authenticateToken verify users) v h) req
            = (req1, Step.respond ⟨403, some "Insufficient permissions", none⟩))) ∧
      (∀ h ∈ [StoreHandler.getStores, StoreHandler.getStoreById, StoreHandler.submitRating,
          StoreHandler.getUserRatings],
        ((runStack (storesStack (authenticateToken verify users) v h) req).2 = Step.next →
          u.role = "normal_user") ∧
        (u.role ≠ "normal_user" →
          runStack (storesStack (authenticateToken verify users) v h) req
            = (req1, Step.respond ⟨403, some "Insufficient permissions", none⟩))) ∧
      ((runStack (storesStack (authenticateToken verify users) v StoreHandler.getStoreRatings)
          req).2 = Step.next → u.role = "store_owner") ∧
      (u.role ≠ "store_owner" →
        runStack (storesStack (authenticateToken verify users) v StoreHandler.getStoreRatings) req
          = (req1, Step.respond ⟨403, some "Insufficient permissions", none⟩)) ∧
      (u.role = "system_admin" →
        ∀ h ∈ [AdminHandler.getDashboardStats, AdminHandler.getUsers, AdminHandler.getUserById,
            AdminHandler.updateUser, AdminHandler.deleteUser, AdminHandler.getStores],
          runStack (adminStack (authenticateToken verify users) v h) req = (req1, Step.next)) ∧
      (u.role = "normal_user" →
        ∀ h ∈ [StoreHandler.getStores, StoreHandler.getStoreById, StoreHandler.getUserRatings],
          runStack (storesStack (authenticateToken verify users) v h) req = (req1, Step.next)) ∧
      (u.role = "store_owner" →
        runStack (storesStack (authenticateToken verify users) v StoreHandler.getStoreRatings) req
          = (req1, Step.next)) := by
  obtain ⟨user, _, hu⟩ := authenticateToken_next verify users req req1 hauth
  refine ⟨_, hu, ?_, ?_, ?_, ?_, ?_, ?_, ?_⟩
  · intro h
    obtain ⟨g1, g2, _⟩ :=
      route_gate (authenticateToken verify users) v (Sum.inl h) req req1 _ hauth hu
    refine ⟨fun hn => ?_, fun hr => ?_⟩
    · simpa [allowedRoles] using g1 hn
    · exact g2 (by simpa [allowedRoles] using hr)
  · intro h hmem
    obtain ⟨g1, g2, _⟩ :=
      route_gate (authenticateToken verify users) v (Sum.inr h) req req1 _ hauth hu
    have hal : allowedRoles (Sum.inr h) = ["normal_user"] := by
      simp only [List.mem_cons, List.mem_singleton, List.not_mem_nil, or_false] at hmem
      rcases hmem with e | e | e | e <;> subst e <;> rfl
    rw [hal] at g1 g2
    refine ⟨fun hn => ?_, fun hr => ?_⟩
    · simpa using g1 hn
    · exact g2 (by simpa using hr)
  · intro hn
    have g := (route_gate (authenticateToken verify users) v
      (Sum.inr StoreHandler.getStoreRatings) req req1 _ hauth hu).1 hn
    simpa [allowedRoles] using g
  · intro hr
    exact (route_gate (authenticateToken verify users) v
      (Sum.inr StoreHandler.getStoreRatings) req req1 _ hauth hu).2.1
      (by simpa [allowedRoles] using hr)
  · intro hr h hmem
    have g := (route_gate (authenticateToken verify users) v (Sum.inl h) req req1 _ hauth hu).2.2
      (by simpa [allowedRoles] using hr)
    apply g
    simp only [List.mem_cons, List.mem_singleton, List.not_mem_nil, or_false] at hmem
    rcases hmem with e | e | e | e | e | e <;> subst e <;> rfl
  · intro hr h hmem
    simp only [List.mem_cons, List.mem_singleton, List.not_mem_nil, or_false] at hmem
    have hal : allowedRoles (Sum.inr h) = ["normal_user"] := by
      rcases hmem with e | e | e <;> subst e <;> rfl
    have g := (route_gate (authenticateToken verify users) v (Sum.inr h) req req1 _ hauth hu).2.2
      (by rw [hal]; simpa using hr)
    apply g
    rcases hmem with e | e | e <;> subst e <;> rfl
  · intro hr
    exact (route_gate (authenticateToken verify users) v
      (Sum.inr StoreHandler.getStoreRatings) req req1 _ hauth hu).2.2
      (by simpa [allowedRoles] using hr) rfl

theorem route_policy_witness :
    authenticateToken sampleVerify freshDb.users { authorization := some "Bearer good" }
      = ({ authorization := some "Bearer good", user := some ⟨2, "bob@x.com", "normal_user"⟩ },
          Step.next) ∧
    runStack (adminStack (authenticateToken sampleVerify freshDb.users) passAll
        AdminHandler.getUsers) { authorization := some "Bearer good" }
      = ({ authorization := some "Bearer good", user := some ⟨2, "bob@x.com", "normal_user"⟩ },
          Step.respond ⟨403, some "Insufficient permissions", none⟩) ∧
    runStack (storesStack (authenticateToken sampleVerify freshDb.users) passAll
        StoreHandler.getStores) { authorization := some "Bearer good" }
      = ({ authorization := some "Bearer good", user := some ⟨2, "bob@x.com", "normal_user"⟩ },
          Step.next) := by
  have hauth : authenticateToken sampleVerify freshDb.users
      { authorization := some "Bearer good" }
      = ({ authorization := some "Bearer good", user := some ⟨2, "bob@x.com", "normal_user"⟩ },
          Step.next) := by decide
  obtain ⟨u, hu, hadmin, _, _, _, _, hnormal, _⟩ :=
    route_policy sampleVerify freshDb.users passAll _ _ hauth
  have hrole : u.role = "normal_user" := by
    have : some u = some (⟨2, "bob@x.com", "normal_user"⟩ : AuthUser) := hu.symm.trans rfl
    rw [Option.some.inj this]
  refine ⟨hauth, (hadmin AdminHandler.getUsers).2 ?_, hnormal hrole StoreHandler.getStores ?_⟩
  · rw [hrole]; decide
  · simp

/-- C10. Deleting an existing user `id` (user ids being unique) answers
success; afterwards no user record has that id, every other user record is
still there, and no rating authored by `id` remains.  If the user's role is
`store_owner`, the first store whose owner is `id` is removed from the
registry, so that when `id` owned at most one store no store owned by `id`
remains.  If the role is `normal_user`, the stores are unchanged and the
ledger is the old one without the ratings of `id`: every rating authored by
another user is kept. -/
theorem deleteUser_cascade (req : Request) (db : Db) (id : ObjectId) (u : User)
    (hid : req.paramsId = some id) (hfind : User.findById db.users id = some u)
    (hnodup : (db.users.map (fun v => v.id)).Nodup) :
    (deleteUser req db).1 = ⟨200, none, some "User deleted successfully"⟩ ∧
    User.findById (deleteUser req db).2.users id = none ∧
    (∀ v ∈ (deleteUser req db).2.users, v.id ≠ id) ∧
    (∀ v ∈ db.users, v.id ≠ id → v ∈ (deleteUser req db).2.users) ∧
    (∀ r ∈ (deleteUser req db).2.ratings, r.user ≠ id) ∧
    (u.role = "store_owner" →
      (deleteUser req db).2.stores = db.stores.eraseP (fun s => s.owner = some id) ∧
      (∀ s, db.stores.find? (fun s => s.owner = some id) = some s →
        (deleteUser req db).2.stores.length + 1 = db.stores.length) ∧
      ((db.stores.filter (fun s => s.owner = some id)).length ≤ 1 →
        ∀ s ∈ (deleteUser req db).2.stores, s.owner ≠ some id)) ∧
    (u.role = "normal_user" →
      (deleteUser req db).2.stores = db.stores ∧
      (deleteUser req db).2.ratings = db.ratings.filter (fun r => r.user ≠ id) ∧
      (∀ r ∈ db.ratings, r.user ≠ id → r ∈ (deleteUser req db).2.ratings)) := by
  have hfst : (User.findByIdAndDelete db.users id).1 = some u := by
    rw [User.findByIdAndDelete_fst, hfind]
  have hdel : deleteUser req db =
      (⟨200, none, some "User deleted successfully"⟩,
        { db with
          users := (User.findByIdAndDelete db.users id).2
          stores := if u.role = "store_owner" then Store.deleteOne db.stores id else db.stores
          ratings := Rating.deleteMany db.ratings id }) := by
    unfold deleteUser
    rcases hp : User.findByIdAndDelete db.users id with ⟨found, rest⟩
    rw [hp] at hfst
    simp only at hfst
    subst hfst
    simp only [hid]
    rw [hp]
  have hgone := User.findByIdAndDelete_gone db.users id hnodup
  rw [hdel]
  refine ⟨rfl, ?_, hgone, User.findByIdAndDelete_kept db.users id, ?_, ?_, ?_⟩
  · unfold User.findById
    rw [List.find?_eq_none]
    intro v hv
    simpa using hgone v hv
  · intro r hr
    simpa [Rating.deleteMany] using (List.mem_filter.mp hr).2
  · intro hrole
    simp only [hrole, if_true]
    refine ⟨Store.deleteOne_eq_eraseP _ _, ?_, Store.deleteOne_none_left _ _⟩
    intro s hs
    rw [Store.deleteOne_eq_eraseP]
    have hmem := List.mem_of_find?_eq_some hs
    have hp := List.find?_some hs
    rw [List.length_eraseP_of_mem hmem hp]
    have : 0 < db.stores.length := List.length_pos_of_mem hmem
    omega
  · intro hrole
    have hne : ¬ u.role = "store_owner" := by rw [hrole]; decide
    simp only [hne, if_false]
    refine ⟨trivial, rfl, ?_⟩
    intro r hr hru
    exact List.mem_filter.mpr ⟨hr, by simpa using hru⟩

theorem deleteUser_cascade_witness :
    User.findById cascadeDb.users 1 = some alice ∧
    (cascadeDb.users.map (fun v => v.id)).Nodup ∧
    (deleteUser { paramsId := some 1 } cascadeDb).2.stores.length + 1 = cascadeDb.stores.length ∧
    (∀ s ∈ (deleteUser { paramsId := some 1 } cascadeDb).2.stores, s.owner ≠ some 1) ∧
    (∀ r ∈ (deleteUser { paramsId := some 1 } cascadeDb).2.ratings, r.user ≠ 1) := by
  have hnodup : (cascadeDb.users.map (fun v => v.id)).Nodup := by decide
  have h := deleteUser_cascade { paramsId := some 1 } cascadeDb 1 alice rfl rfl hnodup
  obtain ⟨_, _, _, _, hr, hown, _⟩ := h
  obtain ⟨_, hlen, hnone⟩ := hown rfl
  exact ⟨rfl, hnodup, hlen shop rfl, hnone (by decide), hr⟩

/-- C11. The claim holds of the specification and fails on the code: from the
fresh database Bob rates the shop 4, the recomputation completes (the shop
carries average 4 and count 1), and the admin deletes Bob.  `deleteUser` answers
success, no rating references the shop any more and nothing is pending, yet the
shop still carries `averageRating` 4 and `totalRatings` 1. -/
theorem deleteUser_leaves_stale_statistics :
    completePending (submitRating (bobRates 10 4) freshDb).2 = bobRatedDb ∧
    (deleteUser { paramsId := some 2 } bobRatedDb).1
      = ⟨200, none, some "User deleted successfully"⟩ ∧
    (deleteUser { paramsId := some 2 } bobRatedDb).2.ratings.filter (fun r => r.store = 10) = [] ∧
    (deleteUser { paramsId := some 2 } bobRatedDb).2.pending = [] ∧
    Store.findById (deleteUser { paramsId := some 2 } bobRatedDb).2.stores 10
      = some { shop with averageRating := 4, totalRatings := 1 } := by
  refine ⟨?_, ?_, ?_, ?_, ?_⟩
  · have h4 : (submitRating (bobRates 10 4) freshDb).2
        = { freshDb with ratings := [⟨2, 10, 4⟩], pending := [10] } := by
      rw [submitRating_valid (bobRates 10 4) freshDb ⟨2, "bob@x.com", "normal_user"⟩ 10 4 shop
        rfl rfl rfl (by norm_num) (by norm_num) rfl]
      simp [ledgerAfter, Rating.findOne, freshDb]
    have t4 : toFixed1 4 = 4 := by
      rw [toFixed1_eq_of 4 40 (by norm_num) (by norm_num) (by norm_num)]
      norm_num
    rw [h4]
    simp [completePending, calculateAverageRating, aggregate, Store.findByIdAndUpdate, freshDb,
      bobRatedDb, shop, t4]
  · simp [deleteUser, User.findByIdAndDelete, bobRatedDb, freshDb, alice, bob, carol]
  · simp [deleteUser, User.findByIdAndDelete, Rating.deleteMany, bobRatedDb, freshDb, alice, bob,
      carol]
  · simp [deleteUser, User.findByIdAndDelete, bobRatedDb, freshDb, alice, bob, carol]
  · simp [deleteUser, User.findByIdAndDelete, Store.findById, bobRatedDb, freshDb, alice, bob,
      carol, shop]

/-- The reply of the owner dashboard once a store of the owner is found and
`page` and `limit` parse to positive integers. -/
theorem getStoreRatings_found (env : Env) (u : AuthUser) (q : Query) (db : Db) (store : Store)
    (p l : ℤ) (hs : Store.findOneByOwner db.stores u.userId = some store)
    (hp : parseInt (q.page.getD "1") = some p) (hl : parseInt (q.limit.getD "10") = some l)
    (hp1 : 1 ≤ p) (hl1 : 1 ≤ l) :
    getStoreRatings env (some u) q db =
      some (Reply.json 200
        { store := some
            { id := store.id, name := store.name, email := store.email
              address := store.address, averageRating := store.averageRating
              totalRatings := store.totalRatings
              rank := (db.stores.filter (fun s => s.averageRating > store.averageRating)).length + 1
              distribution := distributionOf (ratingGroups db.ratings store.id) }
          ratings :=
            (skipLimit ((p - 1) * l) l
              (sortDocs
                (fun a b => env.ratingUpdatedAt a.user a.store ≤ env.ratingUpdatedAt b.user b.store)
                (-1) (db.ratings.filter (ownerRatingQuery env q db.users store.id)))).map
              (OwnerRatingView.of db.users)
          pagination :=
            { currentPage := p
              totalPages :=
                totalPagesOf (db.ratings.filter (ownerRatingQuery env q db.users store.id)).length l
              total := (db.ratings.filter (ownerRatingQuery env q db.users store.id)).length
              limit := l } }) := by
  unfold getStoreRatings
  simp only [hs, hp, hl]
  rw [if_pos ⟨hp1, hl1⟩]

/-- C12. On the owner dashboard of a user whose store is `store`, for `page` and
`limit` that parse to positive integers, the reported rank is 1 plus the number
of stores whose `averageRating` is strictly greater than that of `store`.  So
the rank is 1 exactly when no store has a greater average, and the dashboards
of two owners whose stores have equal averages report the same rank. -/
theorem dashboard_rank (env : Env) (u : AuthUser) (q : Query) (db : Db) (store : Store)
    (p l : ℤ) (hs : Store.findOneByOwner db.stores u.userId = some store)
    (hp : parseInt (q.page.getD "1") = some p) (hl : parseInt (q.limit.getD "10") = some l)
    (hp1 : 1 ≤ p) (hl1 : 1 ≤ l) :
    ∃ (body : OwnerDashboard) (view : OwnerStoreView),
      getStoreRatings env (some u) q db = some (Reply.json 200 body) ∧
      body.store = some view ∧
      view.rank = 1 + (db.stores.filter (fun s => s.averageRating > store.averageRating)).length ∧
      (view.rank = 1 ↔ ∀ s ∈ db.stores, s.averageRating ≤ store.averageRating) ∧
      (∀ (u2 : AuthUser) (store2 : Store) (body2 : OwnerDashboard) (view2 : OwnerStoreView),
        Store.findOneByOwner db.stores u2.userId = some store2 →
        store2.averageRating = store.averageRating →
        getStoreRatings env (some u2) q db = some (Reply.json 200 body2) →
        body2.store = some view2 → view2.rank = view.rank) := by
  refine ⟨_, _, getStoreRatings_found env u q db store p l hs hp hl hp1 hl1, rfl, ?_, ?_, ?_⟩
  · exact Nat.add_comm _ _
  · simp only [Nat.add_left_eq_self, List.length_eq_zero, List.filter_eq_nil_iff,
      decide_eq_true_eq, not_lt, gt_iff_lt]
  · intro u2 store2 body2 view2 hs2 heq hreply hview
    rw [getStoreRatings_found env u2 q db store2 p l hs2 hp hl hp1 hl1] at hreply
    have hb : body2 = _ := (Reply.json.inj (Option.some.inj hreply)).2.symm
    rw [hb] at hview
    have hv : view2 = _ := (Option.some.inj hview).symm
    rw [hv, heq]

theorem dashboard_rank_witness :
    Store.findOneByOwner rankDb.stores daveAuth.userId
      = some ⟨11, "Dave Mart", "mart@x.com", "4 Main St", some 4, 3, 1⟩ ∧
    ∃ (body : OwnerDashboard) (view : OwnerStoreView),
      getStoreRatings sampleEnv (some daveAuth) {} rankDb = some (Reply.json 200 body) ∧
      body.store = some view ∧ view.rank = 2 := by
  refine ⟨rfl, ?_⟩
  obtain ⟨body, view, h1, h2, h3, _⟩ :=
    dashboard_rank sampleEnv daveAuth {} rankDb
      ⟨11, "Dave Mart", "mart@x.com", "4 Main St", some 4, 3, 1⟩ 1 10 rfl (by decide) (by decide)
      (by norm_num) (by norm_num)
  refine ⟨body, view, h1, h2, ?_⟩
  rw [h3]
  simp [rankDb]
  norm_num

/-- C14. When no store has the authenticated user as owner, the owner dashboard
answers with status 200, `store` null, an empty `ratings` list and the
pagination `currentPage` 1, `totalPages` 0, `totalRatings` 0, `limit` 10, for
every query. -/
theorem dashboard_empty_state (env : Env) (u : AuthUser) (q : Query) (db : Db)
    (hs : Store.findOneByOwner db.stores u.userId = none) :
    getStoreRatings env (some u) q db =
      some (Reply.json 200
        { store := none, ratings := []
          pagination := { currentPage := 1, totalPages := 0, total := 0, limit := 10 } }) := by
  unfold getStoreRatings
  simp only [hs]

theorem dashboard_empty_state_witness :
    Store.findOneByOwner rankDb.stores bobAuth.userId = none ∧
    getStoreRatings sampleEnv (some bobAuth) { page := some "x", limit := some "-4" } rankDb =
      some (Reply.json 200
        { store := none, ratings := []
          pagination := { currentPage := 1, totalPages := 0, total := 0, limit := 10 } }) :=
  ⟨rfl, dashboard_empty_state sampleEnv bobAuth _ rankDb rfl⟩

theorem assocGet_assocSet {κ ν : Type} [DecidableEq κ] (d : List (κ × ν)) (k k2 : κ) (v : ν) :
    assocGet (assocSet d k v) k2 = if k = k2 then some v else assocGet d k2 := by
  induction d with
  | nil => simp [assocSet, assocGet]
  | cons a rest ih =>
    obtain ⟨k1, v1⟩ := a
    unfold assocSet
    by_cases h1 : k1 = k
    · subst h1
      by_cases h2 : k1 = k2 <;> simp [assocGet, h2]
    · simp only [h1, if_false]
      by_cases h2 : k1 = k2
      · have h3 : ¬ k = k2 := fun e => h1 (h2.trans e.symm)
        simp [assocGet, h2, h3]
      · simp [assocGet, h2, ih]

theorem assocSet_keys {κ ν : Type} [DecidableEq κ] (d : List (κ × ν)) (k : κ) (v : ν)
    (hk : k ∈ d.map Prod.fst) : (assocSet d k v).map Prod.fst = d.map Prod.fst := by
  induction d with
  | nil => simp at hk
  | cons a rest ih =>
    obtain ⟨k1, v1⟩ := a
    unfold assocSet
    by_cases h1 : k1 = k
    · simp [h1]
    · have hk2 : k ∈ rest.map Prod.fst := by
        simp only [List.map_cons, List.mem_cons] at hk
        rcases hk with hk | hk
        · exact absurd hk.symm h1
        · exact hk
      simp [h1, ih hk2]

theorem assocGet_eq_none {κ ν : Type} [DecidableEq κ] (d : List (κ × ν)) (k : κ)
    (hk : k ∉ d.map Prod.fst) : assocGet d k = none := by
  induction d with
  | nil => rfl
  | cons a rest ih =>
    obtain ⟨k1, v1⟩ := a
    simp only [List.map_cons, List.mem_cons, not_or] at hk
    have h1 : ¬ k1 = k := fun e => hk.1 e.symm
    simp [assocGet, h1, ih hk.2]

/-- Reading a key after a run of writes with distinct keys: the value written
under that key if there is one, the earlier value otherwise. -/
theorem assocGet_foldl_assocSet {κ ν : Type} [DecidableEq κ] (items d : List (κ × ν)) (k : κ)
    (hnodup : (items.map Prod.fst).Nodup) :
    assocGet (items.foldl (fun m item => assocSet m item.1 item.2) d) k =
      match assocGet items k with
      | some v => some v
      | none => assocGet d k := by
  induction items generalizing d with
  | nil => simp [assocGet]
  | cons a rest ih =>
    obtain ⟨k1, v1⟩ := a
    rw [List.map_cons, List.nodup_cons] at hnodup
    rw [List.foldl_cons, ih _ hnodup.2]
    by_cases h1 : k1 = k
    · subst h1
      rw [assocGet_eq_none rest k1 hnodup.1]
      simp [assocGet, assocGet_assocSet]
    · simp [assocGet, assocGet_assocSet, h1]

theorem foldl_assocSet_keys {κ ν : Type} [DecidableEq κ] (items d : List (κ × ν))
    (h : ∀ k ∈ items.map Prod.fst, k ∈ d.map Prod.fst) :
    (items.foldl (fun m item => assocSet m item.1 item.2) d).map Prod.fst = d.map Prod.fst := by
  induction items generalizing d with
  | nil => rfl
  | cons a rest ih =>
    rw [List.foldl_cons]
    have ha : a.1 ∈ d.map Prod.fst := h a.1 (by simp)
    have hkeys := assocSet_keys d a.1 a.2 ha
    rw [ih, hkeys]
    intro k hk
    rw [hkeys]
    exact h k (by simp only [List.map_cons, List.mem_cons]; exact Or.inr hk)

theorem mem_distinctValues (l : List ℚ) (v : ℚ) : v ∈ distinctValues l ↔ v ∈ l := by
  induction l with
  | nil => simp [distinctValues]
  | cons a rest ih =>
    unfold distinctValues
    by_cases h : v = a
    · simp [h]
    · simp [List.mem_filter, h, ih]

theorem nodup_distinctValues (l : List ℚ) : (distinctValues l).Nodup := by
  induction l with
  | nil => simp [distinctValues]
  | cons a rest ih =>
    unfold distinctValues
    rw [List.nodup_cons]
    refine ⟨?_, ih.filter _⟩
    simp [List.mem_filter]

theorem assocGet_map_count (keys values : List ℚ) (v : ℚ) :
    assocGet (keys.map (fun w => (w, values.count w))) v =
      if v ∈ keys then some (values.count v) else none := by
  induction keys with
  | nil => simp [assocGet]
  | cons a rest ih =>
    by_cases h : a = v
    · simp [assocGet, h]
    · have h2 : ¬ v = a := fun e => h e.symm
      simp [assocGet, h, h2, ih]

/-- Every key 1 to 5 of the distribution carries the number of ratings of the
store with that value. -/
theorem distributionOf_get (ratings : List Rating) (storeId : ObjectId) (v : ℚ)
    (hv : v ∈ [(1 : ℚ), 2, 3, 4, 5]) :
    assocGet (distributionOf (ratingGroups ratings storeId)) v =
      some ((ratings.filter (fun r => r.store = storeId ∧ r.rating = v)).length) := by
  have hcount : ((ratings.filter (fun r => r.store = storeId)).map (fun r => r.rating)).count v
      = (ratings.filter (fun r => r.store = storeId ∧ r.rating = v)).length := by
    induction ratings with
    | nil => rfl
    | cons a rest ih =>
      by_cases h1 : a.store = storeId
      · by_cases h2 : a.rating = v
        · simp [List.filter_cons, h1, h2, ih]
        · simp [List.filter_cons, h1, h2, ih, List.count_cons]
      · simp [List.filter_cons, h1, ih]
  unfold distributionOf
  rw [assocGet_foldl_assocSet]
  · unfold ratingGroups
    simp only [assocGet_map_count, mem_distinctValues]
    split_ifs with hmem
    · simp only [hcount]
    · have hzero := List.count_eq_zero_of_not_mem hmem
      rw [hcount] at hzero
      rw [hzero]
      simp only [List.mem_cons, List.mem_singleton, List.not_mem_nil, or_false] at hv
      rcases hv with h | h | h | h | h <;> subst h <;> simp [assocGet]
  · unfold ratingGroups
    have hkeys : ∀ (keys values : List ℚ),
        (keys.map (fun w => (w, values.count w))).map Prod.fst = keys := by
      intro keys values
      induction keys with
      | nil => rfl
      | cons a rest ih => simp [ih]
    rw [hkeys]
    exact nodup_distinctValues _

/-- When every rating of the store has a value from 1 to 5 the writes add no
key to the literal. -/
theorem distributionOf_keys (ratings : List Rating) (storeId : ObjectId)
    (hvals : ∀ r ∈ ratings, r.store = storeId → r.rating ∈ [(1 : ℚ), 2, 3, 4, 5]) :
    (distributionOf (ratingGroups ratings storeId)).map Prod.fst = [5, 4, 3, 2, 1] := by
  unfold distributionOf
  rw [foldl_assocSet_keys]
  · rfl
  · intro k hk
    unfold ratingGroups at hk
    simp only [List.map_map, List.mem_map, Function.comp, mem_distinctValues,
      List.mem_filter, decide_eq_true_eq] at hk
    obtain ⟨w, ⟨r, ⟨hr, hstore⟩, hw⟩, hkw⟩ := hk
    have := hvals r hr hstore
    rw [hw, hkw] at this
    simp only [List.mem_cons, List.mem_singleton, List.not_mem_nil, or_false] at this
    simp only [List.map_cons, List.map_nil, List.mem_cons, List.mem_singleton,
      List.not_mem_nil, or_false]
    tauto

/-- C13. On the owner dashboard of a user whose store is `store`, for `page` and
`limit` that parse to positive integers, the returned distribution gives, for
each value `v` from 1 to 5, the number of rating records of the store with
rating `v` (0 when there is none); and when every rating of the store has a
value from 1 to 5, as the data model requires, its keys are exactly 5, 4, 3,
2, 1. -/
theorem dashboard_distribution (env : Env) (u : AuthUser) (q : Query) (db : Db) (store : Store)
    (p l : ℤ) (hs : Store.findOneByOwner db.stores u.userId = some store)
    (hp : parseInt (q.page.getD "1") = some p) (hl : parseInt (q.limit.getD "10") = some l)
    (hp1 : 1 ≤ p) (hl1 : 1 ≤ l) :
    ∃ (body : OwnerDashboard) (view : OwnerStoreView),
      getStoreRatings env (some u) q db = some (Reply.json 200 body) ∧
      body.store = some view ∧
      (∀ v ∈ [(1 : ℚ), 2, 3, 4, 5],
        assocGet view.distribution v =
          some ((db.ratings.filter (fun r => r.store = store.id ∧ r.rating = v)).length)) ∧
      ((∀ r ∈ db.ratings, r.store = store.id → r.rating ∈ [(1 : ℚ), 2, 3, 4, 5]) →
        view.distribution.map Prod.fst = [5, 4, 3, 2, 1]) :=
  ⟨_, _, getStoreRatings_found env u q db store p l hs hp hl hp1 hl1, rfl,
    fun v hv => distributionOf_get db.ratings store.id v hv,
    fun hvals => distributionOf_keys db.ratings store.id hvals⟩

theorem dashboard_distribution_witness :
    Store.findOneByOwner rankDb.stores 1
      = some ⟨10, "Alice Shop", "shop@x.com", "1 Main St", some 1, 9 / 2, 2⟩ ∧
    ∃ (body : OwnerDashboard) (view : OwnerStoreView),
      getStoreRatings sampleEnv (some ⟨1, "alice@x.com", "store_owner"⟩) {} rankDb
        = some (Reply.json 200 body) ∧
      body.store = some view ∧
      assocGet view.distribution 5 = some 1 ∧ assocGet view.distribution 4 = some 1 ∧
      assocGet view.distribution 3 = some 0 ∧
      view.distribution.map Prod.fst = [5, 4, 3, 2, 1] := by
  refine ⟨rfl, ?_⟩
  obtain ⟨body, view, h1, h2, h3, h4⟩ :=
    dashboard_distribution sampleEnv ⟨1, "alice@x.com", "store_owner"⟩ {} rankDb
      ⟨10, "Alice Shop", "shop@x.com", "1 Main St", some 1, 9 / 2, 2⟩ 1 10 rfl
      (by decide) (by decide) (by norm_num) (by norm_num)
  refine ⟨body, view, h1, h2, ?_, ?_, ?_, ?_⟩
  · rw [h3 5 (by simp)]; simp [rankDb]
  · rw [h3 4 (by simp)]; simp [rankDb]
  · rw [h3 3 (by simp)]; simp [rankDb]
  · apply h4
    intro r hr hstore
    simp only [rankDb, List.mem_cons, List.mem_singleton, List.not_mem_nil, or_false] at hr
    rcases hr with h | h | h <;> subst h <;> simp at hstore ⊢

theorem sortDirectionOf_desc (env : Env) (sortOrder : String) :
    sortDirectionOf env (some sortOrder) = -1 ↔ env.toLowerCase sortOrder = "desc" := by
  unfold sortDirectionOf
  simp only [Option.getD_some, List.mem_cons, List.mem_singleton, List.not_mem_nil, or_false]
  by_cases h1 : env.toLowerCase sortOrder = "asc"
  · have h2 : env.toLowerCase sortOrder ≠ "desc" := by rw [h1]; decide
    simp [h1, h2]
  · by_cases h2 : env.toLowerCase sortOrder = "desc"
    · simp [h2]
    · simp [h1, h2]

theorem sortDirectionOf_asc (env : Env) (sortOrder : String)
    (h : env.toLowerCase sortOrder ≠ "desc") : sortDirectionOf env (some sortOrder) = 1 := by
  unfold sortDirectionOf
  simp only [Option.getD_some, List.mem_cons, List.mem_singleton, List.not_mem_nil, or_false]
  by_cases h1 : env.toLowerCase sortOrder = "asc"
  · simp [h1]
  · simp [h1, h]

theorem sortDirectionOf_default (env : Env) (hasc : env.toLowerCase "asc" = "asc") :
    sortDirectionOf env none = 1 := by
  unfold sortDirectionOf
  simp [hasc]

/-- C15. In the three listing handlers a `sortBy` outside the allow-list of the
handler gives the sort field `name`, so that the reply is the one for
`sortBy=name`; the direction is descending (-1) exactly when `sortOrder`
lower-cased equals `desc` and ascending (1) otherwise, so that the reply for any
other `sortOrder` is the one for `asc`; and with neither parameter the field is
`name` and the direction ascending.  Lower-casing is assumed to leave `asc`
as it is. -/
theorem sort_fallback (env : Env) (sortBy sortOrder : String) (q : Query) (db : Db)
    (user : Option AuthUser) (hasc : env.toLowerCase "asc" = "asc") :
    (sortBy ∉ ["name", "email", "address", "role", "createdAt"] →
      userSortField (some sortBy) = "name" ∧
      getUsers env { q with sortBy := some sortBy } db
        = getUsers env { q with sortBy := some "name" } db) ∧
    (sortBy ∉ ["name", "address", "averageRating", "totalRatings"] →
      adminStoreSortField (some sortBy) = "name" ∧
      adminController.getStores env { q with sortBy := some sortBy } db
        = adminController.getStores env { q with sortBy := some "name" } db) ∧
    (sortBy ∉ ["name", "address", "averageRating"] →
      storeSortField (some sortBy) = "name" ∧
      storeController.getStores env user { q with sortBy := some sortBy } db
        = storeController.getStores env user { q with sortBy := some "name" } db) ∧
    (sortDirectionOf env (some sortOrder) = -1 ↔ env.toLowerCase sortOrder = "desc") ∧
    (env.toLowerCase sortOrder ≠ "desc" →
      sortDirectionOf env (some sortOrder) = 1 ∧
      getUsers env { q with sortOrder := some sortOrder } db
        = getUsers env { q with sortOrder := some "asc" } db ∧
      adminController.getStores env { q with sortOrder := some sortOrder } db
        = adminController.getStores env { q with sortOrder := some "asc" } db ∧
      storeController.getStores env user { q with sortOrder := some sortOrder } db
        = storeController.getStores env user { q with sortOrder := some "asc" } db) ∧
    (userSortField none = "name" ∧ adminStoreSortField none = "name" ∧
      storeSortField none = "name" ∧ sortDirectionOf env none = 1) := by
  refine ⟨?_, ?_, ?_, sortDirectionOf_desc env sortOrder, ?_,
    rfl, rfl, rfl, sortDirectionOf_default env hasc⟩
  · intro h
    have hf : userSortField (some sortBy) = "name" := by
      unfold userSortField
      simp only [Option.getD_some, if_neg h]
    refine ⟨hf, ?_⟩
    unfold getUsers
    simp only [hf, userQuery]
    rfl
  · intro h
    have hf : adminStoreSortField (some sortBy) = "name" := by
      unfold adminStoreSortField
      simp only [Option.getD_some, if_neg h]
    refine ⟨hf, ?_⟩
    unfold adminController.getStores
    simp only [hf, adminStoreQuery]
    rfl
  · intro h
    have hf : storeSortField (some sortBy) = "name" := by
      unfold storeSortField
      simp only [Option.getD_some, if_neg h]
    refine ⟨hf, ?_⟩
    unfold storeController.getStores
    simp only [hf, storeQuery]
    rfl
  · intro h
    have hd := sortDirectionOf_asc env sortOrder h
    have ha : sortDirectionOf env (some "asc") = 1 :=
      sortDirectionOf_asc env "asc" (by rw [hasc]; decide)
    refine ⟨hd, ?_, ?_, ?_⟩
    · unfold getUsers
      simp only [hd, ha]
      rfl
    · unfold adminController.getStores
      simp only [hd, ha]
      rfl
    · unfold storeController.getStores
      simp only [hd, ha]
      rfl

theorem sort_fallback_witness :
    sampleEnv.toLowerCase "asc" = "asc" ∧
    userSortField (some "password") = "name" ∧
    sortDirectionOf sampleEnv (some "DESC") = -1 ∧
    sortDirectionOf sampleEnv (some "descending") = 1 := by
  have hasc : sampleEnv.toLowerCase "asc" = "asc" := by decide
  have h := sort_fallback sampleEnv "password" "DESC" {} freshDb none hasc
  have h2 := sort_fallback sampleEnv "password" "descending" {} freshDb none hasc
  exact ⟨hasc, (h.1 (by decide)).1, h.2.2.2.1.mpr (by decide), (h2.2.2.2.2.1 (by decide)).1⟩

theorem sortDocs_perm {α : Type} (le : α → α → Bool) (direction : ℤ) (docs : List α) :
    (sortDocs le direction docs).Perm docs := by
  unfold sortDocs
  split_ifs
  · exact List.perm_insertionSort _ _
  · exact List.perm_insertionSort _ _

theorem totalPagesOf_bounds (total : Nat) (l : ℤ) (hl : 1 ≤ l) :
    (total : ℤ) ≤ totalPagesOf total l * l ∧ (totalPagesOf total l - 1) * l < total := by
  have hlq : (0 : ℚ) < (l : ℚ) := by exact_mod_cast (by omega : (0 : ℤ) < l)
  have h1 := Int.le_ceil ((total : ℚ) / (l : ℚ))
  have h2 := Int.ceil_lt_add_one ((total : ℚ) / (l : ℚ))
  unfold totalPagesOf
  constructor
  · have : (total : ℚ) ≤ (⌈(total : ℚ) / (l : ℚ)⌉ : ℚ) * (l : ℚ) := by
      rw [div_le_iff₀ hlq] at h1
      exact h1
    exact_mod_cast this
  · have : ((⌈(total : ℚ) / (l : ℚ)⌉ : ℚ) - 1) * (l : ℚ) < (total : ℚ) := by
      have h3 : (⌈(total : ℚ) / (l : ℚ)⌉ : ℚ) - 1 < (total : ℚ) / (l : ℚ) := by linarith
      rw [lt_div_iff₀ hlq] at h3
      exact h3
    exact_mod_cast this

/-- The cursor calls of the listing handlers produce a page in the sense of
`PageOf`. -/
theorem pageOf_skipLimit {α β : Type} (view : α → β) (sorted : List α) (p l : ℤ)
    (hl1 : 1 ≤ l) :
    PageOf view sorted p l ((skipLimit ((p - 1) * l) l sorted).map view)
      { currentPage := p, totalPages := totalPagesOf sorted.length l, total := sorted.length,
        limit := l } := by
  refine ⟨rfl, rfl, rfl, rfl, ?_, ?_, ?_⟩
  · intro i hi
    simp only [skipLimit, List.getElem?_map, List.getElem?_take, hi, if_true,
      List.getElem?_drop]
  · simp only [skipLimit, List.length_map, List.length_take]
    exact Nat.min_le_left _ _
  · intro hlast
    simp only at hlast
    have hb := (totalPagesOf_bounds sorted.length l hl1).1
    have hskip : (sorted.length : ℤ) ≤ (p - 1) * l := by
      have h1 : totalPagesOf sorted.length l ≤ p - 1 := by omega
      have h2 : totalPagesOf sorted.length l * l ≤ (p - 1) * l :=
        Int.mul_le_mul_of_nonneg_right h1 (by omega)
      omega
    have hdrop : sorted.drop ((p - 1) * l).toNat = [] := by
      apply List.drop_eq_nil_of_le
      omega
    simp [skipLimit, hdrop]

/-- The reply of `getUsers` for `page` and `limit` that parse to positive
integers. -/
theorem getUsers_ok (env : Env) (q : Query) (db : Db) (p l : ℤ)
    (hp : parseInt (q.page.getD "1") = some p) (hl : parseInt (q.limit.getD "10") = some l)
    (hp1 : 1 ≤ p) (hl1 : 1 ≤ l) :
    getUsers env q db =
      some (Reply.json 200
        { users :=
            (skipLimit ((p - 1) * l) l
              (sortDocs (userLe env (userSortField q.sortBy)) (sortDirectionOf env q.sortOrder)
                (db.users.filter (userQuery env q)))).map UserView.of
          pagination :=
            { currentPage := p
              totalPages := totalPagesOf (db.users.filter (userQuery env q)).length l
              total := (db.users.filter (userQuery env q)).length
              limit := l } }) := by
  unfold getUsers
  simp only [hp, hl]
  rw [if_pos ⟨hp1, hl1⟩]

/-- The reply of `getStores` of the store controller for an authenticated user
and `page` and `limit` that parse to positive integers. -/
theorem getStores_ok (env : Env) (u : AuthUser) (q : Query) (db : Db) (p l : ℤ)
    (hp : parseInt (q.page.getD "1") = some p) (hl : parseInt (q.limit.getD "10") = some l)
    (hp1 : 1 ≤ p) (hl1 : 1 ≤ l) :
    storeController.getStores env (some u) q db =
      some (Reply.json 200
        { stores := (storesOnPage env q db p l).map (fun s =>
            { id := s.id, name := s.name, address := s.address
              average_rating := s.averageRating, total_ratings := s.totalRatings
              user_rating :=
                userRatingOf
                  (userRatingMap (db.ratings.filter (fun r =>
                    r.user = u.userId ∧ r.store ∈ (storesOnPage env q db p l).map (fun s => s.id))))
                  s.id })
          pagination :=
            { currentPage := p
              totalPages := totalPagesOf (db.stores.filter (storeQuery env q)).length l
              total := (db.stores.filter (storeQuery env q)).length
              limit := l } }) := by
  unfold storeController.getStores storesOnPage
  simp only [hp, hl]
  rw [if_pos ⟨hp1, hl1⟩]

/-- The reply of the admin `getStores` for `page` and `limit` that parse to
positive integers. -/
theorem adminGetStores_ok (env : Env) (q : Query) (db : Db) (p l : ℤ)
    (hp : parseInt (q.page.getD "1") = some p) (hl : parseInt (q.limit.getD "10") = some l)
    (hp1 : 1 ≤ p) (hl1 : 1 ≤ l) :
    adminController.getStores env q db =
      some (Reply.json 200
        { stores :=
            (skipLimit ((p - 1) * l) l
              (sortDocs (storeLe (adminStoreSortField q.sortBy)) (sortDirectionOf env q.sortOrder)
                (db.stores.filter (adminStoreQuery env q)))).map (AdminStoreView.of db.users)
          pagination :=
            { currentPage := p
              totalPages := totalPagesOf (db.stores.filter (adminStoreQuery env q)).length l
              total := (db.stores.filter (adminStoreQuery env q)).length
              limit := l } }) := by
  unfold adminController.getStores
  simp only [hp, hl]
  rw [if_pos ⟨hp1, hl1⟩]

theorem binaryLe_total (s t : List Char) : binaryLe s t = true ∨ binaryLe t s = true := by
  induction s generalizing t with
  | nil => left; rfl
  | cons a s ih =>
    cases t with
    | nil => right; rfl
    | cons b t =>
      simp only [binaryLe]
      by_cases h1 : a.toNat < b.toNat
      · simp [h1]
      · by_cases h2 : b.toNat < a.toNat
        · simp [h2]
        · simp only [h1, h2, if_false]
          exact ih t

theorem binaryLe_trans (s t u : List Char) (h1 : binaryLe s t = true)
    (h2 : binaryLe t u = true) : binaryLe s u = true := by
  induction s generalizing t u with
  | nil => rfl
  | cons a s ih =>
    cases t with
    | nil => simp [binaryLe] at h1
    | cons b t =>
      cases u with
      | nil => simp [binaryLe] at h2
      | cons c u =>
        simp only [binaryLe] at h1 h2 ⊢
        by_cases hab : a.toNat < b.toNat
        · by_cases hbc : b.toNat < c.toNat
          · have : a.toNat < c.toNat := by omega
            simp [this]
          · by_cases hcb : c.toNat < b.toNat
            · simp [hbc, hcb] at h2
            · have : a.toNat < c.toNat := by omega
              simp [this]
        · by_cases hba : b.toNat < a.toNat
          · simp [hab, hba] at h1
          · simp only [hab, hba, if_false] at h1
            by_cases hbc : b.toNat < c.toNat
            · have : a.toNat < c.toNat := by omega
              simp [this]
            · by_cases hcb : c.toNat < b.toNat
              · simp [hbc, hcb] at h2
              · simp only [hbc, hcb, if_false] at h2
                have e1 : ¬ a.toNat < c.toNat := by omega
                have e2 : ¬ c.toNat < a.toNat := by omega
                simp only [e1, e2, if_false]
                exact ih t u h1 h2

theorem userLe_total (env : Env) (field : String) (a b : User) :
    userLe env field a b = true ∨ userLe env field b a = true := by
  unfold userLe
  split
  · exact binaryLe_total _ _
  · exact binaryLe_total _ _
  · exact binaryLe_total _ _
  · exact binaryLe_total _ _
  · simp only [decide_eq_true_eq]
    exact le_total _ _
  · left; rfl

theorem userLe_trans (env : Env) (field : String) (a b c : User)
    (h1 : userLe env field a b = true) (h2 : userLe env field b c = true) :
    userLe env field a c = true := by
  unfold userLe at h1 h2 ⊢
  split at h1
  · exact binaryLe_trans _ _ _ h1 h2
  · exact binaryLe_trans _ _ _ h1 h2
  · exact binaryLe_trans _ _ _ h1 h2
  · exact binaryLe_trans _ _ _ h1 h2
  · simp only [decide_eq_true_eq] at h1 h2 ⊢
    exact le_trans h1 h2
  · rfl

theorem storeLe_total (field : String) (a b : Store) :
    storeLe field a b = true ∨ storeLe field b a = true := by
  unfold storeLe
  split
  · exact binaryLe_total _ _
  · exact binaryLe_total _ _
  · simp only [decide_eq_true_eq]
    exact le_total _ _
  · simp only [decide_eq_true_eq]
    exact le_total _ _
  · left; rfl

theorem storeLe_trans (field : String) (a b c : Store)
    (h1 : storeLe field a b = true) (h2 : storeLe field b c = true) :
    storeLe field a c = true := by
  unfold storeLe at h1 h2 ⊢
  split at h1
  · exact binaryLe_trans _ _ _ h1 h2
  · exact binaryLe_trans _ _ _ h1 h2
  · simp only [decide_eq_true_eq] at h1 h2 ⊢
    exact le_trans h1 h2
  · simp only [decide_eq_true_eq] at h1 h2 ⊢
    exact le_trans h1 h2
  · rfl

/-- The list `sortDocs` returns is in the order asked for, when `le` is total
and transitive. -/
theorem sortDocs_sorted {α : Type} (le : α → α → Bool) (direction : ℤ) (docs : List α)
    (htotal : ∀ a b, le a b = true ∨ le b a = true)
    (htrans : ∀ a b c, le a b = true → le b c = true → le a c = true) :
    SortedBy le direction (sortDocs le direction docs) := by
  unfold SortedBy sortDocs
  by_cases hd : direction = 1
  · simp only [hd, if_true]
    haveI : IsTotal α (fun a b => le a b = true) := ⟨htotal⟩
    haveI : IsTrans α (fun a b => le a b = true) := ⟨htrans⟩
    exact List.sorted_insertionSort (fun a b => le a b = true) docs
  · simp only [hd, if_false]
    haveI : IsTotal α (fun a b => le b a = true) := ⟨fun a b => (htotal a b).symm⟩
    haveI : IsTrans α (fun a b => le b a = true) := ⟨fun a b c h1 h2 => htrans c b a h2 h1⟩
    exact List.sorted_insertionSort (fun a b => le b a = true) docs

theorem toBinary64_of_lt (n : Nat) (h : n < 2 ^ 53) : toBinary64 n = n := by
  unfold toBinary64
  simp only [h, if_true]

theorem excessBits_of_lt (fuel n : Nat) (h : n < 2 ^ 53) : excessBits fuel n = 0 := by
  cases fuel with
  | zero => rfl
  | succ f => simp only [excessBits, h, if_true]

/-- A string whose digits denote a non-negative integer below `2 ^ 53` is
parsed to that integer. -/
theorem parseInt_of_safe (s : String) (z : ℤ) (h : parseMathInt s = some z) (h0 : 0 ≤ z)
    (hlt : z < 2 ^ 53) : parseInt s = some z := by
  have hn : z.natAbs < 2 ^ 53 := by
    have : (z.natAbs : ℤ) < 2 ^ 53 := by rw [Int.natAbs_of_nonneg h0]; exact hlt
    exact_mod_cast this
  unfold parseInt
  simp only [h, toBinary64_of_lt _ hn, excessBits_of_lt _ _ hn]
  have hneg : ¬ z < 0 := not_lt.mpr h0
  simp only [hneg, if_false, Int.natAbs_of_nonneg h0]
  rfl

/-- C16, as stated, fails: for the page 9007199254740993, a positive integer,
`getUsers` answers 200 and reports `currentPage` 9007199254740992, the binary64
`parseInt` returns for those digits. -/
theorem page_beyond_safe_integer :
    parseMathInt "9007199254740993" = some 9007199254740993 ∧
    getUsers sampleEnv { page := some "9007199254740993" } freshDb
      = some (Reply.json 200
          { users := []
            pagination :=
              { currentPage := 9007199254740992, totalPages := 1, total := 3, limit := 10 } }) ∧
    (9007199254740992 : ℤ) ≠ 9007199254740993 := by
  refine ⟨by decide, ?_, by decide⟩
  have hp : parseInt "9007199254740993" = some 9007199254740992 := by decide
  have hl : parseInt "10" = some 10 := by decide
  rw [getUsers_ok sampleEnv { page := some "9007199254740993" } freshDb 9007199254740992 10
    hp hl (by norm_num) (by norm_num)]
  have hfilter : freshDb.users.filter (userQuery sampleEnv { page := some "9007199254740993" })
      = freshDb.users := by decide
  have hpages : totalPagesOf 3 10 = 1 := by
    unfold totalPagesOf
    rw [Int.ceil_eq_iff]
    norm_num
  have hdrop : skipLimit ((9007199254740992 - 1) * 10) 10
      (sortDocs (userLe sampleEnv (userSortField none)) (sortDirectionOf sampleEnv none)
        freshDb.users) = [] := by
    unfold skipLimit
    rw [List.drop_eq_nil_of_le]
    · rfl
    · rw [(sortDocs_perm _ _ _).length_eq]
      decide
  simp only [hfilter]
  have hlen : freshDb.users.length = 3 := rfl
  rw [hlen, hpages]
  have : skipLimit ((9007199254740992 - 1) * 10) 10
      (sortDocs
        (userLe sampleEnv (userSortField ({ page := some "9007199254740993" } : Query).sortBy))
        (sortDirectionOf sampleEnv ({ page := some "9007199254740993" } : Query).sortOrder)
        freshDb.users) = [] := hdrop
  rw [this]
  rfl

/-- C16, amended.  For `page` and `limit` whose digits denote positive integers
`p` and `l` with `p * l` below `2 ^ 53`, `getUsers` and `getStores` of the store
controller and of the admin controller answer 200 with page `p` of the sorted
matches: the pagination reports `currentPage = p`, `limit = l`, the number of
records matching the query and `totalPages = ceil(total / l)`; the list holds
the records at the sorted positions `(p - 1) * l` to `p * l - 1`, so at most `l`
items, and none when `p` is beyond `totalPages`.  The sorted matches are the
records matching the query, each once, in the order of the sort field,
ascending for the direction 1 and descending otherwise. -/
theorem listing_pagination (env : Env) (q : Query) (db : Db) (u : AuthUser) (p l : ℤ)
    (hp : parseMathInt (q.page.getD "1") = some p)
    (hl : parseMathInt (q.limit.getD "10") = some l)
    (hp1 : 1 ≤ p) (hl1 : 1 ≤ l) (hsafe : p * l < 2 ^ 53) :
    (∃ (body : UsersPage) (sorted : List User),
      getUsers env q db = some (Reply.json 200 body) ∧
      sorted.Perm (db.users.filter (userQuery env q)) ∧
      SortedBy (userLe env (userSortField q.sortBy)) (sortDirectionOf env q.sortOrder) sorted ∧
      body.pagination.total = (db.users.filter (userQuery env q)).length ∧
      PageOf UserView.of sorted p l body.users body.pagination) ∧
    (∃ (body : StoresPage) (sorted : List Store),
      storeController.getStores env (some u) q db = some (Reply.json 200 body) ∧
      sorted.Perm (db.stores.filter (storeQuery env q)) ∧
      SortedBy (storeLe (storeSortField q.sortBy)) (sortDirectionOf env q.sortOrder) sorted ∧
      body.pagination.total = (db.stores.filter (storeQuery env q)).length ∧
      PageOf (fun s => (s.id, s.name, s.address, s.averageRating, s.totalRatings)) sorted p l
        (body.stores.map
          (fun v => (v.id, v.name, v.address, v.average_rating, v.total_ratings)))
        body.pagination) ∧
    (∃ (body : AdminStoresPage) (sorted : List Store),
      adminController.getStores env q db = some (Reply.json 200 body) ∧
      sorted.Perm (db.stores.filter (adminStoreQuery env q)) ∧
      SortedBy (storeLe (adminStoreSortField q.sortBy)) (sortDirectionOf env q.sortOrder)
        sorted ∧
      body.pagination.total = (db.stores.filter (adminStoreQuery env q)).length ∧
      PageOf (AdminStoreView.of db.users) sorted p l body.stores body.pagination) := by
  have hpl : p ≤ p * l := by nlinarith
  have hlp : l ≤ p * l := by nlinarith
  have hp : parseInt (q.page.getD "1") = some p :=
    parseInt_of_safe _ p hp (by omega) (by omega)
  have hl : parseInt (q.limit.getD "10") = some l :=
    parseInt_of_safe _ l hl (by omega) (by omega)
  refine ⟨?_, ?_, ?_⟩
  · refine ⟨_, sortDocs (userLe env (userSortField q.sortBy)) (sortDirectionOf env q.sortOrder)
      (db.users.filter (userQuery env q)), getUsers_ok env q db p l hp hl hp1 hl1,
      sortDocs_perm _ _ _, sortDocs_sorted _ _ _ (userLe_total env _) (userLe_trans env _),
      rfl, ?_⟩
    have h := pageOf_skipLimit UserView.of
      (sortDocs (userLe env (userSortField q.sortBy)) (sortDirectionOf env q.sortOrder)
        (db.users.filter (userQuery env q))) p l hl1
    rw [(sortDocs_perm _ _ _).length_eq] at h
    exact h
  · refine ⟨_, sortDocs (storeLe (storeSortField q.sortBy)) (sortDirectionOf env q.sortOrder)
      (db.stores.filter (storeQuery env q)), getStores_ok env u q db p l hp hl hp1 hl1,
      sortDocs_perm _ _ _, sortDocs_sorted _ _ _ (storeLe_total _) (storeLe_trans _), rfl, ?_⟩
    have h := pageOf_skipLimit
      (fun s : Store => (s.id, s.name, s.address, s.averageRating, s.totalRatings))
      (sortDocs (storeLe (storeSortField q.sortBy)) (sortDirectionOf env q.sortOrder)
        (db.stores.filter (storeQuery env q))) p l hl1
    rw [(sortDocs_perm _ _ _).length_eq] at h
    simp only [List.map_map, storesOnPage]
    exact h
  · refine ⟨_, sortDocs (storeLe (adminStoreSortField q.sortBy))
      (sortDirectionOf env q.sortOrder) (db.stores.filter (adminStoreQuery env q)),
      adminGetStores_ok env q db p l hp hl hp1 hl1, sortDocs_perm _ _ _,
      sortDocs_sorted _ _ _ (storeLe_total _) (storeLe_trans _), rfl, ?_⟩
    have h := pageOf_skipLimit (AdminStoreView.of db.users)
      (sortDocs (storeLe (adminStoreSortField q.sortBy)) (sortDirectionOf env q.sortOrder)
        (db.stores.filter (adminStoreQuery env q))) p l hl1
    rw [(sortDocs_perm _ _ _).length_eq] at h
    exact h

theorem listing_pagination_witness :
    parseMathInt "2" = some 2 ∧
    ∃ body : UsersPage,
      getUsers sampleEnv { page := some "2", limit := some "2" } freshDb
        = some (Reply.json 200 body) ∧
      body.pagination = { currentPage := 2, totalPages := 2, total := 3, limit := 2 } ∧
      body.users.length ≤ 2 := by
  refine ⟨by decide, ?_⟩
  obtain ⟨⟨body, sorted, h1, _, _, h3, h4⟩, _⟩ :=
    listing_pagination sampleEnv { page := some "2", limit := some "2" } freshDb bobAuth 2 2
      (by decide) (by decide) (by norm_num) (by norm_num) (by norm_num)
  obtain ⟨g1, g2, g3, g4, _, g6, _⟩ := h4
  have htotal : body.pagination.total = 3 := by rw [h3]; rfl
  refine ⟨body, h1, ?_, g6⟩
  have hpages : body.pagination.totalPages = 2 := by
    rw [g4, ← g3, htotal, Int.ceil_eq_iff]
    norm_num
  rcases hb : body.pagination with ⟨c, t, n, m⟩
  rw [hb] at g1 g2 htotal hpages
  simp only at g1 g2 htotal hpages
  rw [g1, g2, htotal, hpages]

theorem userLe_erasePassword (env : Env) (field : String) (a b : User) :
    userLe env field (erasePassword a) (erasePassword b) = userLe env field a b := by
  unfold userLe
  split <;> rfl

theorem sortDocs_map {α : Type} (le : α → α → Bool) (direction : ℤ) (f : α → α) (docs : List α)
    (hle : ∀ a b, le (f a) (f b) = le a b) :
    (sortDocs le direction docs).map f = sortDocs le direction (docs.map f) := by
  unfold sortDocs
  split_ifs
  · apply List.map_insertionSort
    intro a _ b _
    rw [hle]
  · apply List.map_insertionSort
    intro a _ b _
    rw [hle]

theorem skipLimit_map {α β : Type} (skip l : ℤ) (f : α → β) (docs : List α) :
    (skipLimit skip l docs).map f = skipLimit skip l (docs.map f) := by
  simp [skipLimit, List.map_take, List.map_drop]

theorem filter_userQuery_erase (env : Env) (q : Query) (users : List User) :
    (users.map erasePassword).filter (userQuery env q)
      = (users.filter (userQuery env q)).map erasePassword := by
  rw [List.filter_map]
  rfl

/-- The reply of `getUsers` is computed from the users with their password
hashes blanked. -/
theorem getUsers_erasePassword (env : Env) (q : Query) (db : Db) :
    getUsers env q { db with users := db.users.map erasePassword } = getUsers env q db := by
  unfold getUsers
  simp only [filter_userQuery_erase, List.length_map]
  simp only [← sortDocs_map (userLe env (userSortField q.sortBy)) (sortDirectionOf env q.sortOrder)
      erasePassword _ (userLe_erasePassword env _),
    ← skipLimit_map, List.map_map]
  rfl

theorem findById_erasePassword (users : List User) (id : ObjectId) :
    User.findById (users.map erasePassword) id = (User.findById users id).map erasePassword := by
  unfold User.findById
  rw [List.find?_map]
  rfl

theorem getUserById_erasePassword (id : ObjectId) (db : Db) :
    getUserById id { db with users := db.users.map erasePassword } = getUserById id db := by
  unfold getUserById
  simp only [findById_erasePassword]
  cases User.findById db.users id <;> rfl

theorem createUser_erasePassword (env : Env) (body : UserBody) (db : Db) :
    (createUser env body { db with users := db.users.map erasePassword }).1
      = (createUser env body db).1 := by
  unfold createUser User.findOneByEmail
  simp only [List.find?_map]
  have hcomp : ((fun u : User => decide (u.email = emailSetter env body.email)) ∘ erasePassword)
      = (fun u : User => decide (u.email = emailSetter env body.email)) := rfl
  rw [hcomp]
  cases List.find? (fun u : User => decide (u.email = emailSetter env body.email)) db.users with
  | some found => rfl
  | none =>
    simp only [Option.map_none']
    split_ifs <;> rfl

/-- C17. The replies of the admin user handlers carry no password.  Two database
states that differ only in the stored password hashes of their users give the
same reply of `getUsers` for every query, the same reply of `getUserById`, and
the same reply of `createUser`.  The `user` object of a success reply of
`createUser` or of `updateUser` is built from the id, name, email, address and
role of the saved document: it is the same object whatever that document has
as password. -/
theorem replies_without_password (env : Env) (q : Query) (id : ObjectId) (body : UserBody)
    (ub : UpdateBody) (db db2 : Db) (h : SameButPasswords db db2) :
    getUsers env q db = getUsers env q db2 ∧
    getUserById id db = getUserById id db2 ∧
    (createUser env body db).1 = (createUser env body db2).1 ∧
    (∀ status payload, (createUser env body db).1 = Reply.json status payload →
      payload.user = UserView.of
        (User.build env body.name body.email (env.hash body.password) body.address body.role)) ∧
    (∀ status payload, (updateUser env id ub db).1 = Reply.json status payload →
      ∃ found, User.findById db.users id = some found ∧
        payload.user = UserView.of (applyUpdate env ub found)) ∧
    (∀ (u : User) (p : String), UserView.of { u with password := p } = UserView.of u) := by
  obtain ⟨hu, hs, hr, hp⟩ := h
  have hdb : ({ db with users := db.users.map erasePassword } : Db)
      = { db2 with users := db2.users.map erasePassword } := by
    cases db; cases db2
    simp only at hu hs hr hp
    simp only [Db.mk.injEq]
    exact ⟨hu, hs, hr, hp⟩
  refine ⟨?_, ?_, ?_, ?_, ?_, fun _ _ => rfl⟩
  · rw [← getUsers_erasePassword env q db, ← getUsers_erasePassword env q db2, hdb]
  · rw [← getUserById_erasePassword id db, ← getUserById_erasePassword id db2, hdb]
  · rw [← createUser_erasePassword env body db, ← createUser_erasePassword env body db2, hdb]
  · intro status payload hreply
    unfold createUser at hreply
    cases hf : User.findOneByEmail env db.users body.email with
    | some found => simp [hf] at hreply
    | none =>
      simp only [hf] at hreply
      split_ifs at hreply
      simp only [Reply.json.injEq] at hreply
      rw [← hreply.2]
  · intro status payload hreply
    unfold updateUser at hreply
    cases hf : User.findById db.users id with
    | none => simp [hf] at hreply
    | some found =>
      refine ⟨found, rfl, ?_⟩
      simp only [hf] at hreply
      split_ifs at hreply
      simp only [Prod.fst, Reply.json.injEq] at hreply
      rw [← hreply.2]

theorem replies_without_password_witness :
    SameButPasswords freshDb rehashedDb ∧
    getUsers sampleEnv {} freshDb = getUsers sampleEnv {} rehashedDb ∧
    getUserById 2 freshDb = getUserById 2 rehashedDb :=
  have h : SameButPasswords freshDb rehashedDb := ⟨rfl, rfl, rfl, rfl⟩
  have g := replies_without_password sampleEnv {} 2
    { name := "Erin the Normal User", email := "erin@x.com", password := "Secret@123",
      address := "5 Main St" } {} freshDb rehashedDb h
  ⟨h, g.1, g.2.1⟩

/-- Reading `userRatingMap` under a store id gives the rating written last under
it. -/
theorem assocGet_foldl_last (ratings : List Rating) (d : List (ObjectId × ℚ)) (sid : ObjectId) :
    assocGet (ratings.foldl (fun m r => assocSet m r.store r.rating) d) sid =
      match (ratings.filter (fun r => r.store = sid)).getLast? with
      | some r => some r.rating
      | none => assocGet d sid := by
  induction ratings generalizing d with
  | nil => rfl
  | cons a rest ih =>
    rw [List.foldl_cons, ih]
    by_cases h : a.store = sid
    · simp only [List.filter_cons, h, decide_True, if_true, List.getLast?_cons]
      cases (rest.filter (fun r => r.store = sid)).getLast? with
      | none => simp [assocGet_assocSet, h]
      | some r => simp
    · have hf : (a :: rest).filter (fun r => r.store = sid)
          = rest.filter (fun r => r.store = sid) := by
        simp [List.filter_cons, h]
      rw [hf]
      cases (rest.filter (fun r => r.store = sid)).getLast? with
      | none =>
        show assocGet (assocSet d a.store a.rating) sid = assocGet d sid
        rw [assocGet_assocSet, if_neg h]
      | some r => rfl

theorem find?_eq_head?_filter {α : Type} (p : α → Bool) (l : List α) :
    l.find? p = (l.filter p).head? := by
  induction l with
  | nil => rfl
  | cons a rest ih =>
    by_cases h : p a = true
    · rw [List.find?_cons_of_pos _ h, List.filter_cons_of_pos h]
      rfl
    · rw [List.find?_cons_of_neg _ h, List.filter_cons_of_neg h]
      exact ih

theorem getLast?_eq_head?_of_length_le_one {α : Type} (l : List α) (h : l.length ≤ 1) :
    l.getLast? = l.head? := by
  match l, h with
  | [], _ => rfl
  | [a], _ => rfl
  | _ :: _ :: _, h => simp at h

theorem pairCount_le_one_of_nodup (ratings : List Rating)
    (h : (ratings.map (fun r => (r.user, r.store))).Nodup) :
    ∀ a s, pairCount ratings a s ≤ 1 := by
  induction ratings with
  | nil => intro a s; simp [pairCount]
  | cons r rest ih =>
    rw [List.map_cons, List.nodup_cons] at h
    intro a s
    have hrest := ih h.2 a s
    unfold pairCount at hrest ⊢
    by_cases hr : r.user = a ∧ r.store = s
    · have hzero : rest.filter (fun x => x.user = a ∧ x.store = s) = [] := by
        rw [List.filter_eq_nil_iff]
        intro x hx hmatch
        simp only [decide_eq_true_eq] at hmatch
        apply h.1
        rw [hr.1, hr.2, ← hmatch.1, ← hmatch.2]
        exact List.mem_map_of_mem _ hx
      rw [List.filter_cons_of_pos (by simpa using hr), hzero]
      simp
    · rw [List.filter_cons_of_neg (by simpa using hr)]
      exact hrest

/-- With at most one rating per user and store and no rating of value 0, the
`user_rating` computed for a store on the page is the value of the rating of the
user for that store, if there is one. -/
theorem userRatingOf_eq_findOne (ratings : List Rating) (uid sid : ObjectId)
    (ids : List ObjectId) (hsid : sid ∈ ids)
    (huniq : ∀ a s, pairCount ratings a s ≤ 1) (hpos : ∀ r ∈ ratings, r.rating ≠ 0) :
    userRatingOf (userRatingMap (ratings.filter (fun r => r.user = uid ∧ r.store ∈ ids))) sid
      = (Rating.findOne ratings uid sid).map (fun r => r.rating) := by
  have hfilter : (ratings.filter (fun r => r.user = uid ∧ r.store ∈ ids)).filter
      (fun r => r.store = sid) = ratings.filter (fun r => r.user = uid ∧ r.store = sid) := by
    rw [List.filter_filter]
    apply List.filter_congr
    intro r _
    by_cases h1 : r.store = sid
    · simp [h1, hsid]
    · simp [h1]
  have hlen : (ratings.filter (fun r => r.user = uid ∧ r.store = sid)).length ≤ 1 := huniq uid sid
  unfold userRatingOf userRatingMap
  rw [assocGet_foldl_last, hfilter, getLast?_eq_head?_of_length_le_one _ hlen]
  unfold Rating.findOne
  rw [find?_eq_head?_filter]
  cases hh : (ratings.filter (fun r => r.user = uid ∧ r.store = sid)).head? with
  | none => simp [assocGet]
  | some r =>
    have hmem : r ∈ ratings := (List.mem_filter.mp (List.mem_of_mem_head? hh)).1
    simp [hpos r hmem]

/-- C18. With at most one rating per user and store in the ledger and no rating
of value 0: for every store in the reply of `getStores` of the store controller
to an authenticated user (for `page` and `limit` that parse to positive
integers), `user_rating` is the value of the rating record of that user for
that store if one exists and null otherwise, so that a value shown is always
that of a rating authored by the requesting user; and `getStoreById` answers
with the store and the same `user_rating`.  Both handlers only read the
database: their result is a reply. -/
theorem user_rating_join (env : Env) (u : AuthUser) (q : Query) (db : Db) (p l : ℤ)
    (hp : parseInt (q.page.getD "1") = some p) (hl : parseInt (q.limit.getD "10") = some l)
    (hp1 : 1 ≤ p) (hl1 : 1 ≤ l)
    (huniq : ∀ a s, pairCount db.ratings a s ≤ 1) (hpos : ∀ r ∈ db.ratings, r.rating ≠ 0) :
    (∃ body : StoresPage,
      storeController.getStores env (some u) q db = some (Reply.json 200 body) ∧
      ∀ v ∈ body.stores,
        v.user_rating = (Rating.findOne db.ratings u.userId v.id).map (fun r => r.rating) ∧
        (∀ x, v.user_rating = some x →
          ∃ r ∈ db.ratings, r.user = u.userId ∧ r.store = v.id ∧ r.rating = x)) ∧
    (∀ id store, Store.findById db.stores id = some store →
      getStoreById (some u) id db =
        Reply.json 200
          { id := store.id, name := store.name, address := store.address
            average_rating := store.averageRating, total_ratings := store.totalRatings
            user_rating := (Rating.findOne db.ratings u.userId id).map (fun r => r.rating) }) := by
  constructor
  · refine ⟨_, getStores_ok env u q db p l hp hl hp1 hl1, ?_⟩
    intro v hv
    obtain ⟨s, hs, hvs⟩ := List.mem_map.mp hv
    have hsid : s.id ∈ (storesOnPage env q db p l).map (fun s => s.id) :=
      List.mem_map_of_mem _ hs
    have hjoin := userRatingOf_eq_findOne db.ratings u.userId s.id _ hsid huniq hpos
    have hrating : v.user_rating
        = (Rating.findOne db.ratings u.userId v.id).map (fun r => r.rating) := by
      rw [← hvs]
      exact hjoin
    refine ⟨hrating, ?_⟩
    intro x hx
    rw [hrating] at hx
    cases hf : Rating.findOne db.ratings u.userId v.id with
    | none => simp [hf] at hx
    | some r =>
      simp only [hf, Option.map_some', Option.some.injEq] at hx
      have hkey := Rating.findOne_some _ _ _ _ hf
      exact ⟨r, List.mem_of_find?_eq_some hf, hkey.1, hkey.2, hx⟩
  · intro id store hstore
    unfold getStoreById
    simp only [hstore]

theorem user_rating_join_witness :
    (∀ a s, pairCount ratedDb.ratings a s ≤ 1) ∧ (∀ r ∈ ratedDb.ratings, r.rating ≠ 0) ∧
    getStoreById (some bobAuth) 10 ratedDb =
      Reply.json 200
        { id := 10, name := "Alice Shop", address := "1 Main St", average_rating := 0
          total_ratings := 0, user_rating := some 4 } := by
  have huniq : ∀ a s, pairCount ratedDb.ratings a s ≤ 1 := by
    intro a s
    exact pairCount_le_one_of_nodup ratedDb.ratings (by decide) a s
  have hpos : ∀ r ∈ ratedDb.ratings, r.rating ≠ 0 := by
    intro r hr
    simp only [ratedDb, List.mem_cons, List.mem_singleton, List.not_mem_nil, or_false] at hr
    rcases hr with h | h | h <;> subst h <;> norm_num
  have h := (user_rating_join sampleEnv bobAuth {} ratedDb 1 10 (by decide) (by decide)
    (by norm_num) (by norm_num) huniq hpos).2 10 shop rfl
  refine ⟨huniq, hpos, ?_⟩
  rw [h]
  simp [shop, Rating.findOne, ratedDb, bobAuth]

theorem findOneByEmail_none_iff (env : Env) (users : List User) (email : String) :
    User.findOneByEmail env users email = none ↔ ∀ u ∈ users, u.email ≠ emailSetter env email := by
  unfold User.findOneByEmail
  simp [List.find?_eq_none]

/-- C19, as stated, fails: with no user of the requested email in the database,
`createUser` answers 500 and adds no user when the name has two characters,
which the schema rejects; and for the email `Erin@X.com` it answers 201 and the
user added carries the email `erin@x.com`. -/
theorem createUser_not_always_201 :
    (∀ u ∈ freshDb.users, u.email ≠ "al@x.com") ∧
    createUser sampleEnv shortNameBody freshDb
      = (Reply.error 500 "Internal server error", freshDb) ∧
    (createUser sampleEnv erinBody freshDb).1.status = 201 ∧
    (createUser sampleEnv erinBody freshDb).2.users
      = freshDb.users ++
        [⟨100, "Erin the Normal User", "erin@x.com", "#Secret@123", "5 Main St", "normal_user"⟩] ∧
    "erin@x.com" ≠ erinBody.email := by
  refine ⟨by decide, ?_, ?_, ?_, by decide⟩
  · have hnone : User.findOneByEmail sampleEnv freshDb.users shortNameBody.email = none := by
      decide
    have hrej : User.schemaAccepts (User.build sampleEnv shortNameBody.name shortNameBody.email
        (sampleEnv.hash shortNameBody.password) shortNameBody.address shortNameBody.role)
        = false := by decide
    unfold createUser
    simp only [hnone, hrej]
    rfl
  · have hnone : User.findOneByEmail sampleEnv freshDb.users erinBody.email = none := by decide
    have hacc : User.schemaAccepts (User.build sampleEnv erinBody.name erinBody.email
        (sampleEnv.hash erinBody.password) erinBody.address erinBody.role) = true := by decide
    unfold createUser
    simp only [hnone, hacc]
    rfl
  · have hnone : User.findOneByEmail sampleEnv freshDb.users erinBody.email = none := by decide
    have hacc : User.schemaAccepts (User.build sampleEnv erinBody.name erinBody.email
        (sampleEnv.hash erinBody.password) erinBody.address erinBody.role) = true := by decide
    have hbuild : User.build sampleEnv erinBody.name erinBody.email
        (sampleEnv.hash erinBody.password) erinBody.address erinBody.role
        = ⟨100, "Erin the Normal User", "erin@x.com", "#Secret@123", "5 Main St", "normal_user"⟩ := by
      decide
    unfold createUser
    simp only [hnone, hacc, hbuild]
    rfl

/-- C19, amended.  If a user already has the requested email (compared after
the `trim` and `lowercase` setters of the schema) `createUser` answers 400 and
the database is unchanged.  Otherwise, when the schema accepts the new
document, the answer is 201 and exactly one user is added, with the given name
and address, the given role (`normal_user` when absent), the given email
trimmed and lower-cased, and the hash of the password; and when the schema
rejects it the answer is 500 and nothing is added. -/
theorem createUser_spec (env : Env) (body : UserBody) (db : Db) (newUser : User)
    (hnew : newUser = User.build env body.name body.email (env.hash body.password) body.address
      body.role) :
    ((∃ u ∈ db.users, u.email = emailSetter env body.email) →
      createUser env body db = (Reply.error 400 "User with this email already exists", db)) ∧
    ((∀ u ∈ db.users, u.email ≠ emailSetter env body.email) →
      User.schemaAccepts newUser = true →
      createUser env body db =
        (Reply.json 201 { message := "User created successfully", user := UserView.of newUser },
          { db with users := db.users ++ [newUser] }) ∧
      newUser.name = body.name ∧ newUser.email = emailSetter env body.email ∧
      newUser.address = body.address ∧ newUser.role = body.role.getD "normal_user" ∧
      newUser.password = env.hash body.password ∧
      (emailSetter env body.email = body.email → newUser.email = body.email)) ∧
    ((∀ u ∈ db.users, u.email ≠ emailSetter env body.email) →
      User.schemaAccepts newUser = false →
      createUser env body db = (Reply.error 500 "Internal server error", db)) := by
  subst hnew
  refine ⟨?_, ?_, ?_⟩
  · intro hex
    cases hf : User.findOneByEmail env db.users body.email with
    | none =>
      obtain ⟨u, hu, he⟩ := hex
      exact absurd he ((findOneByEmail_none_iff env db.users body.email).mp hf u hu)
    | some found =>
      unfold createUser
      simp only [hf]
  · intro hnone hacc
    have hf := (findOneByEmail_none_iff env db.users body.email).mpr hnone
    refine ⟨?_, rfl, rfl, rfl, rfl, rfl, fun h => h⟩
    unfold createUser
    simp only [hf, hacc, if_true]
  · intro hnone hrej
    have hf := (findOneByEmail_none_iff env db.users body.email).mpr hnone
    unfold createUser
    simp only [hf, hrej]
    rfl

theorem createUser_spec_witness :
    createUser sampleEnv erinBody freshDb =
      (Reply.json 201
          { message := "User created successfully"
            user := ⟨100, "Erin the Normal User", "erin@x.com", "5 Main St", "normal_user"⟩ },
        { freshDb with users := freshDb.users ++
          [⟨100, "Erin the Normal User", "erin@x.com", "#Secret@123", "5 Main St",
            "normal_user"⟩] }) :=
  ((createUser_spec sampleEnv erinBody freshDb
    ⟨100, "Erin the Normal User", "erin@x.com", "#Secret@123", "5 Main St", "normal_user"⟩
    (by decide)).2.1 (by decide) (by decide)).1

/-- C20. When a store already has the requested email `createStore` answers 400
and creates nothing; so it does when `ownerId` is supplied and no user has that
id together with the role `store_owner`.  Otherwise it answers 201 and adds
exactly one store, with the given name, email and address, whose owner is the
referenced user (null when `ownerId` is absent) and whose cached fields are 0;
the reply reports `averageRating` 0 and `totalRatings` 0. -/
theorem createStore_spec (env : Env) (body : StoreBody) (db : Db) :
    ((∃ s ∈ db.stores, s.email = body.email) →
      createStore env body db = (Reply.error 400 "Store with this email already exists", db)) ∧
    ((∀ s ∈ db.stores, s.email ≠ body.email) →
      (∀ ownerId, body.ownerId = some ownerId →
        (∀ u ∈ db.users, ¬ (u.id = ownerId ∧ u.role = "store_owner")) →
        createStore env body db = (Reply.error 400 "Invalid store owner ID", db)) ∧
      (∀ owner : Option ObjectId,
        (owner = none ∧ body.ownerId = none) ∨
          (∃ ownerId, owner = some ownerId ∧ body.ownerId = some ownerId ∧
            ∃ u ∈ db.users, u.id = ownerId ∧ u.role = "store_owner") →
        createStore env body db =
          (Reply.json 201
            { message := "Store created successfully"
              store :=
                { id := env.newId, name := body.name, email := body.email
                  address := body.address, ownerId := owner, averageRating := 0
                  totalRatings := 0 } },
            { db with stores := db.stores ++
              [{ id := env.newId, name := body.name, email := body.email
                 address := body.address, owner := owner, averageRating := 0
                 totalRatings := 0 }] }))) := by
  constructor
  · intro hex
    cases hf : Store.findOneByEmail db.stores body.email with
    | none =>
      obtain ⟨s, hs, he⟩ := hex
      unfold Store.findOneByEmail at hf
      rw [List.find?_eq_none] at hf
      exact absurd he (by simpa using hf s hs)
    | some found =>
      unfold createStore
      simp only [hf]
  · intro hnone
    have hf : Store.findOneByEmail db.stores body.email = none := by
      unfold Store.findOneByEmail
      rw [List.find?_eq_none]
      intro s hs
      simpa using hnone s hs
    constructor
    · intro ownerId hid howner
      have hu : User.findStoreOwner db.users ownerId = none := by
        unfold User.findStoreOwner
        rw [List.find?_eq_none]
        intro u hu
        simpa using howner u hu
      unfold createStore
      simp only [hf, hid, hu]
    · intro owner hcase
      rcases hcase with ⟨ho, hid⟩ | ⟨ownerId, ho, hid, u, hu, huid, hrole⟩
      · unfold createStore
        simp only [hf, hid, ho, Option.map_none']
      · cases hfo : User.findStoreOwner db.users ownerId with
        | none =>
          unfold User.findStoreOwner at hfo
          rw [List.find?_eq_none] at hfo
          have hno := hfo u hu
          simp only [decide_eq_true_eq, not_and] at hno
          exact absurd hrole (hno huid)
        | some found =>
          have hfound := List.find?_some hfo
          simp only [decide_eq_true_eq] at hfound
          unfold createStore
          simp only [hf, hid, hfo, ho, Option.map_some', hfound.1]

theorem createStore_spec_witness :
    createStore sampleEnv booksBody freshDb
      = (Reply.error 400 "Invalid store owner ID", freshDb) :=
  ((createStore_spec sampleEnv booksBody freshDb).2 (by decide)).1 2 rfl (by decide)

theorem updateUser_found (env : Env) (id : ObjectId) (body : UpdateBody) (db : Db) (found : User)
    (hfind : User.findById db.users id = some found) :
    updateUser env id body db =
      if !User.schemaAccepts (applyUpdate env body found) then
        (Reply.error 500 "Internal server error", db)
      else if (applyUpdate env body found).email ≠ found.email ∧
          db.users.any (fun o => o.id ≠ id ∧ o.email = (applyUpdate env body found).email)
      then (Reply.error 400 "Email is already in use", db)
      else
        (Reply.json 200
          { message := "User updated successfully"
            user := UserView.of (applyUpdate env body found) },
          { db with users := User.replace db.users (applyUpdate env body found) }) := by
  unfold updateUser
  simp only [hfind]

theorem updateUser_ok (env : Env) (id : ObjectId) (body : UpdateBody) (db : Db)
    (h : (updateUser env id body db).1.status = 200) :
    ∃ found, User.findById db.users id = some found ∧
      updateUser env id body db =
        (Reply.json 200
          { message := "User updated successfully"
            user := UserView.of (applyUpdate env body found) },
          { db with users := User.replace db.users (applyUpdate env body found) }) := by
  cases hfind : User.findById db.users id with
  | none =>
    unfold updateUser at h
    simp [hfind, Reply.status] at h
  | some found =>
    refine ⟨found, rfl, ?_⟩
    rw [updateUser_found env id body db found hfind] at h ⊢
    split_ifs at h ⊢ with h1 h2
    · simp [Reply.status] at h
    · simp [Reply.status] at h
    · rfl

theorem updateUser_not_ok (env : Env) (id : ObjectId) (body : UpdateBody) (db : Db)
    (h : (updateUser env id body db).1.status ≠ 200) :
    (updateUser env id body db).2 = db := by
  cases hfind : User.findById db.users id with
  | none =>
    unfold updateUser
    simp [hfind]
  | some found =>
    rw [updateUser_found env id body db found hfind] at h ⊢
    split_ifs at h ⊢ with h1 h2
    · rfl
    · rfl
    · exact absurd rfl h

theorem User.findById_replace (users : List User) (id : ObjectId) (found user : User)
    (hfind : User.findById users id = some found) (hid : user.id = id) :
    User.findById (User.replace users user) id = some user := by
  induction users with
  | nil => simp [User.findById] at hfind
  | cons a l ih =>
    unfold User.replace
    by_cases ha : a.id = id
    · simp [User.findById, List.find?, ha, hid]
    · have h1 : User.findById l id = some found := by
        simpa [User.findById, List.find?, ha] using hfind
      have ha2 : ¬ a.id = user.id := by rw [hid]; exact ha
      simp only [ha2, if_false]
      have := ih h1
      unfold User.findById at this ⊢
      rw [List.find?_cons_of_neg _ (by simpa using ha)]
      exact this

theorem User.replace_others (users : List User) (user : User) :
    (User.replace users user).filter (fun v => v.id ≠ user.id)
      = users.filter (fun v => v.id ≠ user.id) := by
  induction users with
  | nil => rfl
  | cons a l ih =>
    unfold User.replace
    by_cases ha : a.id = user.id
    · simp [ha]
    · simp only [ha, if_false]
      rw [List.filter_cons, List.filter_cons, ih]

theorem User.replace_ids (users : List User) (user : User) :
    (User.replace users user).map (fun v => v.id) = users.map (fun v => v.id) := by
  induction users with
  | nil => rfl
  | cons a l ih =>
    unfold User.replace
    by_cases ha : a.id = user.id
    · simp [ha]
    · simp [ha, ih]

theorem applyUpdate_id (env : Env) (body : UpdateBody) (user : User) :
    (applyUpdate env body user).id = user.id := rfl

theorem User.findById_id (users : List User) (id : ObjectId) (found : User)
    (h : User.findById users id = some found) : found.id = id := by
  have := List.find?_some h
  simpa using this

/-- C21. Passwords are stored only as hashes.  When `createUser` answers 201 the
one user it adds carries `hash(password)`, which is not the submitted plaintext
whenever the hash of a password differs from the password; when it answers
anything else the database is unchanged.  When `updateUser` answers 200 for an
existing user, the stored password of that user is `hash(newPassword)` if a
password is supplied (present and not empty) in the body and is the previous
stored hash otherwise; when it answers anything else the database, and so the
stored hash, is unchanged. -/
theorem passwords_stored_as_hashes (env : Env) (body : UserBody) (update : UpdateBody)
    (id : ObjectId) (db : Db) (found : User)
    (hfind : User.findById db.users id = some found) :
    ((createUser env body db).1.status = 201 →
      ∃ created, (createUser env body db).2.users = db.users ++ [created] ∧
        created.password = env.hash body.password ∧
        (env.hash body.password ≠ body.password → created.password ≠ body.password)) ∧
    ((createUser env body db).1.status ≠ 201 → (createUser env body db).2 = db) ∧
    ((updateUser env id update db).1.status = 200 →
      ∃ saved, User.findById (updateUser env id update db).2.users id = some saved ∧
        (truthy update.password = true →
          saved.password = env.hash (update.password.getD "")) ∧
        (truthy update.password = false → saved.password = found.password)) ∧
    ((updateUser env id update db).1.status ≠ 200 → (updateUser env id update db).2 = db) := by
  refine ⟨?_, ?_, ?_, updateUser_not_ok env id update db⟩
  · intro h
    unfold createUser at h ⊢
    cases hf : User.findOneByEmail env db.users body.email with
    | some u => simp [hf, Reply.status] at h
    | none =>
      simp only [hf] at h ⊢
      split_ifs at h ⊢ with hacc
      · exact ⟨_, rfl, rfl, fun hne => hne⟩
      · simp [Reply.status] at h
  · intro h
    unfold createUser at h ⊢
    cases hf : User.findOneByEmail env db.users body.email with
    | some u => simp [hf]
    | none =>
      simp only [hf] at h ⊢
      split_ifs at h ⊢ with hacc
      · exact absurd rfl h
      · rfl
  · intro h
    obtain ⟨found2, hfind2, heq⟩ := updateUser_ok env id update db h
    rw [hfind] at hfind2
    have hff : found = found2 := Option.some.inj hfind2
    subst hff
    refine ⟨applyUpdate env update found, ?_, ?_, ?_⟩
    · rw [heq]
      exact User.findById_replace db.users id found _ hfind
        ((applyUpdate_id env update found).trans (User.findById_id db.users id found hfind))
    · intro ht
      simp [applyUpdate, ht]
    · intro ht
      simp [applyUpdate, ht]

theorem passwords_stored_as_hashes_witness :
    User.findById freshDb.users 2 = some bob ∧
    (updateUser sampleEnv 2 passwordUpdate freshDb).1.status = 200 ∧
    ∃ saved, User.findById (updateUser sampleEnv 2 passwordUpdate freshDb).2.users 2 = some saved ∧
      saved.password = "#New@1234" := by
  have h200 : (updateUser sampleEnv 2 passwordUpdate freshDb).1.status = 200 := by decide
  obtain ⟨saved, hs, hp, _⟩ :=
    (passwords_stored_as_hashes sampleEnv erinBody passwordUpdate 2 freshDb bob rfl).2.2.1 h200
  exact ⟨rfl, h200, saved, hs, (hp (by decide)).trans (by decide)⟩

/-- C22, as stated, fails: an update of Bob with the email `Bob@Y.com` is
answered 200 and the email stored for Bob is `bob@y.com`, which is not the
supplied value. -/
theorem updateUser_email_normalised :
    User.findById freshDb.users 2 = some bob ∧
    capitalEmailUpdate.email = some "Bob@Y.com" ∧
    (updateUser sampleEnv 2 capitalEmailUpdate freshDb).1.status = 200 ∧
    User.findById (updateUser sampleEnv 2 capitalEmailUpdate freshDb).2.users 2
      = some { bob with email := "bob@y.com" } ∧
    "bob@y.com" ≠ "Bob@Y.com" := by
  refine ⟨rfl, rfl, by decide, by decide, by decide⟩

/-- C22, amended.  For an existing user, when `updateUser` answers 200 the stored
record keeps its id and each of `name`, `address` and `role` supplied (present
and not empty) in the body takes the supplied value, a supplied `email` takes
the supplied value trimmed and lower-cased, and every field not supplied keeps
its previous value; the records of the other users, the ids of the users, the
stores, the ratings and the pending recomputations are unchanged.  When it
answers anything else nothing changes.  For an id no user has the answer is 404
and nothing changes. -/
theorem updateUser_partial_update (env : Env) (id : ObjectId) (body : UpdateBody) (db : Db) :
    (∀ found, User.findById db.users id = some found →
      ((updateUser env id body db).1.status = 200 →
        ∃ saved, User.findById (updateUser env id body db).2.users id = some saved ∧
          saved.id = found.id ∧
          saved.name = (if truthy body.name then body.name.getD "" else found.name) ∧
          saved.email =
            (if truthy body.email then emailSetter env (body.email.getD "") else found.email) ∧
          saved.address = (if truthy body.address then body.address.getD "" else found.address) ∧
          saved.role = (if truthy body.role then body.role.getD "" else found.role) ∧
          (updateUser env id body db).2.users.filter (fun v => v.id ≠ id)
            = db.users.filter (fun v => v.id ≠ id) ∧
          (updateUser env id body db).2.users.map (fun v => v.id)
            = db.users.map (fun v => v.id) ∧
          (updateUser env id body db).2.stores = db.stores ∧
          (updateUser env id body db).2.ratings = db.ratings ∧
          (updateUser env id body db).2.pending = db.pending) ∧
      ((updateUser env id body db).1.status ≠ 200 → (updateUser env id body db).2 = db)) ∧
    (User.findById db.users id = none →
      updateUser env id body db = (Reply.error 404 "User not found", db)) := by
  constructor
  · intro found hfind
    refine ⟨?_, updateUser_not_ok env id body db⟩
    intro h
    obtain ⟨found2, hfind2, heq⟩ := updateUser_ok env id body db h
    rw [hfind] at hfind2
    have hff : found = found2 := Option.some.inj hfind2
    subst hff
    have hidf := User.findById_id db.users id found hfind
    have hid : (applyUpdate env body found).id = id := (applyUpdate_id env body found).trans hidf
    refine ⟨applyUpdate env body found, ?_, rfl, rfl, rfl, rfl, rfl, ?_, ?_, ?_, ?_, ?_⟩
    · rw [heq]
      exact User.findById_replace db.users id found _ hfind hid
    · rw [heq]
      have := User.replace_others db.users (applyUpdate env body found)
      rw [hid] at this
      exact this
    · rw [heq]
      exact User.replace_ids db.users _
    · rw [heq]
    · rw [heq]
    · rw [heq]
  · intro hnone
    unfold updateUser
    simp only [hnone]

theorem updateUser_partial_update_witness :
    User.findById freshDb.users 2 = some bob ∧
    (updateUser sampleEnv 2 passwordUpdate freshDb).1.status = 200 ∧
    ∃ saved, User.findById (updateUser sampleEnv 2 passwordUpdate freshDb).2.users 2 = some saved ∧
      saved.name = "Bob the Normal User" ∧ saved.email = "bob@x.com" ∧
      saved.address = "9 Side St" ∧ saved.role = "normal_user" := by
  have h200 : (updateUser sampleEnv 2 passwordUpdate freshDb).1.status = 200 := by decide
  obtain ⟨saved, hs, _, hn, he, ha, hr, _⟩ :=
    ((updateUser_partial_update sampleEnv 2 passwordUpdate freshDb).1 bob rfl).1 h200
  exact ⟨rfl, h200, saved, hs, hn.trans (by decide), he.trans (by decide), ha.trans (by decide),
    hr.trans (by decide)⟩

/-- C23, as stated, fails: an update of Bob with the email of Alice, a different
existing user, and with the name `Al`, which the schema rejects, is answered
500, not 400.  The database is unchanged. -/
theorem updateUser_duplicate_email_500 :
    User.findById freshDb.users 2 = some bob ∧
    takenEmailShortNameUpdate.email = some alice.email ∧ alice ∈ freshDb.users ∧ alice.id ≠ 2 ∧
    updateUser sampleEnv 2 takenEmailShortNameUpdate freshDb
      = (Reply.error 500 "Internal server error", freshDb) := by
  refine ⟨rfl, rfl, by decide, by decide, by decide⟩

/-- C23, amended.  When the new email, trimmed and lower-cased, is the email of
a different existing user and is not the current email of the updated user,
`updateUser` answers 400 (`Email is already in use`) if the updated document
passes the validators of the user schema, and 500 if it fails them; in both
cases the database, and so the stored user record, is unchanged. -/
theorem updateUser_duplicate_email (env : Env) (id : ObjectId) (body : UpdateBody) (db : Db)
    (found other : User) (newEmail : String)
    (hfind : User.findById db.users id = some found)
    (hemail : body.email = some newEmail) (hne : newEmail ≠ "")
    (hother : other ∈ db.users) (hoid : other.id ≠ id)
    (heq : other.email = emailSetter env newEmail) (hdiff : found.email ≠ other.email) :
    (User.schemaAccepts (applyUpdate env body found) = true →
      updateUser env id body db = (Reply.error 400 "Email is already in use", db)) ∧
    (User.schemaAccepts (applyUpdate env body found) = false →
      updateUser env id body db = (Reply.error 500 "Internal server error", db)) := by
  have ht : truthy body.email = true := by simp [truthy, hemail, hne]
  have hnew : (applyUpdate env body found).email = other.email := by
    rw [hemail] at ht
    unfold applyUpdate
    simp only [hemail, ht, if_true, Option.getD_some, heq]
  rw [updateUser_found env id body db found hfind]
  constructor
  · intro hacc
    have hdup : ((applyUpdate env body found).email ≠ found.email ∧
        db.users.any (fun o => o.id ≠ id ∧ o.email = (applyUpdate env body found).email) = true) := by
      refine ⟨by rw [hnew]; exact fun h => hdiff h.symm, ?_⟩
      rw [List.any_eq_true]
      exact ⟨other, hother, by simp [hoid, hnew]⟩
    simp only [hacc, Bool.not_true, Bool.false_eq_true, if_false]
    rw [if_pos hdup]
  · intro hrej
    simp only [hrej, Bool.not_false, if_true]

theorem updateUser_duplicate_email_witness :
    updateUser sampleEnv 2 takenEmailUpdate freshDb
      = (Reply.error 400 "Email is already in use", freshDb) :=
  (updateUser_duplicate_email sampleEnv 2 takenEmailUpdate freshDb bob alice "alice@x.com" rfl rfl
    (by decide) (by decide) (by decide) (by decide) (by decide)).1 (by decide)

theorem Rating.findOne_ledgerAfter (ratings : List Rating) (user store : ObjectId) (rating : ℚ) :
    Rating.findOne (ledgerAfter ratings user store rating) user store
      = some ⟨user, store, rating⟩ := by
  unfold ledgerAfter
  cases he : Rating.findOne ratings user store with
  | some e =>
    simp only
    rw [Rating.findOne_overwrite ratings user store rating e he]
    obtain ⟨h1, h2⟩ := Rating.findOne_some ratings user store e he
    rw [← h1, ← h2]
  | none =>
    simp only
    unfold Rating.findOne at he ⊢
    rw [List.find?_append, he]
    simp

theorem calculateAverageRatingOver_writeStatistics (storeId : ObjectId) (db : Db) :
    calculateAverageRatingOver Store.writeStatistics storeId db
      = { db := calculateAverageRating storeId db, logged := [] } := by
  unfold calculateAverageRatingOver calculateAverageRating Store.writeStatistics
  cases aggregate db.ratings storeId <;> rfl

theorem calculateAverageRatingOver_throws
    (write : List Store → ObjectId → ℚ → Nat → Except String (List Store))
    (hthrow : ∀ stores id a t, ∃ err, write stores id a t = Except.error err)
    (storeId : ObjectId) (db : Db) :
    ∃ err, calculateAverageRatingOver write storeId db = { db := db, logged := [err] } := by
  unfold calculateAverageRatingOver
  cases aggregate db.ratings storeId with
  | nil =>
    obtain ⟨err, he⟩ := hthrow db.stores storeId 0 0
    exact ⟨err, by simp only [he]⟩
  | cons g rest =>
    obtain ⟨err, he⟩ := hthrow db.stores storeId (toFixed1 g.averageRating) g.totalRatings
    exact ⟨err, by simp only [he]⟩

/-- C24. A failure of the store write of the recomputation does not fail the
rating submission.  When `submitRating` answers 200 its reply is the success
reply and the recomputation for the store is pending; if the store write
throws when the recomputation runs, `calculateAverageRating` returns with the
error logged and the database as the submission left it: the rating record of
the user for the store is there with the submitted value, and the stores are
those from before the submission. -/
theorem failed_statistics_write_keeps_rating
    (write : List Store → ObjectId → ℚ → Nat → Except String (List Store))
    (req : Request) (db : Db)
    (hthrow : ∀ stores id a t, ∃ err, write stores id a t = Except.error err)
    (h200 : (submitRating req db).1.status = 200) :
    ∃ u sid r, req.user = some u ∧ req.body.storeId = some sid ∧ req.body.rating = some r ∧
      (submitRating req db).1 = ⟨200, none, some "Rating submitted successfully"⟩ ∧
      (submitRating req db).2.pending = db.pending ++ [sid] ∧
      (∃ err, calculateAverageRatingOver write sid (submitRating req db).2
        = { db := (submitRating req db).2, logged := [err] }) ∧
      Rating.findOne (calculateAverageRatingOver write sid (submitRating req db).2).db.ratings
        u.userId sid = some ⟨u.userId, sid, r⟩ ∧
      (calculateAverageRatingOver write sid (submitRating req db).2).db.stores = db.stores := by
  obtain ⟨u, sid, r, st, hu, hs, hr, h1, h5, hst⟩ := submitRating_ok req db h200
  have hv := submitRating_valid req db u sid r st hu hs hr h1 h5 hst
  obtain ⟨err, herr⟩ := calculateAverageRatingOver_throws write hthrow sid (submitRating req db).2
  refine ⟨u, sid, r, hu, hs, hr, ?_, ?_, ⟨err, herr⟩, ?_, ?_⟩
  · rw [hv]
  · rw [hv]
  · rw [herr, hv]
    exact Rating.findOne_ledgerAfter db.ratings u.userId sid r
  · rw [herr, hv]

theorem failed_statistics_write_keeps_rating_witness :
    (submitRating (bobRates 10 4) freshDb).1.status = 200 ∧
    ∃ u sid r, (bobRates 10 4).user = some u ∧ (bobRates 10 4).body.storeId = some sid ∧
      (bobRates 10 4).body.rating = some r ∧
      (submitRating (bobRates 10 4) freshDb).1 = ⟨200, none, some "Rating submitted successfully"⟩ ∧
      (submitRating (bobRates 10 4) freshDb).2.pending = freshDb.pending ++ [sid] ∧
      (∃ err, calculateAverageRatingOver failingWrite sid (submitRating (bobRates 10 4) freshDb).2
        = { db := (submitRating (bobRates 10 4) freshDb).2, logged := [err] }) ∧
      Rating.findOne
        (calculateAverageRatingOver failingWrite sid (submitRating (bobRates 10 4) freshDb).2).db.ratings
        u.userId sid = some ⟨u.userId, sid, r⟩ ∧
      (calculateAverageRatingOver failingWrite sid (submitRating (bobRates 10 4) freshDb).2).db.stores
        = freshDb.stores := by
  have h200 : (submitRating (bobRates 10 4) freshDb).1.status = 200 := by
    rw [submitRating_valid (bobRates 10 4) freshDb ⟨2, "bob@x.com", "normal_user"⟩ 10 4 shop
      rfl rfl rfl (by norm_num) (by norm_num) rfl]
  exact ⟨h200, failed_statistics_write_keeps_rating failingWrite (bobRates 10 4) freshDb
    (fun _ _ _ _ => ⟨"MongoNetworkError", rfl⟩) h200⟩

theorem deleteUser_found (req : Request) (db : Db) (id : ObjectId) (u : User)
    (hid : req.paramsId = some id) (hfind : User.findById db.users id = some u) :
    deleteUser req db =
      (⟨200, none, some "User deleted successfully"⟩,
        { db with
          users := (User.findByIdAndDelete db.users id).2
          stores := if u.role = "store_owner" then Store.deleteOne db.stores id else db.stores
          ratings := Rating.deleteMany db.ratings id }) := by
  have hfst : (User.findByIdAndDelete db.users id).1 = some u := by
    rw [User.findByIdAndDelete_fst, hfind]
  unfold deleteUser
  rcases hp : User.findByIdAndDelete db.users id with ⟨found, rest⟩
  rw [hp] at hfst
  simp only at hfst
  subst hfst
  simp only [hid]
  rw [hp]

theorem Store.findById_deleteOne (stores : List Store) (owner : ObjectId) (s : Store)
    (hnodup : (stores.map (fun t => t.id)).Nodup)
    (hs : Store.findOneByOwner stores owner = some s) :
    Store.findById (Store.deleteOne stores owner) s.id = none := by
  induction stores with
  | nil => simp [Store.findOneByOwner] at hs
  | cons a l ih =>
    rw [List.map_cons, List.nodup_cons] at hnodup
    unfold Store.deleteOne
    by_cases ha : a.owner = some owner
    · have hae : a = s := by simpa [Store.findOneByOwner, List.find?, ha] using hs
      subst hae
      simp only [ha, if_true]
      unfold Store.findById
      rw [List.find?_eq_none]
      intro t ht
      have : t.id ≠ a.id := by
        intro he
        apply hnodup.1
        rw [← he]
        exact List.mem_map_of_mem _ ht
      simpa using this
    · have h1 : Store.findOneByOwner l owner = some s := by
        simpa [Store.findOneByOwner, List.find?, ha] using hs
      have hmem : s ∈ l := List.mem_of_find?_eq_some h1
      have hne : a.id ≠ s.id := by
        intro he
        apply hnodup.1
        rw [he]
        exact List.mem_map_of_mem _ hmem
      simp only [ha, if_false]
      have := ih hnodup.2 h1
      unfold Store.findById at this ⊢
      rw [List.find?_cons_of_neg _ (by simpa using hne)]
      exact this

/-- C26. Store deletion does not cascade to ratings.  When `deleteUser` removes
a user with the role `store_owner` and the store `s` found for that owner
(store ids being unique), no store has the id of `s` afterwards, the ratings of
`s` left in the ledger are the old ones by other users, and every rating of `s`
by another user is still in the ledger, its store reference matching no
store. -/
theorem deleteUser_orphans_ratings (req : Request) (db : Db) (id : ObjectId) (u : User)
    (s : Store) (hid : req.paramsId = some id) (hfind : User.findById db.users id = some u)
    (hrole : u.role = "store_owner") (hstore : Store.findOneByOwner db.stores id = some s)
    (hnodup : (db.stores.map (fun t => t.id)).Nodup) :
    (deleteUser req db).1 = ⟨200, none, some "User deleted successfully"⟩ ∧
    Store.findById (deleteUser req db).2.stores s.id = none ∧
    (deleteUser req db).2.ratings.filter (fun r => r.store = s.id)
      = db.ratings.filter (fun r => r.store = s.id ∧ r.user ≠ id) ∧
    (∀ r ∈ db.ratings, r.store = s.id → r.user ≠ id →
      r ∈ (deleteUser req db).2.ratings ∧
        Store.findById (deleteUser req db).2.stores r.store = none) := by
  rw [deleteUser_found req db id u hid hfind]
  simp only [hrole, if_true]
  have hgone := Store.findById_deleteOne db.stores id s hnodup hstore
  refine ⟨trivial, hgone, ?_, ?_⟩
  · unfold Rating.deleteMany
    rw [List.filter_filter]
    congr 1
    funext r
    simp [Bool.and_comm]
  · intro r hr hrs hru
    refine ⟨?_, by rw [hrs]; exact hgone⟩
    exact List.mem_filter.mpr ⟨hr, by simpa using hru⟩

theorem deleteUser_orphans_ratings_witness :
    completePending (submitRating (bobRates 10 4) freshDb).2 = bobRatedDb ∧
    Store.findById (deleteUser { paramsId := some 1 } bobRatedDb).2.stores 10 = none ∧
    (⟨2, 10, 4⟩ : Rating) ∈ (deleteUser { paramsId := some 1 } bobRatedDb).2.ratings := by
  have h := deleteUser_orphans_ratings { paramsId := some 1 } bobRatedDb 1 alice
    { shop with averageRating := 4, totalRatings := 1 } rfl rfl rfl rfl (by decide)
  refine ⟨?_, h.2.1, (h.2.2.2 ⟨2, 10, 4⟩ ?_ rfl (by decide)).1⟩
  · have h4 : (submitRating (bobRates 10 4) freshDb).2
        = { freshDb with ratings := [⟨2, 10, 4⟩], pending := [10] } := by
      rw [submitRating_valid (bobRates 10 4) freshDb ⟨2, "bob@x.com", "normal_user"⟩ 10 4 shop
        rfl rfl rfl (by norm_num) (by norm_num) rfl]
      simp [ledgerAfter, Rating.findOne, freshDb]
    have t4 : toFixed1 4 = 4 := by
      rw [toFixed1_eq_of 4 40 (by norm_num) (by norm_num) (by norm_num)]
      norm_num
    rw [h4]
    simp [completePending, calculateAverageRating, aggregate, Store.findByIdAndUpdate, freshDb,
      bobRatedDb, shop, t4]
  · simp [bobRatedDb]

theorem formatUserRatings_none_iff (stores : List Store) (ratings : List Rating) :
    formatUserRatings stores ratings = none ↔
      ∃ r ∈ ratings, Store.findById stores r.store = none := by
  induction ratings with
  | nil => simp [formatUserRatings]
  | cons a l ih =>
    unfold formatUserRatings
    cases ha : Store.findById stores a.store with
    | none => simp [ha]
    | some s =>
      cases hl : formatUserRatings stores l with
      | none =>
        have := ih.mp hl
        simp only [List.mem_cons, exists_eq_or_imp, ha]
        simpa using this
      | some views =>
        simp only [List.mem_cons, exists_eq_or_imp, ha]
        have hno : ¬ ∃ r ∈ l, Store.findById stores r.store = none := by
          intro h
          rw [ih.mpr h] at hl
          exact absurd hl (by simp)
        simpa using hno

theorem getUserRatings_500_iff (env : Env) (u : AuthUser) (db : Db) :
    getUserRatings env (some u) db = Reply.error 500 "Internal server error" ↔
      ∃ r ∈ db.ratings, r.user = u.userId ∧ Store.findById db.stores r.store = none := by
  unfold getUserRatings
  simp only
  cases hf : formatUserRatings db.stores
      (sortDocs (fun a b => env.ratingUpdatedAt a.user a.store ≤ env.ratingUpdatedAt b.user b.store)
        (-1) (db.ratings.filter (fun r => r.user = u.userId))) with
  | none =>
    simp only [true_iff]
    obtain ⟨r, hr, hnone⟩ := (formatUserRatings_none_iff _ _).mp hf
    have hperm := sortDocs_perm
      (fun a b => decide (env.ratingUpdatedAt a.user a.store ≤ env.ratingUpdatedAt b.user b.store))
      (-1) (db.ratings.filter (fun r => r.user = u.userId))
    have hr2 := hperm.mem_iff.mp hr
    have hr3 := List.mem_filter.mp hr2
    exact ⟨r, hr3.1, by simpa using hr3.2, hnone⟩
  | some views =>
    constructor
    · intro h
      exact absurd h (by simp)
    intro ⟨r, hr, hru, hnone⟩
    have hperm := sortDocs_perm
      (fun a b => decide (env.ratingUpdatedAt a.user a.store ≤ env.ratingUpdatedAt b.user b.store))
      (-1) (db.ratings.filter (fun r => r.user = u.userId))
    have hr2 : r ∈ sortDocs
        (fun a b => decide (env.ratingUpdatedAt a.user a.store ≤ env.ratingUpdatedAt b.user b.store))
        (-1) (db.ratings.filter (fun r => r.user = u.userId)) :=
      hperm.mem_iff.mpr (List.mem_filter.mpr ⟨hr, by simpa using hru⟩)
    have := (formatUserRatings_none_iff _ _).mpr ⟨r, hr2, hnone⟩
    rw [this] at hf
    exact absurd hf (by simp)

/-- C27. The claim holds of the specification and fails on the code: from the
fresh database Bob rates the shop 4, the recomputation completes, and the admin
deletes Alice, the owner of the shop.  `deleteUser` answers success and removes
the shop; the rating of Bob stays in the ledger; and `getUserRatings` for Bob
answers 500, because `populate` leaves `null` for the store and the handler
reads `r.store._id`. -/
theorem getUserRatings_orphan_500 :
    (submitRating (bobRates 10 4) freshDb).1.status = 200 ∧
    completePending (submitRating (bobRates 10 4) freshDb).2 = bobRatedDb ∧
    (deleteUser { paramsId := some 1 } bobRatedDb).1
      = ⟨200, none, some "User deleted successfully"⟩ ∧
    (deleteUser { paramsId := some 1 } bobRatedDb).2
      = { users := [bob, carol], stores := [], ratings := [⟨2, 10, 4⟩], pending := [] } ∧
    getUserRatings sampleEnv (some bobAuth) (deleteUser { paramsId := some 1 } bobRatedDb).2
      = Reply.error 500 "Internal server error" := by
  have hdel : (deleteUser { paramsId := some 1 } bobRatedDb)
      = (⟨200, none, some "User deleted successfully"⟩,
          { users := [bob, carol], stores := [], ratings := [⟨2, 10, 4⟩], pending := [] }) := by
    simp [deleteUser, User.findByIdAndDelete, Rating.deleteMany, Store.deleteOne, bobRatedDb,
      freshDb, alice, bob, carol, shop]
  refine ⟨?_, ?_, ?_, ?_, ?_⟩
  · rw [submitRating_valid (bobRates 10 4) freshDb ⟨2, "bob@x.com", "normal_user"⟩ 10 4 shop
      rfl rfl rfl (by norm_num) (by norm_num) rfl]
  · have h4 : (submitRating (bobRates 10 4) freshDb).2
        = { freshDb with ratings := [⟨2, 10, 4⟩], pending := [10] } := by
      rw [submitRating_valid (bobRates 10 4) freshDb ⟨2, "bob@x.com", "normal_user"⟩ 10 4 shop
        rfl rfl rfl (by norm_num) (by norm_num) rfl]
      simp [ledgerAfter, Rating.findOne, freshDb]
    have t4 : toFixed1 4 = 4 := by
      rw [toFixed1_eq_of 4 40 (by norm_num) (by norm_num) (by norm_num)]
      norm_num
    rw [h4]
    simp [completePending, calculateAverageRating, aggregate, Store.findByIdAndUpdate, freshDb,
      bobRatedDb, shop, t4]
  · rw [hdel]
  · rw [hdel]
  · rw [hdel]
    simp [getUserRatings, bobAuth, sortDocs, formatUserRatings, Store.findById]

theorem run_congr (a b m n : ℤ) (h1 : a = b) (h2 : m = n) :
    (List.range m.toNat).map (fun (k : ℕ) => a + (k : ℤ))
      = (List.range n.toNat).map (fun (k : ℕ) => b + (k : ℤ)) := by
  subst h1 h2
  rfl

theorem getPageNumbers_run (currentPage totalPages first : ℤ) (ht : 1 ≤ totalPages)
    (hc1 : 1 ≤ currentPage) (hc2 : currentPage ≤ totalPages)
    (hfirst : first = if totalPages < 5 then 1
      else if currentPage + 2 ≤ totalPages then max 1 (currentPage - 2) else totalPages - 4) :
    getPageNumbers currentPage totalPages
        = (List.range (min 5 totalPages).toNat).map (fun (k : ℕ) => first + (k : ℤ)) ∧
      1 ≤ first ∧ first + min 5 totalPages - 1 ≤ totalPages ∧
      first ≤ currentPage ∧ currentPage ≤ first + min 5 totalPages - 1 := by
  subst hfirst
  have h52 : (5 : ℤ) / 2 = 2 := by decide
  refine ⟨?_, ?_, ?_, ?_, ?_⟩
  · unfold getPageNumbers
    simp only [h52, max_def, min_def]
    split_ifs <;> (apply run_congr <;> omega)
  all_goals
    simp only [max_def, min_def]
    split_ifs <;> omega

/-- C28. For `totalPages` at least 1 and `currentPage` between 1 and
`totalPages`, `getPageNumbers` returns `min(5, totalPages)` page numbers that
are consecutive integers from a first one on, strictly increasing, each between
1 and `totalPages`, and `currentPage` is one of them. -/
theorem getPageNumbers_window (currentPage totalPages : ℤ) (ht : 1 ≤ totalPages)
    (hc1 : 1 ≤ currentPage) (hc2 : currentPage ≤ totalPages) :
    (getPageNumbers currentPage totalPages).length = (min 5 totalPages).toNat ∧
    (∃ first : ℤ, getPageNumbers currentPage totalPages
      = (List.range (min 5 totalPages).toNat).map (fun (k : ℕ) => first + (k : ℤ))) ∧
    List.Pairwise (fun a b => a < b) (getPageNumbers currentPage totalPages) ∧
    (∀ p ∈ getPageNumbers currentPage totalPages, 1 ≤ p ∧ p ≤ totalPages) ∧
    currentPage ∈ getPageNumbers currentPage totalPages := by
  obtain ⟨hrun, h1, h2, h3, h4⟩ :=
    getPageNumbers_run currentPage totalPages _ ht hc1 hc2 rfl
  generalize (if totalPages < 5 then (1 : ℤ)
      else if currentPage + 2 ≤ totalPages then max 1 (currentPage - 2) else totalPages - 4)
    = first at hrun h1 h2 h3 h4
  have hm : 0 ≤ min 5 totalPages := by
    simp only [min_def]; split_ifs <;> omega
  rw [hrun]
  refine ⟨by simp, ⟨first, rfl⟩, ?_, ?_, ?_⟩
  · rw [List.pairwise_map]
    exact (List.pairwise_lt_range _).imp (fun h => by omega)
  · intro p hp
    obtain ⟨k, hk, rfl⟩ := List.mem_map.mp hp
    have hk2 : (k : ℤ) < min 5 totalPages := by
      have := List.mem_range.mp hk
      omega
    constructor <;> omega
  · refine List.mem_map.mpr ⟨(currentPage - first).toNat, List.mem_range.mpr ?_, ?_⟩
    · omega
    · omega

theorem getPageNumbers_window_witness :
    getPageNumbers 9 10 = [6, 7, 8, 9, 10] ∧ (9 : ℤ) ∈ getPageNumbers 9 10 :=
  ⟨by decide, (getPageNumbers_window 9 10 (by decide) (by decide) (by decide)).2.2.2.2⟩

theorem endsWith_iff (s suffix : List Char) : endsWith s suffix = true ↔ suffix <:+ s := by
  unfold endsWith
  rw [List.isPrefixOf_iff_prefix, List.reverse_prefix]

theorem replaceFirst_suffix_of_prefix (rest : List Char)
    (h : "/api/api".data <:+ "/api/api".data ++ rest) :
    "/api".data <:+ "/api".data ++ rest := by
  by_cases hlen : 4 ≤ rest.length
  · have h1 : "/api".data <:+ "/api/api".data ++ rest :=
      List.IsSuffix.trans (by decide) h
    have h2 : rest <:+ "/api/api".data ++ rest := List.suffix_append _ _
    have h3 : "/api".data <:+ rest := List.suffix_of_suffix_length_le h1 h2 (by simpa using hlen)
    exact List.IsSuffix.trans h3 (List.suffix_append _ _)
  · match rest, hlen with
    | [], _ => simp
    | [a], _ =>
      exfalso
      rw [← endsWith_iff] at h
      simp [endsWith] at h
    | [a, b], _ =>
      exfalso
      rw [← endsWith_iff] at h
      simp [endsWith] at h
    | [a, b, c], _ =>
      exfalso
      rw [← endsWith_iff] at h
      simp [endsWith] at h
    | a :: b :: c :: d :: l, hl => simp at hl

theorem replaceFirst_keeps_suffix (s : List Char) (h : "/api/api".data <:+ s) :
    "/api".data <:+ replaceFirst "/api/api".data "/api".data s := by
  induction s with
  | nil =>
    have := List.IsSuffix.length_le h
    simp at this
  | cons c rest ih =>
    rw [replaceFirst]
    by_cases hp : "/api/api".data.isPrefixOf (c :: rest) = true
    · rw [if_pos hp]
      obtain ⟨tail, htail⟩ := List.isPrefixOf_iff_prefix.mp hp
      rw [← htail] at h ⊢
      have hd : ("/api/api".data ++ tail).drop "/api/api".data.length = tail :=
        List.drop_left _ _
      rw [hd]
      exact replaceFirst_suffix_of_prefix tail h
    · rw [if_neg hp]
      rcases List.suffix_cons_iff.mp h with heq | hsuf
      · exfalso
        apply hp
        rw [← heq]
        decide
      · exact List.IsSuffix.trans (ih hsuf) (List.suffix_cons _ _)

/-- Whatever is configured, the URL `getBaseUrl` returns ends with `/api`. -/
theorem getBaseUrl_endsWith_api (configured : Option String) :
    endsWith (getBaseUrl configured).data "/api".data = true := by
  unfold getBaseUrl
  simp only
  generalize (if truthy configured = true then configured.getD "" else "http://localhost:5001/api")
    = url0
  have h1 : endsWith (if (!endsWith url0.data "/api".data) = true then url0 ++ "/api" else url0).data
      "/api".data = true := by
    by_cases he : endsWith url0.data "/api".data = true
    · simp [he]
    · have he2 : endsWith url0.data "/api".data = false := by simpa using he
      simp only [he2, Bool.not_false, if_true]
      rw [endsWith_iff]
      exact ⟨url0.data, rfl⟩
  generalize (if (!endsWith url0.data "/api".data) = true then url0 ++ "/api" else url0) = url1 at h1 ⊢
  by_cases h2 : endsWith url1.data "/api/api".data = true
  · rw [if_pos h2]
    rw [endsWith_iff] at h2 ⊢
    exact replaceFirst_keeps_suffix url1.data h2
  · rw [if_neg h2]
    exact h1

/-- C29. The claim holds of the specification and fails on the code: for the
configured URL `http://localhost:5001/api/api/api` the function `getBaseUrl`
returns `http://localhost:5001/api/api`, which ends with `/api/api`, and for
`http://h/api/api/v1/api/api` it replaces the first `/api/api`, not the one at
the end, and the result ends with `/api/api`.  The other parts hold: the result
always ends with `/api`, the default is returned when nothing is configured, a
single duplicated suffix is collapsed, and a URL ending in a single `/api` is
returned unchanged. -/
theorem getBaseUrl_triple_suffix :
    getBaseUrl (some "http://localhost:5001/api/api/api") = "http://localhost:5001/api/api" ∧
    endsWith (getBaseUrl (some "http://localhost:5001/api/api/api")).data "/api/api".data = true ∧
    getBaseUrl (some "http://h/api/api/v1/api/api") = "http://h/api/v1/api/api" ∧
    endsWith (getBaseUrl (some "http://h/api/api/v1/api/api")).data "/api/api".data = true ∧
    (∀ configured, endsWith (getBaseUrl configured).data "/api".data = true) ∧
    getBaseUrl none = "http://localhost:5001/api" ∧
    getBaseUrl (some "http://h:1/api/api") = "http://h:1/api" ∧
    (∀ url : String, url ≠ "" → endsWith url.data "/api".data = true →
      endsWith url.data "/api/api".data = false → getBaseUrl (some url) = url) := by
  refine ⟨by decide, by decide, by decide, by decide, getBaseUrl_endsWith_api, by decide,
    by decide, ?_⟩
  intro url hne h1 h2
  unfold getBaseUrl
  have ht : truthy (some url) = true := by simp [truthy, hne]
  simp [ht, h1, h2]

/-- C30. In `getUsers` the branch that maps `created_at` to `createdAt` is
unreachable: for every `sortBy` the sort field is `sortBy` itself when it is
one of `name`, `email`, `address`, `role`, `createdAt`, and `name` otherwise; a
`sortBy` on that list is not `created_at`; so for `created_at` the field is
`name` and the reply of `getUsers` is the one for `sortBy = name`. -/
theorem created_at_alias_unreachable (sortBy : String) :
    userSortField (some sortBy) =
      (if sortBy ∈ ["name", "email", "address", "role", "createdAt"] then sortBy else "name") ∧
    (sortBy ∈ ["name", "email", "address", "role", "createdAt"] → sortBy ≠ "created_at") ∧
    userSortField (some "created_at") = "name" ∧
    (∀ (env : Env) (q : Query) (db : Db),
      getUsers env { q with sortBy := some "created_at" } db
        = getUsers env { q with sortBy := some "name" } db) := by
  refine ⟨?_, ?_, by decide, ?_⟩
  · unfold userSortField
    by_cases h : sortBy ∈ ["name", "email", "address", "role", "createdAt"]
    · have hne : sortBy ≠ "created_at" := by
        intro he
        rw [he] at h
        revert h
        decide
      simp only [Option.getD_some, h, if_true, hne, if_false]
    · simp only [Option.getD_some, h, if_false]
  · intro h he
    rw [he] at h
    revert h
    decide
  · intro env q db
    have h1 : userSortField (some "created_at") = userSortField (some "name") := by decide
    unfold getUsers
    simp only [h1]
    rfl

theorem created_at_alias_unreachable_witness :
    userSortField (some "createdAt") = "createdAt" ∧ userSortField (some "created_at") = "name" :=
  ⟨by
    have h := (created_at_alias_unreachable "createdAt").1
    rw [h]
    decide, (created_at_alias_unreachable "x").2.2.1⟩

theorem initializeDatabase_eq (env : Env) (db : Db) :
    initializeDatabase env db =
      match findOrCreateUser env db "System Administrator Account" "admin@rately.com" "Admin@123"
          "123 Admin Street, Admin City, Admin State 12345" "system_admin" with
      | none => none
      | some (_, db1) =>
      match findOrCreateUser env db1 "Normal User Account for Testing" "user@rately.com" "User@123"
          "456 User Avenue, User City, User State 67890" "normal_user" with
      | none => none
      | some (_, db2) =>
      match findOrCreateUser env db2 "Store Owner Account for Testing" "store@rately.com"
          "Store@123" "789 Store Blvd, Store City, Store State 13579" "store_owner" with
      | none => none
      | some (storeOwner, db3) => storeStage env storeOwner db3 := by
  rfl

theorem calculateAverageRating_eq (s : ObjectId) (db : Db) :
    calculateAverageRating s db = { db with stores := recomputeStore db.ratings db.stores s } := by
  unfold calculateAverageRating recomputeStore statisticsOf
  cases aggregate db.ratings s <;> rfl

theorem foldl_add_rating (l : List Rating) (a : ℚ) :
    l.foldl (fun acc curr => acc + curr.rating) a = a + (l.map (fun r => r.rating)).sum := by
  induction l generalizing a with
  | nil => simp
  | cons r l ih => simp [ih, add_assoc]

theorem syncStoreStats_eq (s : ObjectId) (db : Db) :
    syncStoreStats s db = calculateAverageRating s db := by
  rw [calculateAverageRating_eq]
  unfold syncStoreStats recomputeStore statisticsOf aggregate
  simp only [foldl_add_rating, zero_add]
  cases h : db.ratings.filter (fun r => r.store = s) with
  | nil => simp
  | cons a l => simp

theorem findByIdAndUpdate_cons (s : Store) (l : List Store) (i : ObjectId) (a : ℚ) (t : Nat) :
    Store.findByIdAndUpdate (s :: l) i a t =
      if s.id = i then { s with averageRating := a, totalRatings := t } :: l
      else s :: Store.findByIdAndUpdate l i a t := rfl

theorem findByIdAndUpdate_cons_pos (s : Store) (l : List Store) (i : ObjectId) (a : ℚ) (t : Nat)
    (h : s.id = i) :
    Store.findByIdAndUpdate (s :: l) i a t
      = { s with averageRating := a, totalRatings := t } :: l := by
  rw [findByIdAndUpdate_cons, if_pos h]

theorem findByIdAndUpdate_cons_neg (s : Store) (l : List Store) (i : ObjectId) (a : ℚ) (t : Nat)
    (h : ¬ s.id = i) :
    Store.findByIdAndUpdate (s :: l) i a t = s :: Store.findByIdAndUpdate l i a t := by
  rw [findByIdAndUpdate_cons, if_neg h]

theorem findByIdAndUpdate_idem (stores : List Store) (i : ObjectId) (a : ℚ) (t : Nat) :
    Store.findByIdAndUpdate (Store.findByIdAndUpdate stores i a t) i a t
      = Store.findByIdAndUpdate stores i a t := by
  induction stores with
  | nil => rfl
  | cons s l ih =>
    by_cases h : s.id = i
    · rw [findByIdAndUpdate_cons_pos s l i a t h,
        findByIdAndUpdate_cons_pos { s with averageRating := a, totalRatings := t } l i a t h]
    · rw [findByIdAndUpdate_cons_neg s l i a t h, findByIdAndUpdate_cons_neg s _ i a t h, ih]

theorem findByIdAndUpdate_comm (stores : List Store) (i j : ObjectId) (a b : ℚ) (t u : Nat)
    (hij : i ≠ j) :
    Store.findByIdAndUpdate (Store.findByIdAndUpdate stores i a t) j b u
      = Store.findByIdAndUpdate (Store.findByIdAndUpdate stores j b u) i a t := by
  induction stores with
  | nil => rfl
  | cons s l ih =>
    by_cases hi : s.id = i
    · have hj : ¬ s.id = j := fun h => hij (hi.symm.trans h)
      rw [findByIdAndUpdate_cons_pos s l i a t hi,
        findByIdAndUpdate_cons_neg { s with averageRating := a, totalRatings := t } l j b u hj,
        findByIdAndUpdate_cons_neg s l j b u hj, findByIdAndUpdate_cons_pos s _ i a t hi]
    · by_cases hj : s.id = j
      · rw [findByIdAndUpdate_cons_neg s l i a t hi, findByIdAndUpdate_cons_pos s _ j b u hj,
          findByIdAndUpdate_cons_pos s l j b u hj,
          findByIdAndUpdate_cons_neg { s with averageRating := b, totalRatings := u } l i a t hi]
      · rw [findByIdAndUpdate_cons_neg s l i a t hi, findByIdAndUpdate_cons_neg s _ j b u hj,
          findByIdAndUpdate_cons_neg s l j b u hj, findByIdAndUpdate_cons_neg s _ i a t hi, ih]

theorem findByIdAndUpdate_eraseStats (stores : List Store) (i : ObjectId) (a : ℚ) (t : Nat) :
    (Store.findByIdAndUpdate stores i a t).map eraseStats = stores.map eraseStats := by
  induction stores with
  | nil => rfl
  | cons s l ih =>
    by_cases h : s.id = i
    · rw [findByIdAndUpdate_cons_pos s l i a t h]
      rfl
    · rw [findByIdAndUpdate_cons_neg s l i a t h, List.map_cons, List.map_cons, ih]

theorem recomputeStore_idem (ratings : List Rating) (stores : List Store) (s : ObjectId) :
    recomputeStore ratings (recomputeStore ratings stores s) s = recomputeStore ratings stores s :=
  findByIdAndUpdate_idem _ _ _ _

theorem recomputeStore_comm (ratings : List Rating) (stores : List Store) (s t : ObjectId) :
    recomputeStore ratings (recomputeStore ratings stores s) t
      = recomputeStore ratings (recomputeStore ratings stores t) s := by
  by_cases h : s = t
  · subst h; rfl
  · exact findByIdAndUpdate_comm _ _ _ _ _ _ _ h

theorem recomputeStore_eraseStats (ratings : List Rating) (stores : List Store) (s : ObjectId) :
    (recomputeStore ratings stores s).map eraseStats = stores.map eraseStats :=
  findByIdAndUpdate_eraseStats _ _ _ _

/-- A store whose cached fields a recomputation would leave as they are stays
so when another recomputation is made. -/
theorem recomputeStore_keeps_fixed (ratings : List Rating) (stores : List Store) (s t : ObjectId)
    (h : recomputeStore ratings stores s = stores) :
    recomputeStore ratings (recomputeStore ratings stores t) s = recomputeStore ratings stores t := by
  rw [recomputeStore_comm, h]

theorem foldl_recomputeStore_keeps_fixed (ratings : List Rating) (pending : List ObjectId)
    (stores : List Store) (s : ObjectId) (h : recomputeStore ratings stores s = stores) :
    recomputeStore ratings (pending.foldl (recomputeStore ratings) stores) s
      = pending.foldl (recomputeStore ratings) stores := by
  induction pending generalizing stores with
  | nil => exact h
  | cons p l ih =>
    simp only [List.foldl_cons]
    exact ih _ (recomputeStore_keeps_fixed ratings stores s p h)

theorem foldl_recomputeStore_fixed_of_mem (ratings : List Rating) (pending : List ObjectId)
    (stores : List Store) (s : ObjectId) (hs : s ∈ pending) :
    recomputeStore ratings (pending.foldl (recomputeStore ratings) stores) s
      = pending.foldl (recomputeStore ratings) stores := by
  induction pending generalizing stores with
  | nil => simp at hs
  | cons p l ih =>
    simp only [List.foldl_cons]
    rcases List.mem_cons.mp hs with h | h
    · subst h
      exact foldl_recomputeStore_keeps_fixed ratings l _ s (recomputeStore_idem ratings stores s)
    · exact ih _ h

theorem foldl_recomputeStore_eraseStats (ratings : List Rating) (pending : List ObjectId)
    (stores : List Store) :
    (pending.foldl (recomputeStore ratings) stores).map eraseStats = stores.map eraseStats := by
  induction pending generalizing stores with
  | nil => rfl
  | cons p l ih =>
    simp only [List.foldl_cons]
    rw [ih, recomputeStore_eraseStats]

theorem foldl_calculate_eq (pending : List ObjectId) (db : Db) :
    pending.foldl (fun d s => calculateAverageRating s d) db
      = { db with stores := pending.foldl (recomputeStore db.ratings) db.stores } := by
  induction pending generalizing db with
  | nil => rfl
  | cons p l ih =>
    simp only [List.foldl_cons]
    rw [ih, calculateAverageRating_eq]

theorem completePending_eq (db : Db) :
    completePending db =
      { db with stores := db.pending.foldl (recomputeStore db.ratings) db.stores, pending := [] } := by
  unfold completePending
  rw [foldl_calculate_eq]

theorem findOneByEmail_append (env : Env) (users extra : List User) (e : String) (u : User)
    (h : User.findOneByEmail env users e = some u) :
    User.findOneByEmail env (users ++ extra) e = some u := by
  unfold User.findOneByEmail at h ⊢
  rw [List.find?_append, h]
  rfl

theorem findOrCreateUser_spec (env : Env) (db : Db) (n e p a r : String) (u : User) (db1 : Db)
    (h : findOrCreateUser env db n e p a r = some (u, db1)) :
    User.findOneByEmail env db1.users e = some u ∧ (∃ extra, db1.users = db.users ++ extra) ∧
      db1.stores = db.stores ∧ db1.ratings = db.ratings ∧ db1.pending = db.pending := by
  unfold findOrCreateUser at h
  cases hf : User.findOneByEmail env db.users e with
  | some found =>
    simp only [hf, Option.some.injEq, Prod.mk.injEq] at h
    obtain ⟨h1, h2⟩ := h
    subst h1 h2
    exact ⟨hf, ⟨[], by simp⟩, rfl, rfl, rfl⟩
  | none =>
    simp only [hf] at h
    split_ifs at h with hacc
    simp only [Option.some.injEq, Prod.mk.injEq] at h
    obtain ⟨h1, h2⟩ := h
    subst h1 h2
    refine ⟨?_, ⟨_, rfl⟩, rfl, rfl, rfl⟩
    unfold User.findOneByEmail at hf ⊢
    rw [List.find?_append, hf]
    simp

theorem findOrCreateUser_found (env : Env) (db : Db) (n e p a r : String) (u : User)
    (h : User.findOneByEmail env db.users e = some u) :
    findOrCreateUser env db n e p a r = some (u, db) := by
  unfold findOrCreateUser
  simp only [h]

theorem ensureDummyUsers_spec (env : Env) (nameOf addressOf : Nat → String) (l : List Nat)
    (db : Db) (us : List User) (db1 : Db)
    (h : ensureDummyUsers env nameOf addressOf l db = some (us, db1)) :
    (∃ extra, db1.users = db.users ++ extra) ∧ db1.stores = db.stores ∧
      db1.ratings = db.ratings ∧ db1.pending = db.pending ∧ us.length = l.length ∧
      List.Forall₂
        (fun i u => User.findOneByEmail env db1.users ("user" ++ toString i ++ "@rately.com")
          = some u) l us := by
  induction l generalizing db us db1 with
  | nil =>
    simp only [ensureDummyUsers, Option.some.injEq, Prod.mk.injEq] at h
    obtain ⟨h1, h2⟩ := h
    subst h1 h2
    exact ⟨⟨[], by simp⟩, rfl, rfl, rfl, rfl, List.Forall₂.nil⟩
  | cons i rest ih =>
    rw [ensureDummyUsers] at h
    cases h1 : findOrCreateUser env db (nameOf i) ("user" ++ toString i ++ "@rately.com")
        "User@123" (addressOf i) "normal_user" with
    | none => simp [h1] at h
    | some p1 =>
      obtain ⟨user, dbA⟩ := p1
      simp only [h1] at h
      cases h2 : ensureDummyUsers env nameOf addressOf rest dbA with
      | none => simp [h2] at h
      | some p2 =>
        obtain ⟨users, dbB⟩ := p2
        simp only [h2, Option.some.injEq, Prod.mk.injEq] at h
        obtain ⟨hus, hdb⟩ := h
        subst hus hdb
        obtain ⟨hfound, ⟨ex1, hex1⟩, hs1, hr1, hp1⟩ := findOrCreateUser_spec _ _ _ _ _ _ _ _ _ h1
        obtain ⟨⟨ex2, hex2⟩, hs2, hr2, hp2, hlen, hall⟩ := ih dbA users dbB h2
        refine ⟨⟨ex1 ++ ex2, by rw [hex2, hex1, List.append_assoc]⟩, hs2.trans hs1, hr2.trans hr1,
          hp2.trans hp1, by simp [hlen], List.Forall₂.cons ?_ hall⟩
        rw [hex2]
        exact findOneByEmail_append env _ _ _ _ hfound

theorem ensureDummyUsers_found (env : Env) (nameOf addressOf : Nat → String) (l : List Nat)
    (db : Db) (us : List User)
    (h : List.Forall₂
      (fun i u => User.findOneByEmail env db.users ("user" ++ toString i ++ "@rately.com") = some u)
      l us) :
    ensureDummyUsers env nameOf addressOf l db = some (us, db) := by
  induction h with
  | nil => rfl
  | cons hhead _ ih =>
    rw [ensureDummyUsers, findOrCreateUser_found _ _ _ _ _ _ _ _ hhead]
    simp only [ih]

theorem Rating.findOne_append (ratings extra : List Rating) (u s : ObjectId)
    (h : (Rating.findOne ratings u s).isSome = true) :
    (Rating.findOne (ratings ++ extra) u s).isSome = true := by
  unfold Rating.findOne at h ⊢
  rw [List.find?_append]
  cases hf : List.find? (fun r => decide (r.user = u ∧ r.store = s)) ratings with
  | none => rw [hf] at h; simp at h
  | some e => simp

theorem Rating.create_spec (db : Db) (r : Rating) (db1 : Db) (h : Rating.create db r = some db1) :
    db1 = { db with ratings := db.ratings ++ [r], pending := db.pending ++ [r.store] } := by
  unfold Rating.create at h
  cases hf : Rating.findOne db.ratings r.user r.store with
  | some e => simp [hf] at h
  | none =>
    simp only [hf, Option.some.injEq] at h
    rw [← h]
    rfl

theorem createRatings_spec (l : List Rating) (db db1 : Db) (h : createRatings l db = some db1) :
    db1 = { db with ratings := db.ratings ++ l
                    pending := db.pending ++ l.map (fun r => r.store) } := by
  induction l generalizing db with
  | nil =>
    simp only [createRatings, Option.some.injEq] at h
    subst h
    simp
  | cons r rest ih =>
    rw [createRatings] at h
    cases hc : Rating.create db r with
    | none => simp [hc] at h
    | some dbA =>
      simp only [hc] at h
      rw [ih dbA h, Rating.create_spec db r dbA hc]
      simp

theorem ensureRatings_spec (l : List Rating) (db db1 : Db) (h : ensureRatings l db = some db1) :
    db1.users = db.users ∧ db1.stores = db.stores ∧ (∃ extra, db1.ratings = db.ratings ++ extra) ∧
      ∀ r ∈ l, (Rating.findOne db1.ratings r.user r.store).isSome = true := by
  induction l generalizing db with
  | nil =>
    simp only [ensureRatings, Option.some.injEq] at h
    subst h
    exact ⟨rfl, rfl, ⟨[], by simp⟩, by simp⟩
  | cons r rest ih =>
    rw [ensureRatings] at h
    cases hf : Rating.findOne db.ratings r.user r.store with
    | some e =>
      simp only [hf] at h
      obtain ⟨hu, hs, ⟨ex, hex⟩, hall⟩ := ih db h
      refine ⟨hu, hs, ⟨ex, hex⟩, ?_⟩
      intro x hx
      rcases List.mem_cons.mp hx with hx | hx
      · subst hx
        rw [hex]
        exact Rating.findOne_append _ _ _ _ (by rw [hf]; rfl)
      · exact hall x hx
    | none =>
      simp only [hf] at h
      cases hc : Rating.create db r with
      | none => simp [hc] at h
      | some dbA =>
        simp only [hc] at h
        have hA := Rating.create_spec db r dbA hc
        obtain ⟨hu, hs, ⟨ex, hex⟩, hall⟩ := ih dbA h
        rw [hA] at hu hs hex
        refine ⟨hu, hs, ⟨[r] ++ ex, by rw [hex]; simp⟩, ?_⟩
        intro x hx
        rcases List.mem_cons.mp hx with hx | hx
        · subst hx
          rw [hex]
          simp only [List.append_assoc]
          unfold Rating.findOne at hf ⊢
          rw [List.find?_append, hf]
          simp
        · exact hall x hx

theorem ensureRatings_found (l : List Rating) (db : Db)
    (h : ∀ r ∈ l, (Rating.findOne db.ratings r.user r.store).isSome = true) :
    ensureRatings l db = some db := by
  induction l with
  | nil => rfl
  | cons r rest ih =>
    rw [ensureRatings]
    have hr := h r (List.mem_cons_self _ _)
    cases hf : Rating.findOne db.ratings r.user r.store with
    | none => rw [hf] at hr; simp at hr
    | some e =>
      simp only
      exact ih (fun x hx => h x (List.mem_cons_of_mem _ hx))

theorem findOneByOwner_eraseStats (stores : List Store) (o : ObjectId) :
    (Store.findOneByOwner stores o).map eraseStats
      = Store.findOneByOwner (stores.map eraseStats) o := by
  unfold Store.findOneByOwner
  rw [List.find?_map]
  rfl

theorem findOneByOwner_of_eraseStats (stores stores1 : List Store) (o : ObjectId) (s : Store)
    (h : stores1.map eraseStats = stores.map eraseStats)
    (hs : Store.findOneByOwner stores o = some s) :
    ∃ s1, Store.findOneByOwner stores1 o = some s1 ∧ s1.id = s.id := by
  have h1 := findOneByOwner_eraseStats stores1 o
  rw [h, ← findOneByOwner_eraseStats stores o, hs] at h1
  cases hf : Store.findOneByOwner stores1 o with
  | none => rw [hf] at h1; simp at h1
  | some s1 =>
    rw [hf] at h1
    simp only [Option.map_some', Option.some.injEq] at h1
    refine ⟨s1, rfl, ?_⟩
    have := congrArg Store.id h1
    exact this

theorem findOneByOwner_setOwner (stores : List Store) (o : ObjectId) (s : Store)
    (hnone : Store.findOneByOwner stores o = none) (hs : s ∈ stores) :
    ∃ s1, Store.findOneByOwner (Store.setOwner stores s.id o) o = some s1 ∧ s1.id = s.id := by
  induction stores with
  | nil => simp at hs
  | cons a l ih =>
    rw [Store.setOwner]
    by_cases ha : a.id = s.id
    · rw [if_pos ha]
      refine ⟨{ a with owner := some o }, ?_, ha⟩
      simp [Store.findOneByOwner]
    · rw [if_neg ha]
      have hao : ¬ a.owner = some o := by
        intro h
        simp [Store.findOneByOwner, List.find?, h] at hnone
      have hl : Store.findOneByOwner l o = none := by
        simpa [Store.findOneByOwner, List.find?, hao] using hnone
      have hsl : s ∈ l := by
        rcases List.mem_cons.mp hs with h | h
        · exact absurd (by rw [h]) ha
        · exact h
      obtain ⟨s1, h1, h2⟩ := ih hl hsl
      refine ⟨s1, ?_, h2⟩
      unfold Store.findOneByOwner at h1 ⊢
      rw [List.find?_cons_of_neg _ (by simpa using hao)]
      exact h1

theorem findOneByOwner_append_new (stores : List Store) (o : ObjectId) (s : Store)
    (hnone : Store.findOneByOwner stores o = none) (hs : s.owner = some o) :
    Store.findOneByOwner (stores ++ [s]) o = some s := by
  unfold Store.findOneByOwner at hnone ⊢
  rw [List.find?_append, hnone]
  simp [hs]

theorem syncStoreStats_eq_recompute (s : ObjectId) (db : Db) :
    syncStoreStats s db = { db with stores := recomputeStore db.ratings db.stores s } := by
  rw [syncStoreStats_eq, calculateAverageRating_eq]

/-- A state `initializeDatabase` leaves as it is: the owner has a store whose
cached fields agree with the ledger, and either the store has five ratings or
the accounts and ratings the function would add are there. -/
theorem storeStage_fixed (env : Env) (o : User) (T : Db) (s1 : Store)
    (hfind : Store.findOneByOwner T.stores o.id = some s1)
    (hsync : recomputeStore T.ratings T.stores s1.id = T.stores)
    (hsmall : (T.ratings.filter (fun r => r.store = s1.id)).length < 5 →
      ∃ n dummy, User.findOneByEmail env T.users "user@rately.com" = some n ∧
        (∀ nameOf addressOf,
          ensureDummyUsers env nameOf addressOf [1, 2, 3, 4] T = some (dummy, T)) ∧
        ∀ r ∈ defaultRatings n dummy s1.id,
          (Rating.findOne T.ratings r.user r.store).isSome = true) :
    storeStage env o T = some T := by
  have hT : syncStoreStats s1.id T = T := by
    rw [syncStoreStats_eq_recompute, hsync]
  unfold storeStage
  simp only [hfind]
  unfold existingStoreStage
  by_cases hc : (T.ratings.filter (fun r => r.store = s1.id)).length < 5
  · obtain ⟨n, dummy, hn, hd, hr⟩ := hsmall hc
    simp only [hc, if_true, hn, hd, ensureRatings_found _ T hr, hT]
  · simp only [hc, if_false, hT]

theorem completePending_users (db : Db) : (completePending db).users = db.users := by
  rw [completePending_eq]

theorem completePending_stores_eraseStats (db : Db) :
    (completePending db).stores.map eraseStats = db.stores.map eraseStats := by
  rw [completePending_eq]
  exact foldl_recomputeStore_eraseStats _ _ _

/-- The state left by the branch for an existing store, once the pending
recomputations have completed. -/
theorem existingStoreStage_leaves (env : Env) (sid : ObjectId) (db4 S : Db) (n : User)
    (h : existingStoreStage env sid db4 = some S)
    (hn : User.findOneByEmail env db4.users "user@rately.com" = some n) :
    (∃ extra, S.users = db4.users ++ extra) ∧
    S.stores.map eraseStats = db4.stores.map eraseStats ∧
    recomputeStore (completePending S).ratings (completePending S).stores sid
      = (completePending S).stores ∧
    ((((completePending S).ratings.filter (fun r => r.store = sid)).length < 5) →
      ∃ n dummy, User.findOneByEmail env (completePending S).users "user@rately.com" = some n ∧
        (∀ nameOf addressOf,
          ensureDummyUsers env nameOf addressOf [1, 2, 3, 4] (completePending S)
            = some (dummy, completePending S)) ∧
        ∀ r ∈ defaultRatings n dummy sid,
          (Rating.findOne (completePending S).ratings r.user r.store).isSome = true) := by
  unfold existingStoreStage at h
  by_cases hc : (db4.ratings.filter (fun r => r.store = sid)).length < 5
  · simp only [hc, if_true, hn] at h
    cases hd : ensureDummyUsers env (fun i => "Test User " ++ toString i ++ " - Verified Account")
        (fun i => "Test Address " ++ toString i ++ " - Detailed Location Info")
        [1, 2, 3, 4] db4 with
    | none => simp [hd] at h
    | some p =>
      obtain ⟨dummy, db5⟩ := p
      simp only [hd] at h
      cases he : ensureRatings (defaultRatings n dummy sid) db5 with
      | none => simp [he] at h
      | some db6 =>
        simp only [he, Option.some.injEq] at h
        obtain ⟨⟨ex, hex⟩, hs5, hr5, _, _, hall⟩ := ensureDummyUsers_spec _ _ _ _ _ _ _ hd
        obtain ⟨hu6, hs6, _, hexists⟩ := ensureRatings_spec _ _ _ he
        have hS : S = { db6 with stores := recomputeStore db6.ratings db6.stores sid } := by
          rw [← h, syncStoreStats_eq_recompute]
        have hSu : S.users = db5.users := by rw [hS]; exact hu6
        have hSr : S.ratings = db6.ratings := by rw [hS]
        have hTu : (completePending S).users = db5.users := by rw [completePending_users, hSu]
        have hTr : (completePending S).ratings = db6.ratings := by
          rw [completePending_ratings, hSr]
        refine ⟨⟨ex, by rw [hSu, hex]⟩, ?_, ?_, ?_⟩
        · rw [hS]
          show (recomputeStore db6.ratings db6.stores sid).map eraseStats = _
          rw [recomputeStore_eraseStats, hs6, hs5]
        · rw [completePending_eq]
          show recomputeStore S.ratings (S.pending.foldl (recomputeStore S.ratings) S.stores) sid
            = S.pending.foldl (recomputeStore S.ratings) S.stores
          apply foldl_recomputeStore_keeps_fixed
          rw [hS]
          exact recomputeStore_idem _ _ _
        · intro _
          refine ⟨n, dummy, ?_, ?_, ?_⟩
          · rw [hTu, hex]
            exact findOneByEmail_append env _ _ _ _ hn
          · intro nameOf addressOf
            apply ensureDummyUsers_found
            rw [hTu]
            exact hall
          · intro r hr
            rw [hTr]
            exact hexists r hr
  · simp only [hc, if_false, Option.some.injEq] at h
    have hS : S = { db4 with stores := recomputeStore db4.ratings db4.stores sid } := by
      rw [← h, syncStoreStats_eq_recompute]
    have hSr : S.ratings = db4.ratings := by rw [hS]
    refine ⟨⟨[], by rw [hS]; simp⟩, ?_, ?_, ?_⟩
    · rw [hS]
      exact recomputeStore_eraseStats _ _ _
    · rw [completePending_eq]
      show recomputeStore S.ratings (S.pending.foldl (recomputeStore S.ratings) S.stores) sid
        = S.pending.foldl (recomputeStore S.ratings) S.stores
      apply foldl_recomputeStore_keeps_fixed
      rw [hS]
      exact recomputeStore_idem _ _ _
    · intro hlt
      rw [completePending_ratings, hSr] at hlt
      exact absurd hlt hc

theorem length_four {α : Type} (l : List α) (h : l.length = 4) :
    ∃ a b c d, l = [a, b, c, d] := by
  match l, h with
  | [a, b, c, d], _ => exact ⟨a, b, c, d, rfl⟩

/-- The state left by the branch that creates the store, once the pending
recomputations have completed. -/
theorem newStoreStage_leaves (env : Env) (o : User) (db4 S : Db) (n : User)
    (h : newStoreStage env o db4 = some S)
    (hn : User.findOneByEmail env db4.users "user@rately.com" = some n)
    (hnone : Store.findOneByOwner db4.stores o.id = none) :
    (∃ extra, S.users = db4.users ++ extra) ∧
    ∃ s1, Store.findOneByOwner (completePending S).stores o.id = some s1 ∧
      recomputeStore (completePending S).ratings (completePending S).stores s1.id
        = (completePending S).stores ∧
      5 ≤ ((completePending S).ratings.filter (fun r => r.store = s1.id)).length := by
  unfold newStoreStage at h
  simp only [hn] at h
  cases hd : ensureDummyUsers env (fun i => "Test User " ++ toString i)
      (fun i => "Test Address " ++ toString i) [1, 2, 3, 4]
      { db4 with stores := db4.stores ++
        [{ id := db4.newStoreId, name := "Tech Gadgets and Electronics Superstore"
           email := "info@techgadgets.com"
           address := "789 Store Blvd, Store City, Store State 13579"
           owner := some o.id, averageRating := 9 / 2, totalRatings := 12 }] } with
  | none => simp [hd] at h
  | some p =>
    obtain ⟨dummy, db6⟩ := p
    simp only [hd] at h
    obtain ⟨⟨ex, hex⟩, hs6, hr6, hp6, hlen, _⟩ := ensureDummyUsers_spec _ _ _ _ _ _ _ hd
    obtain ⟨d1, d2, d3, d4, hdummy⟩ := length_four dummy (by simpa using hlen)
    subst hdummy
    have hS := createRatings_spec _ _ _ h
    have hSs : S.stores = db4.stores ++
        [{ id := db4.newStoreId, name := "Tech Gadgets and Electronics Superstore"
           email := "info@techgadgets.com"
           address := "789 Store Blvd, Store City, Store State 13579"
           owner := some o.id, averageRating := 9 / 2, totalRatings := 12 }] := by
      rw [hS]; exact hs6
    have hfindS := findOneByOwner_append_new db4.stores o.id
      { id := db4.newStoreId, name := "Tech Gadgets and Electronics Superstore"
        email := "info@techgadgets.com"
        address := "789 Store Blvd, Store City, Store State 13579"
        owner := some o.id, averageRating := 9 / 2, totalRatings := 12 } hnone rfl
    rw [← hSs] at hfindS
    obtain ⟨s1, hs1, hid⟩ := findOneByOwner_of_eraseStats S.stores (completePending S).stores o.id _
      (completePending_stores_eraseStats S) hfindS
    have hid2 : s1.id = db4.newStoreId := hid
    refine ⟨⟨ex, by rw [hS]; exact hex⟩, s1, hs1, ?_, ?_⟩
    · rw [completePending_eq]
      show recomputeStore S.ratings (S.pending.foldl (recomputeStore S.ratings) S.stores) s1.id
        = S.pending.foldl (recomputeStore S.ratings) S.stores
      apply foldl_recomputeStore_fixed_of_mem
      rw [hS, hid2]
      simp [defaultRatings]
    · rw [completePending_ratings, hS, hid2]
      simp [defaultRatings, List.filter_append]

/-- The part of `initializeDatabase` after the accounts leaves a state that,
once the pending recomputations have completed, it leaves as it is. -/
theorem storeStage_leaves_fixed (env : Env) (o : User) (db3 S : Db) (n : User)
    (h : storeStage env o db3 = some S)
    (hn : User.findOneByEmail env db3.users "user@rately.com" = some n) :
    (∃ extra, S.users = db3.users ++ extra) ∧
    storeStage env o (completePending S) = some (completePending S) := by
  unfold storeStage at h
  cases hA : Store.findOneByOwner db3.stores o.id with
  | some s =>
    simp only [hA] at h
    obtain ⟨hu, he, hsync, hsmall⟩ := existingStoreStage_leaves env s.id db3 S n h hn
    refine ⟨hu, ?_⟩
    obtain ⟨s1, hs1, hid⟩ := findOneByOwner_of_eraseStats db3.stores (completePending S).stores
      o.id s ((completePending_stores_eraseStats S).trans he) hA
    rw [← hid] at hsync hsmall
    exact storeStage_fixed env o _ s1 hs1 hsync hsmall
  | none =>
    cases hB : Store.findOneByEmail db3.stores "info@techgadgets.com" with
    | some s =>
      simp only [hA, hB] at h
      have hmem : s ∈ db3.stores := List.mem_of_find?_eq_some hB
      obtain ⟨s0, hs0, hid0⟩ := findOneByOwner_setOwner db3.stores o.id s hA hmem
      obtain ⟨hu, he, hsync, hsmall⟩ := existingStoreStage_leaves env s.id
        { db3 with stores := Store.setOwner db3.stores s.id o.id } S n h hn
      refine ⟨hu, ?_⟩
      obtain ⟨s1, hs1, hid⟩ := findOneByOwner_of_eraseStats
        (Store.setOwner db3.stores s.id o.id) (completePending S).stores
        o.id s0 ((completePending_stores_eraseStats S).trans he) hs0
      rw [← hid0, ← hid] at hsync hsmall
      exact storeStage_fixed env o _ s1 hs1 hsync hsmall
    | none =>
      simp only [hA, hB] at h
      obtain ⟨hu, s1, hs1, hsync, hcount⟩ := newStoreStage_leaves env o db3 S n h hn hA
      refine ⟨hu, ?_⟩
      exact storeStage_fixed env o _ s1 hs1 hsync (fun hlt => absurd hcount (not_le.mpr hlt))

theorem initializeDatabase_fixed (env : Env) (db S : Db)
    (h : initializeDatabase env db = some S) :
    initializeDatabase env (completePending S) = some (completePending S) := by
  rw [initializeDatabase_eq] at h
  cases h1 : findOrCreateUser env db "System Administrator Account" "admin@rately.com"
      "Admin@123" "123 Admin Street, Admin City, Admin State 12345" "system_admin" with
  | none => simp [h1] at h
  | some p1 =>
    obtain ⟨a, db1⟩ := p1
    simp only [h1] at h
    cases h2 : findOrCreateUser env db1 "Normal User Account for Testing" "user@rately.com"
        "User@123" "456 User Avenue, User City, User State 67890" "normal_user" with
    | none => simp [h2] at h
    | some p2 =>
      obtain ⟨n, db2⟩ := p2
      simp only [h2] at h
      cases h3 : findOrCreateUser env db2 "Store Owner Account for Testing" "store@rately.com"
          "Store@123" "789 Store Blvd, Store City, Store State 13579" "store_owner" with
      | none => simp [h3] at h
      | some p3 =>
        obtain ⟨o, db3⟩ := p3
        simp only [h3] at h
        obtain ⟨ha, _, _, _, _⟩ := findOrCreateUser_spec _ _ _ _ _ _ _ _ _ h1
        obtain ⟨hn, ⟨ex2, hex2⟩, _, _, _⟩ := findOrCreateUser_spec _ _ _ _ _ _ _ _ _ h2
        obtain ⟨ho, ⟨ex3, hex3⟩, _, _, _⟩ := findOrCreateUser_spec _ _ _ _ _ _ _ _ _ h3
        have hn3 : User.findOneByEmail env db3.users "user@rately.com" = some n := by
          rw [hex3]; exact findOneByEmail_append env _ _ _ _ hn
        have ha3 : User.findOneByEmail env db3.users "admin@rately.com" = some a := by
          rw [hex3, hex2, List.append_assoc]; exact findOneByEmail_append env _ _ _ _ ha
        obtain ⟨⟨ex, hex⟩, hfix⟩ := storeStage_leaves_fixed env o db3 S n h hn3
        have hTu : (completePending S).users = db3.users ++ ex := by
          rw [completePending_users, hex]
        rw [initializeDatabase_eq]
        rw [findOrCreateUser_found env (completePending S) _ _ _ _ _ a
          (by rw [hTu]; exact findOneByEmail_append env _ _ _ _ ha3)]
        simp only
        rw [findOrCreateUser_found env (completePending S) _ _ _ _ _ n
          (by rw [hTu]; exact findOneByEmail_append env _ _ _ _ hn3)]
        simp only
        rw [findOrCreateUser_found env (completePending S) _ _ _ _ _ o
          (by rw [hTu]; exact findOneByEmail_append env _ _ _ _ ho)]
        exact hfix

theorem initializeDatabase_empty (env : Env) (hhash : ∀ p, env.hash p ≠ "")
    (hset : ∀ e ∈ seedEmails, emailSetter env e = e) :
    initializeDatabase env emptyDb =
      some { users := seedUsers env, stores := [seedStore (9 / 2) 12], ratings := seedRatings
             pending := [1, 1, 1, 1, 1] } := by
  have e1 : emailSetter env "admin@rately.com" = "admin@rately.com" := hset _ (by decide)
  have e2 : emailSetter env "user@rately.com" = "user@rately.com" := hset _ (by decide)
  have e3 : emailSetter env "store@rately.com" = "store@rately.com" := hset _ (by decide)
  have e4 : emailSetter env "user1@rately.com" = "user1@rately.com" := hset _ (by decide)
  have e5 : emailSetter env "user2@rately.com" = "user2@rately.com" := hset _ (by decide)
  have e6 : emailSetter env "user3@rately.com" = "user3@rately.com" := hset _ (by decide)
  have e7 : emailSetter env "user4@rately.com" = "user4@rately.com" := hset _ (by decide)
  have d1 : "user" ++ toString 1 ++ "@rately.com" = "user1@rately.com" := by decide
  have d2 : "user" ++ toString 2 ++ "@rately.com" = "user2@rately.com" := by decide
  have d3 : "user" ++ toString 3 ++ "@rately.com" = "user3@rately.com" := by decide
  have d4 : "user" ++ toString 4 ++ "@rately.com" = "user4@rately.com" := by decide
  have n1 : "Test User " ++ toString 1 = "Test User 1" := by decide
  have n2 : "Test User " ++ toString 2 = "Test User 2" := by decide
  have n3 : "Test User " ++ toString 3 = "Test User 3" := by decide
  have n4 : "Test User " ++ toString 4 = "Test User 4" := by decide
  have a1 : "Test Address " ++ toString 1 = "Test Address 1" := by decide
  have a2 : "Test Address " ++ toString 2 = "Test Address 2" := by decide
  have a3 : "Test Address " ++ toString 3 = "Test Address 3" := by decide
  have a4 : "Test Address " ++ toString 4 = "Test Address 4" := by decide
  have hh1 := hhash "Admin@123"
  have hh2 := hhash "User@123"
  have hh3 := hhash "Store@123"
  rw [initializeDatabase_eq]
  simp +decide [findOrCreateUser, User.findOneByEmail, emptyDb, e1, e2, e3, e4, e5, e6, e7,
    d1, d2, d3, d4, n1, n2, n3, n4, a1, a2, a3, a4, User.schemaAccepts, hh1, hh2, hh3,
    Db.newUserId, Db.newStoreId, unusedId, storeStage, newStoreStage, Store.findOneByOwner,
    Store.findOneByEmail, ensureDummyUsers, createRatings, Rating.create, Rating.findOne,
    defaultRatings, postSave, seedUsers, seedStore, seedRatings]

theorem completePending_seed (env : Env) :
    completePending
      { users := seedUsers env, stores := [seedStore (9 / 2) 12], ratings := seedRatings
        pending := [1, 1, 1, 1, 1] } = seedDb env := by
  have t : toFixed1 (23 / 5) = 23 / 5 := by
    rw [toFixed1_eq_of (23 / 5) 46 (by norm_num) (by norm_num) (by norm_num)]
    norm_num
  have hs : statisticsOf seedRatings 1 = (23 / 5, 5) := by
    have hsum : ((5 : ℚ) + (4 + (5 + (5 + 4)))) / 5 = 23 / 5 := by norm_num
    simp [statisticsOf, aggregate, seedRatings, hsum, t]
  rw [completePending_eq]
  simp [recomputeStore, hs, Store.findByIdAndUpdate, seedStore, seedDb]

theorem sampleEnv_hash (p : String) : sampleEnv.hash p ≠ "" := by
  intro h
  have := congrArg String.data h
  simp [sampleEnv] at this

theorem foldl_max_le (used : List ObjectId) (a : ObjectId) :
    a ≤ used.foldl max a ∧ ∀ x ∈ used, x ≤ used.foldl max a := by
  induction used generalizing a with
  | nil => simp
  | cons y l ih =>
    simp only [List.foldl_cons, List.mem_cons]
    obtain ⟨h1, h2⟩ := ih (max a y)
    refine ⟨le_trans (le_max_left a y) h1, ?_⟩
    intro x hx
    rcases hx with hx | hx
    · rw [hx]; exact le_trans (le_max_right a y) h1
    · exact h2 x hx

theorem unusedId_fresh (used : List ObjectId) : ∀ x ∈ used, x < unusedId used := by
  intro x hx
  unfold unusedId
  exact Nat.lt_succ_of_le ((foldl_max_le used 0).2 x hx)

theorem newUserId_fresh (db : Db) : ∀ u ∈ db.users, u.id ≠ db.newUserId := by
  intro u hu
  have : u.id ∈ db.users.map (fun u => u.id) ++ db.ratings.map (fun r => r.user)
      ++ db.stores.filterMap (fun s => s.owner) := by
    simp only [List.mem_append, List.mem_map]
    exact Or.inl (Or.inl ⟨u, hu, rfl⟩)
  exact Nat.ne_of_lt (unusedId_fresh _ _ this)

theorem newStoreId_fresh (db : Db) : ∀ r ∈ db.ratings, r.store ≠ db.newStoreId := by
  intro r hr
  have : r.store ∈ db.stores.map (fun s => s.id) ++ db.ratings.map (fun r => r.store) := by
    simp only [List.mem_append, List.mem_map]
    exact Or.inr ⟨r, hr, rfl⟩
  exact Nat.ne_of_lt (unusedId_fresh _ _ this)

/-- With a hash that is never empty and a stored email that is not empty, the
account pattern returns for a name, address and role the schema accepts, and
keeps user ids unique. -/
theorem findOrCreateUser_total (env : Env) (db : Db) (n e p a r : String)
    (hn : n ≠ "" ∧ 3 ≤ utf16Length n ∧ utf16Length n ≤ 60) (he : emailSetter env e ≠ "")
    (hp : env.hash p ≠ "") (ha : a ≠ "" ∧ utf16Length a ≤ 400)
    (hr : r ∈ ["system_admin", "normal_user", "store_owner"])
    (hnodup : (db.users.map (fun u => u.id)).Nodup) :
    ∃ u db1, findOrCreateUser env db n e p a r = some (u, db1) ∧
      (db1.users.map (fun u => u.id)).Nodup := by
  unfold findOrCreateUser
  cases hf : User.findOneByEmail env db.users e with
  | some found => exact ⟨found, db, rfl, hnodup⟩
  | none =>
    have hacc : User.schemaAccepts ⟨db.newUserId, n, emailSetter env e, env.hash p, a, r⟩
        = true := by
      unfold User.schemaAccepts
      simp only [Bool.and_eq_true, decide_eq_true_eq]
      exact ⟨⟨⟨⟨⟨⟨⟨hn.1, hn.2.1⟩, hn.2.2⟩, he⟩, hp⟩, ha.1⟩, ha.2⟩, hr⟩
    simp only [hacc, if_true]
    refine ⟨_, _, rfl, ?_⟩
    simp only [List.map_append, List.map_cons, List.map_nil]
    rw [List.nodup_append]
    refine ⟨hnodup, by simp, ?_⟩
    intro x hx hy
    simp only [List.mem_singleton] at hy
    obtain ⟨u, hu, hux⟩ := List.mem_map.mp hx
    exact newUserId_fresh db u hu (hux.trans hy)

theorem ensureDummyUsers_total (env : Env) (nameOf addressOf : Nat → String) (l : List Nat)
    (db : Db) (hhash : ∀ p, env.hash p ≠ "")
    (hvalid : ∀ i ∈ l, (nameOf i ≠ "" ∧ 3 ≤ utf16Length (nameOf i) ∧ utf16Length (nameOf i) ≤ 60) ∧
      emailSetter env ("user" ++ toString i ++ "@rately.com") ≠ "" ∧
      (addressOf i ≠ "" ∧ utf16Length (addressOf i) ≤ 400))
    (hnodup : (db.users.map (fun u => u.id)).Nodup) :
    ∃ us db1, ensureDummyUsers env nameOf addressOf l db = some (us, db1) ∧
      (db1.users.map (fun u => u.id)).Nodup := by
  induction l generalizing db with
  | nil => exact ⟨[], db, rfl, hnodup⟩
  | cons i rest ih =>
    obtain ⟨hn, he, ha⟩ := hvalid i (List.mem_cons_self _ _)
    obtain ⟨u, dbA, h1, hnd1⟩ := findOrCreateUser_total env db (nameOf i)
      ("user" ++ toString i ++ "@rately.com") "User@123" (addressOf i) "normal_user" hn he
      (hhash _) ha (by decide) hnodup
    obtain ⟨us, dbB, h2, hnd2⟩ := ih dbA (fun j hj => hvalid j (List.mem_cons_of_mem _ hj)) hnd1
    refine ⟨u :: us, dbB, ?_, hnd2⟩
    rw [ensureDummyUsers, h1]
    simp only [h2]

theorem createRatings_total (l : List Rating) (db : Db)
    (hnew : ∀ r ∈ l, Rating.findOne db.ratings r.user r.store = none)
    (hnodup : (l.map (fun r => (r.user, r.store))).Nodup) :
    ∃ S, createRatings l db = some S := by
  induction l generalizing db with
  | nil => exact ⟨db, rfl⟩
  | cons r rest ih =>
    rw [List.map_cons, List.nodup_cons] at hnodup
    have hr := hnew r (List.mem_cons_self _ _)
    rw [createRatings]
    have hc : Rating.create db r
        = some (postSave r { db with ratings := db.ratings ++ [r] }) := by
      unfold Rating.create
      simp only [hr]
    rw [hc]
    simp only
    apply ih _ _ hnodup.2
    intro x hx
    have hx0 := hnew x (List.mem_cons_of_mem _ hx)
    unfold Rating.findOne at hx0 ⊢
    show List.find? _ (db.ratings ++ [r]) = none
    rw [List.find?_append, hx0]
    have hne : ¬ (r.user = x.user ∧ r.store = x.store) := by
      intro h
      apply hnodup.1
      exact List.mem_map.mpr ⟨x, hx, by rw [h.1, h.2]⟩
    simp [hne]

theorem ensureRatings_total (l : List Rating) (db : Db) : ∃ S, ensureRatings l db = some S := by
  induction l generalizing db with
  | nil => exact ⟨db, rfl⟩
  | cons r rest ih =>
    rw [ensureRatings]
    cases hf : Rating.findOne db.ratings r.user r.store with
    | some e => exact ih db
    | none =>
      have hc : Rating.create db r
          = some (postSave r { db with ratings := db.ratings ++ [r] }) := by
        unfold Rating.create
        simp only [hf]
      simp only [hc]
      exact ih _

theorem dummy_valid (env : Env) (hset : ∀ e ∈ seedEmails, emailSetter env e = e)
    (nameOf addressOf : Nat → String)
    (hname : ∀ i ∈ [1, 2, 3, 4],
      nameOf i ≠ "" ∧ 3 ≤ utf16Length (nameOf i) ∧ utf16Length (nameOf i) ≤ 60)
    (haddress : ∀ i ∈ [1, 2, 3, 4], addressOf i ≠ "" ∧ utf16Length (addressOf i) ≤ 400) :
    ∀ i ∈ [1, 2, 3, 4],
      (nameOf i ≠ "" ∧ 3 ≤ utf16Length (nameOf i) ∧ utf16Length (nameOf i) ≤ 60) ∧
      emailSetter env ("user" ++ toString i ++ "@rately.com") ≠ "" ∧
      (addressOf i ≠ "" ∧ utf16Length (addressOf i) ≤ 400) := by
  intro i hi
  refine ⟨hname i hi, ?_, haddress i hi⟩
  have hmem : "user" ++ toString i ++ "@rately.com" ∈ seedEmails := by
    revert i
    decide
  rw [hset _ hmem]
  revert i
  decide

theorem existingStoreStage_total (env : Env) (sid : ObjectId) (db4 : Db) (n : User)
    (hhash : ∀ p, env.hash p ≠ "") (hset : ∀ e ∈ seedEmails, emailSetter env e = e)
    (hnodup : (db4.users.map (fun u => u.id)).Nodup)
    (hn : User.findOneByEmail env db4.users "user@rately.com" = some n) :
    ∃ S, existingStoreStage env sid db4 = some S := by
  unfold existingStoreStage
  by_cases hc : (db4.ratings.filter (fun r => r.store = sid)).length < 5
  · simp only [hc, if_true, hn]
    obtain ⟨us, db5, hd, _⟩ := ensureDummyUsers_total env
      (fun i => "Test User " ++ toString i ++ " - Verified Account")
      (fun i => "Test Address " ++ toString i ++ " - Detailed Location Info") [1, 2, 3, 4] db4
      hhash (dummy_valid env hset _ _ (by decide) (by decide)) hnodup
    simp only [hd]
    obtain ⟨S6, h6⟩ := ensureRatings_total (defaultRatings n us sid) db5
    simp only [h6]
    exact ⟨_, rfl⟩
  · simp only [hc, if_false]
    exact ⟨_, rfl⟩

theorem findOneByEmail_some (env : Env) (users : List User) (e : String) (u : User)
    (h : User.findOneByEmail env users e = some u) : u ∈ users ∧ u.email = emailSetter env e := by
  unfold User.findOneByEmail at h
  exact ⟨List.mem_of_find?_eq_some h, by simpa using List.find?_some h⟩

theorem newStoreStage_total (env : Env) (o : User) (db4 : Db) (n : User)
    (hhash : ∀ p, env.hash p ≠ "") (hset : ∀ e ∈ seedEmails, emailSetter env e = e)
    (hnodup : (db4.users.map (fun u => u.id)).Nodup)
    (hn : User.findOneByEmail env db4.users "user@rately.com" = some n) :
    ∃ S, newStoreStage env o db4 = some S := by
  unfold newStoreStage
  simp only [hn]
  obtain ⟨us, db6, hd, hnd6⟩ := ensureDummyUsers_total env (fun i => "Test User " ++ toString i)
    (fun i => "Test Address " ++ toString i) [1, 2, 3, 4]
    { db4 with stores := db4.stores ++
      [{ id := db4.newStoreId, name := "Tech Gadgets and Electronics Superstore"
         email := "info@techgadgets.com"
         address := "789 Store Blvd, Store City, Store State 13579"
         owner := some o.id, averageRating := 9 / 2, totalRatings := 12 }] }
    hhash (dummy_valid env hset _ _ (by decide) (by decide)) hnodup
  simp only [hd]
  obtain ⟨⟨ex, hex⟩, _, hr6, _, hlen, hall⟩ := ensureDummyUsers_spec _ _ _ _ _ _ _ hd
  obtain ⟨d1, d2, d3, d4, hdummy⟩ := length_four us (by simpa using hlen)
  subst hdummy
  simp only [List.forall₂_cons, List.forall₂_nil_right_iff, and_true] at hall
  obtain ⟨f1, f2, f3, f4⟩ := hall
  have hn6 : User.findOneByEmail env db6.users "user@rately.com" = some n := by
    rw [hex]; exact findOneByEmail_append env _ _ _ _ hn
  obtain ⟨m0, q0⟩ := findOneByEmail_some _ _ _ _ hn6
  obtain ⟨m1, q1⟩ := findOneByEmail_some _ _ _ _ f1
  obtain ⟨m2, q2⟩ := findOneByEmail_some _ _ _ _ f2
  obtain ⟨m3, q3⟩ := findOneByEmail_some _ _ _ _ f3
  obtain ⟨m4, q4⟩ := findOneByEmail_some _ _ _ _ f4
  rw [hset _ (by decide)] at q0 q1 q2 q3 q4
  have hemails : ([n, d1, d2, d3, d4].map (fun u => u.email)).Nodup := by
    simp only [List.map_cons, List.map_nil, q0, q1, q2, q3, q4]
    decide
  have hus : [n, d1, d2, d3, d4].Nodup := List.Nodup.of_map _ hemails
  have hids : ([n, d1, d2, d3, d4].map (fun u => u.id)).Nodup := by
    apply List.Nodup.map_on _ hus
    intro x hx y hy hxy
    have hx6 : x ∈ db6.users := by
      simp only [List.mem_cons, List.mem_singleton, List.not_mem_nil, or_false] at hx
      rcases hx with h | h | h | h | h <;> rw [h] <;> assumption
    have hy6 : y ∈ db6.users := by
      simp only [List.mem_cons, List.mem_singleton, List.not_mem_nil, or_false] at hy
      rcases hy with h | h | h | h | h <;> rw [h] <;> assumption
    exact List.inj_on_of_nodup_map hnd6 hx6 hy6 hxy
  apply createRatings_total
  · intro r hr
    have hstore : r.store = db4.newStoreId := by
      simp only [defaultRatings, List.zipWith_cons_cons, List.zipWith_nil_left, List.mem_cons,
        List.mem_singleton, List.not_mem_nil, or_false] at hr
      rcases hr with h | h | h | h | h <;> rw [h]
    unfold Rating.findOne
    rw [List.find?_eq_none]
    intro x hx
    have hx4 : x ∈ db4.ratings := by
      rw [hr6] at hx
      exact hx
    have := newStoreId_fresh db4 x hx4
    simp only [decide_eq_true_eq, not_and]
    intro _
    rw [hstore]
    exact this
  · have hmap : (defaultRatings n [d1, d2, d3, d4] db4.newStoreId).map (fun r => (r.user, r.store))
        = ([n, d1, d2, d3, d4].map (fun u => u.id)).map (fun i => (i, db4.newStoreId)) := by
      simp [defaultRatings]
    rw [hmap]
    exact List.Nodup.map (fun a b h => (Prod.mk.inj h).1) hids

theorem storeStage_total (env : Env) (o : User) (db3 : Db) (n : User)
    (hhash : ∀ p, env.hash p ≠ "") (hset : ∀ e ∈ seedEmails, emailSetter env e = e)
    (hnodup : (db3.users.map (fun u => u.id)).Nodup)
    (hn : User.findOneByEmail env db3.users "user@rately.com" = some n) :
    ∃ S, storeStage env o db3 = some S := by
  unfold storeStage
  cases hA : Store.findOneByOwner db3.stores o.id with
  | some s =>
    simp only
    exact existingStoreStage_total env s.id db3 n hhash hset hnodup hn
  | none =>
    cases hB : Store.findOneByEmail db3.stores "info@techgadgets.com" with
    | some s =>
      simp only
      exact existingStoreStage_total env s.id _ n hhash hset hnodup hn
    | none =>
      simp only
      exact newStoreStage_total env o db3 n hhash hset hnodup hn

/-- With a hash that is never empty, email setters that leave the seed emails
as they are and unique user ids, `initializeDatabase` returns. -/
theorem initializeDatabase_total (env : Env) (db : Db)
    (hhash : ∀ p, env.hash p ≠ "") (hset : ∀ e ∈ seedEmails, emailSetter env e = e)
    (hnodup : (db.users.map (fun u => u.id)).Nodup) :
    ∃ S, initializeDatabase env db = some S := by
  obtain ⟨a, db1, h1, hnd1⟩ := findOrCreateUser_total env db "System Administrator Account"
    "admin@rately.com" "Admin@123" "123 Admin Street, Admin City, Admin State 12345"
    "system_admin" (by decide) (by rw [hset _ (by decide)]; decide) (hhash _) (by decide)
    (by decide) hnodup
  obtain ⟨n, db2, h2, hnd2⟩ := findOrCreateUser_total env db1 "Normal User Account for Testing"
    "user@rately.com" "User@123" "456 User Avenue, User City, User State 67890"
    "normal_user" (by decide) (by rw [hset _ (by decide)]; decide) (hhash _) (by decide)
    (by decide) hnd1
  obtain ⟨o, db3, h3, hnd3⟩ := findOrCreateUser_total env db2 "Store Owner Account for Testing"
    "store@rately.com" "Store@123" "789 Store Blvd, Store City, Store State 13579"
    "store_owner" (by decide) (by rw [hset _ (by decide)]; decide) (hhash _) (by decide)
    (by decide) hnd2
  obtain ⟨hn, _, _, _, _⟩ := findOrCreateUser_spec _ _ _ _ _ _ _ _ _ h2
  obtain ⟨_, ⟨ex3, hex3⟩, _, _, _⟩ := findOrCreateUser_spec _ _ _ _ _ _ _ _ _ h3
  have hn3 : User.findOneByEmail env db3.users "user@rately.com" = some n := by
    rw [hex3]; exact findOneByEmail_append env _ _ _ _ hn
  rw [initializeDatabase_eq, h1]
  simp only
  rw [h2]
  simp only
  rw [h3]
  exact storeStage_total env o db3 n hhash hset hnd3 hn3

/-- C25. The seed is idempotent: whenever `initializeDatabase` returns, running
it again on the state it left, the recomputations it started having completed,
returns and leaves that state as it is: the same users, stores and ratings and
the same cached statistics, with nothing pending.  For an environment whose
hash is never empty and whose email setters leave the seed emails as they are,
it returns on every database with unique user ids; and on the empty database,
once the recomputations have completed, the state is the seed: the admin,
normal user and store owner accounts and the four test users, one store with
`averageRating` 4.6 and `totalRatings` 5, and five ratings, which a second run
leaves as it is. -/
theorem initializeDatabase_idempotent (env : Env) (db : Db) :
    (∀ S, initializeDatabase env db = some S →
      initializeDatabase env (completePending S) = some (completePending S)) ∧
    ((∀ p, env.hash p ≠ "") → (∀ e ∈ seedEmails, emailSetter env e = e) →
      ((db.users.map (fun u => u.id)).Nodup → ∃ S, initializeDatabase env db = some S) ∧
      ∃ S0, initializeDatabase env emptyDb = some S0 ∧ completePending S0 = seedDb env ∧
        initializeDatabase env (seedDb env) = some (seedDb env)) := by
  refine ⟨initializeDatabase_fixed env db, ?_⟩
  intro hhash hset
  have h0 := initializeDatabase_empty env hhash hset
  refine ⟨initializeDatabase_total env db hhash hset, _, h0, completePending_seed env, ?_⟩
  have := initializeDatabase_fixed env emptyDb _ h0
  rw [completePending_seed] at this
  exact this

theorem initializeDatabase_idempotent_witness :
    initializeDatabase sampleEnv emptyDb =
      some { users := seedUsers sampleEnv, stores := [seedStore (9 / 2) 12], ratings := seedRatings
             pending := [1, 1, 1, 1, 1] } ∧
    initializeDatabase sampleEnv (seedDb sampleEnv) = some (seedDb sampleEnv) := by
  have h0 := initializeDatabase_empty sampleEnv sampleEnv_hash (by decide)
  have h := (initializeDatabase_idempotent sampleEnv emptyDb).1 _ h0
  rw [completePending_seed] at h
  exact ⟨h0, h⟩

end Rately
